import Mathlib

/-!
# Mutex and condition-variable wrappers of `src/common/mutex.cpp`

The file embeds the two platform branches of the source:

* the operating-system primitives the wrappers call (critical sections, event
  objects, `WaitForMultipleObjects`, the default pthread mutex), as small
  executable state transformers;
* the wrappers themselves (`ramutex_*`, `racond_*`), statement by statement;
* for the WIN32 branch, where `racond_wait` is a hand-written protocol over two
  event objects, an interleaving semantics: every thread has a program counter
  naming the source line it is about to execute, and a scheduler action makes
  one thread execute one statement.

A blocking call is a transition that is not enabled: the functions return
`none` when the calling thread cannot proceed.
-/

namespace RaMutex

/-- Thread identifiers. -/
abbrev Tid := Nat

/-! ## Operating-system primitives -/

/-- A Win32 critical section: a recursive exclusive lock. -/
structure CRITICAL_SECTION where
  OwningThread : Option Tid
  RecursionCount : Nat
deriving DecidableEq

/-- State written by `InitializeCriticalSection`. -/
def InitializeCriticalSection : CRITICAL_SECTION :=
  { OwningThread := none, RecursionCount := 0 }

/-- Blocking acquire of a critical section by thread `t`; `none` means that the
caller cannot proceed (another thread owns the section). The owner may enter
again. -/
def EnterCriticalSection (cs : CRITICAL_SECTION) (t : Tid) : Option CRITICAL_SECTION :=
  match cs.OwningThread with
  | none => some { OwningThread := some t, RecursionCount := 1 }
  | some o =>
    if o = t then some { OwningThread := some t, RecursionCount := cs.RecursionCount + 1 }
    else none

/-- Non-blocking acquire: the returned flag is the Win32 `BOOL` result. -/
def TryEnterCriticalSection (cs : CRITICAL_SECTION) (t : Tid) : Bool × CRITICAL_SECTION :=
  match EnterCriticalSection cs t with
  | some cs' => (true, cs')
  | none => (false, cs)

/-- Release of a critical section by thread `t`; `none` stands for the
undefined behaviour of leaving a section the caller does not own. -/
def LeaveCriticalSection (cs : CRITICAL_SECTION) (t : Tid) : Option CRITICAL_SECTION :=
  if cs.OwningThread = some t then
    if cs.RecursionCount ≤ 1 then some { OwningThread := none, RecursionCount := 0 }
    else some { OwningThread := some t, RecursionCount := cs.RecursionCount - 1 }
  else none

/-- A Win32 event object. -/
structure Event where
  bManualReset : Bool
  signaled : Bool
deriving DecidableEq

/-- The call `CreateEvent(NULL, bManualReset, bInitialState, NULL)`. -/
def CreateEvent (bManualReset bInitialState : Bool) : Event :=
  { bManualReset := bManualReset, signaled := bInitialState }

/-- The call `SetEvent`. -/
def SetEvent (e : Event) : Event := { e with signaled := true }

/-- The call `ResetEvent`. -/
def ResetEvent (e : Event) : Event := { e with signaled := false }

/-- The array `HANDLE events[2]`. -/
structure EventArray where
  h0 : Event
  h1 : Event
deriving DecidableEq

/-- Array read `events[i]`. -/
def EventArray.get (a : EventArray) (i : Fin 2) : Event :=
  if i = 0 then a.h0 else a.h1

/-- Array write `events[i] = e`. -/
def EventArray.set (a : EventArray) (i : Fin 2) (e : Event) : EventArray :=
  if i = 0 then { a with h0 := e } else { a with h1 := e }

def WAIT_OBJECT_0 : Nat := 0

def WAIT_TIMEOUT : Nat := 258

def MAXDWORD : Nat := 4294967295

def INFINITE : Nat := 4294967295

/-- Effect on the satisfying object of a wait: an auto-reset event returns to
the unsignaled state, a manual-reset event keeps its state. -/
def consumeEvent (a : EventArray) (i : Fin 2) : EventArray :=
  if (a.get i).bManualReset then a else a.set i (ResetEvent (a.get i))

/-- The call `WaitForMultipleObjects(2, events, FALSE, ms)` at the moment it is
satisfied by an object: the result is `WAIT_OBJECT_0 + i` for the lowest index
`i` of a signaled object. `none` means that no object is signaled, so the caller
stays blocked (until an object is signaled or the timeout elapses). -/
def WaitForMultipleObjects (events : EventArray) : Option (Nat × EventArray) :=
  if (events.get 0).signaled then some (WAIT_OBJECT_0 + 0, consumeEvent events 0)
  else if (events.get 1).signaled then some (WAIT_OBJECT_0 + 1, consumeEvent events 1)
  else none

/-- A pthread mutex with default attributes (not recursive). -/
structure pthread_mutex_t where
  owner : Option Tid
deriving DecidableEq

def EBUSY : Nat := 16

/-- The call `pthread_mutex_init(&mx, NULL)`. -/
def pthread_mutex_init : pthread_mutex_t := { owner := none }

/-- The call `pthread_mutex_trylock`: returns `0` and acquires a free mutex, and
returns `EBUSY` at once when the mutex is locked by any thread, the caller
included. -/
def pthread_mutex_trylock (mx : pthread_mutex_t) (t : Tid) : Nat × pthread_mutex_t :=
  match mx.owner with
  | none => (0, { owner := some t })
  | some _ => (EBUSY, mx)

/-- The call `pthread_mutex_lock`; `none` means that the caller cannot
proceed. -/
def pthread_mutex_lock (mx : pthread_mutex_t) (t : Tid) : Option pthread_mutex_t :=
  match mx.owner with
  | none => some { owner := some t }
  | some _ => none

/-- The call `pthread_mutex_unlock`; `none` stands for the undefined behaviour
of unlocking a mutex the caller does not hold. -/
def pthread_mutex_unlock (mx : pthread_mutex_t) (t : Tid) : Option pthread_mutex_t :=
  if mx.owner = some t then some { owner := none } else none

/-- Observable side effects of the two creation functions, in program order. -/
inductive Effect where
  | ShowFatalError (msg : String)
  | InitializeCriticalSection
  | CreateEvent (bManualReset bInitialState : Bool)
  | pthread_mutex_init
  | pthread_cond_init
deriving DecidableEq

/-- Whether an effect is a call of the fatal-error reporter. -/
def Effect.isFatal : Effect → Bool
  | .ShowFatalError _ => true
  | _ => false

/-- Whether an effect initialises a platform primitive. -/
def Effect.isInit : Effect → Bool
  | .ShowFatalError _ => false
  | _ => true

/-! ## The `EVENT_COND_*` indices

The struct `racond` and the two index macros are declared outside the source
file. The indices are kept as a parameter: two distinct positions of the
two-element handle array. -/

/-- The macros `EVENT_COND_SIGNAL` and `EVENT_COND_BROADCAST`. -/
structure EventIndices where
  EVENT_COND_SIGNAL : Fin 2
  EVENT_COND_BROADCAST : Fin 2
  distinct : EVENT_COND_SIGNAL ≠ EVENT_COND_BROADCAST

/-- Signal event first. -/
def sigFirst : EventIndices :=
  { EVENT_COND_SIGNAL := 0, EVENT_COND_BROADCAST := 1, distinct := by decide }

/-- Broadcast event first. -/
def bcFirst : EventIndices :=
  { EVENT_COND_SIGNAL := 1, EVENT_COND_BROADCAST := 0, distinct := by decide }

/-! ## WIN32 branch -/

namespace Win32

/-- The struct `ramutex` under `WIN32`. -/
structure ramutex where
  hMutex : CRITICAL_SECTION
deriving DecidableEq

/-- Modelled from the spec: the struct `racond` is declared outside the source
file; under `WIN32` it holds the waiter count (an unsigned integer, 32 bits
here), the auxiliary lock and the two notification objects. -/
structure racond where
  events : EventArray
  nWaiters : Nat
  waiters_lock : CRITICAL_SECTION
deriving DecidableEq

/-- Function `ramutex_create`, lines 28-44. The argument is what `aMalloc` returned:
`none` for `NULL`, otherwise the block with its unspecified contents. -/
def ramutex_create (aMalloc : Option ramutex) : Option ramutex × List Effect :=
  match aMalloc with
  | none => (none, [Effect.ShowFatalError "ramutex_create: OOM while allocating %u bytes.\n"])
  | some m =>
    let m := { m with hMutex := InitializeCriticalSection }
    (some m, [Effect.InitializeCriticalSection])

/-- Function `ramutex_lock`, lines 60-67. -/
def ramutex_lock (m : ramutex) (t : Tid) : Option ramutex :=
  (EnterCriticalSection m.hMutex t).map fun cs => { m with hMutex := cs }

/-- Function `ramutex_trylock`, lines 70-82. -/
def ramutex_trylock (m : ramutex) (t : Tid) : Bool × ramutex :=
  let r := TryEnterCriticalSection m.hMutex t
  if r.1 = true then (true, { m with hMutex := r.2 })
  else (false, { m with hMutex := r.2 })

/-- Function `ramutex_unlock`, lines 85-92. -/
def ramutex_unlock (m : ramutex) (t : Tid) : Option ramutex :=
  (LeaveCriticalSection m.hMutex t).map fun cs => { m with hMutex := cs }

/-- Function `racond_create`, lines 102-121. -/
def racond_create (ix : EventIndices) (aMalloc : Option racond) : Option racond × List Effect :=
  match aMalloc with
  | none => (none, [Effect.ShowFatalError "racond_create: OOM while allocating %u bytes\n"])
  | some c =>
    let c := { c with nWaiters := 0 }
    let c := { c with events := c.events.set ix.EVENT_COND_SIGNAL (CreateEvent false false) }
    let c := { c with events := c.events.set ix.EVENT_COND_BROADCAST (CreateEvent true false) }
    let c := { c with waiters_lock := InitializeCriticalSection }
    (some c, [Effect.CreateEvent false false, Effect.CreateEvent true false,
      Effect.InitializeCriticalSection])

/-- Function `racond_signal`, lines 195-208: an unconditional `SetEvent`. -/
def racond_signal (ix : EventIndices) (c : racond) : racond :=
  let e := SetEvent (c.events.get ix.EVENT_COND_SIGNAL)
  { c with events := c.events.set ix.EVENT_COND_SIGNAL e }

/-- Function `racond_broadcast`, lines 211-224: an unconditional `SetEvent`. -/
def racond_broadcast (ix : EventIndices) (c : racond) : racond :=
  let e := SetEvent (c.events.get ix.EVENT_COND_BROADCAST)
  { c with events := c.events.set ix.EVENT_COND_BROADCAST e }

/-- The millisecond argument computed at lines 148-151 of `racond_wait`, with
`sysint` a signed integer and the `(DWORD)` cast a reduction modulo `2^32`. -/
def racond_wait_ms (timeout_ticks : Int) : Nat :=
  if timeout_ticks < 0 then INFINITE
  else if timeout_ticks > (MAXDWORD : Int) then MAXDWORD - 1
  else (timeout_ticks % (2 : Int) ^ 32).toNat

/-! ### Interleaving semantics of the emulated condition variable -/

/-- Program counter of a thread: `idle` outside `racond_wait`, otherwise the
source line of the statement the thread executes next, with the values of the
locals that are live there. -/
inductive PC where
  | idle
  | L144 (timeout_ticks : Int)
  | L145 (timeout_ticks : Int)
  | L146 (timeout_ticks : Int)
  | L148 (timeout_ticks : Int)
  | L157 (ms : Nat)
  | L159 (ms : Nat)
  | L162 (result : Nat)
  | L163 (result : Nat)
  | L164 (result : Nat)
  | L166 (is_last : Bool)
  | L172 (is_last : Bool)
  | L176
deriving DecidableEq

/-- One condition variable `c`, one mutex `m` and the threads using them. -/
structure State where
  c : racond
  m : ramutex
  pcs : List PC
deriving DecidableEq

/-- Scheduler choices: a call made by an idle thread, the next statement of
`racond_wait` of a thread inside it (`adv`), or the expiry of the timeout of a
thread blocked at line 159 (`timeout`). -/
inductive Action where
  | ramutex_lock (t : Tid)
  | ramutex_trylock (t : Tid)
  | ramutex_unlock (t : Tid)
  | racond_wait (t : Tid) (timeout_ticks : Int)
  | racond_signal (t : Tid)
  | racond_broadcast (t : Tid)
  | adv (t : Tid)
  | timeout (t : Tid)
deriving DecidableEq

/-- The statement `c->nWaiters++` on the 32-bit unsigned counter. -/
def incWaiters (n : Nat) : Nat := (n + 1) % 2 ^ 32

/-- The statement `c->nWaiters--` on the 32-bit unsigned counter: the value
`(n - 1) mod 2^32`, which is `0xFFFFFFFF` at `n = 0` and `n - 1` otherwise. -/
def decWaiters (n : Nat) : Nat := if n = 0 then MAXDWORD else n - 1

/-- Thread `t` executes the statement of `racond_wait` (lines 137-177) its
program counter points at. -/
def racond_wait_step (ix : EventIndices) (s : State) (t : Tid) : PC → Option State
  | .idle => none
  | .L144 tk =>
    (EnterCriticalSection s.c.waiters_lock t).map fun wl =>
      { s with c := { s.c with waiters_lock := wl }, pcs := s.pcs.set t (.L145 tk) }
  | .L145 tk =>
    some { s with c := { s.c with nWaiters := incWaiters s.c.nWaiters },
                  pcs := s.pcs.set t (.L146 tk) }
  | .L146 tk =>
    (LeaveCriticalSection s.c.waiters_lock t).map fun wl =>
      { s with c := { s.c with waiters_lock := wl }, pcs := s.pcs.set t (.L148 tk) }
  | .L148 tk =>
    some { s with pcs := s.pcs.set t (.L157 (racond_wait_ms tk)) }
  | .L157 ms =>
    (ramutex_unlock s.m t).map fun m =>
      { s with m := m, pcs := s.pcs.set t (.L159 ms) }
  | .L159 _ =>
    (WaitForMultipleObjects s.c.events).map fun r =>
      { s with c := { s.c with events := r.2 }, pcs := s.pcs.set t (.L162 r.1) }
  | .L162 result =>
    (EnterCriticalSection s.c.waiters_lock t).map fun wl =>
      { s with c := { s.c with waiters_lock := wl }, pcs := s.pcs.set t (.L163 result) }
  | .L163 result =>
    some { s with c := { s.c with nWaiters := decWaiters s.c.nWaiters },
                  pcs := s.pcs.set t (.L164 result) }
  | .L164 result =>
    let is_last : Bool :=
      if result = WAIT_OBJECT_0 + ix.EVENT_COND_BROADCAST.val ∧ s.c.nWaiters = 0 then true
      else false
    some { s with pcs := s.pcs.set t (.L166 is_last) }
  | .L166 is_last =>
    (LeaveCriticalSection s.c.waiters_lock t).map fun wl =>
      { s with c := { s.c with waiters_lock := wl }, pcs := s.pcs.set t (.L172 is_last) }
  | .L172 is_last =>
    let ev :=
      if is_last = true then
        s.c.events.set ix.EVENT_COND_BROADCAST (ResetEvent (s.c.events.get ix.EVENT_COND_BROADCAST))
      else s.c.events
    some { s with c := { s.c with events := ev }, pcs := s.pcs.set t .L176 }
  | .L176 =>
    (ramutex_lock s.m t).map fun m =>
      { s with m := m, pcs := s.pcs.set t .idle }

/-- One scheduler step; `none` when the action is not enabled. A thread may
call `racond_wait` only while it holds `m` (the precondition of the call). The
timeout of a wait can expire only while no object satisfies the wait. -/
def step (ix : EventIndices) (s : State) : Action → Option State
  | .ramutex_lock t =>
    if s.pcs[t]? = some PC.idle then (ramutex_lock s.m t).map fun m => { s with m := m }
    else none
  | .ramutex_trylock t =>
    if s.pcs[t]? = some PC.idle then some { s with m := (ramutex_trylock s.m t).2 }
    else none
  | .ramutex_unlock t =>
    if s.pcs[t]? = some PC.idle then (ramutex_unlock s.m t).map fun m => { s with m := m }
    else none
  | .racond_wait t tk =>
    if s.pcs[t]? = some PC.idle ∧ s.m.hMutex.OwningThread = some t then
      some { s with pcs := s.pcs.set t (.L144 tk) }
    else none
  | .racond_signal t =>
    if s.pcs[t]? = some PC.idle then some { s with c := racond_signal ix s.c }
    else none
  | .racond_broadcast t =>
    if s.pcs[t]? = some PC.idle then some { s with c := racond_broadcast ix s.c }
    else none
  | .adv t =>
    match s.pcs[t]? with
    | some pc => racond_wait_step ix s t pc
    | none => none
  | .timeout t =>
    match s.pcs[t]? with
    | some (.L159 ms) =>
      if ms ≠ INFINITE ∧ WaitForMultipleObjects s.c.events = none then
        some { s with pcs := s.pcs.set t (.L162 WAIT_TIMEOUT) }
      else none
    | _ => none

/-- Execution of a schedule. -/
def run (ix : EventIndices) (s : State) : List Action → Option State
  | [] => some s
  | a :: as => (step ix s a).bind fun s' => run ix s' as

/-- Initial state: `c` and `m` as returned by the creation functions on
successfully allocated blocks, and `n` threads outside `racond_wait`. -/
def init (ix : EventIndices) (n : Nat) (cblock : racond) (mblock : ramutex) : Option State :=
  match (racond_create ix (some cblock)).1, (ramutex_create (some mblock)).1 with
  | some c, some m => some { c := c, m := m, pcs := List.replicate n PC.idle }
  | _, _ => none

/-- States reachable from an initial state with `n` threads. -/
def Reachable (ix : EventIndices) (n : Nat) (s : State) : Prop :=
  ∃ cblock mblock s0 acts, init ix n cblock mblock = some s0 ∧ run ix s0 acts = some s

/-- A zeroed block, used for concrete runs. -/
def zeroCond : racond :=
  { events := { h0 := { bManualReset := false, signaled := false },
                h1 := { bManualReset := false, signaled := false } },
    nWaiters := 0,
    waiters_lock := { OwningThread := none, RecursionCount := 0 } }

/-- A zeroed block, used for concrete runs. -/
def zeroMutex : ramutex :=
  { hMutex := { OwningThread := none, RecursionCount := 0 } }

/-- Concrete run from the initial state with `n` threads. -/
def runInit (ix : EventIndices) (n : Nat) (acts : List Action) : Option State :=
  (init ix n zeroCond zeroMutex).bind fun s0 => run ix s0 acts

/-- The thread has executed the increment of line 145 and not yet the
decrement of line 163. -/
def PC.registered : PC → Bool
  | .L146 _ => true
  | .L148 _ => true
  | .L157 _ => true
  | .L159 _ => true
  | .L162 _ => true
  | .L163 _ => true
  | _ => false

/-- The thread is between `EnterCriticalSection(&c->waiters_lock)` and the
matching `LeaveCriticalSection`. -/
def PC.inWaitersLock : PC → Bool
  | .L145 _ => true
  | .L146 _ => true
  | .L163 _ => true
  | .L164 _ => true
  | .L166 _ => true
  | _ => false

/-- The thread is inside `racond_wait` and has not yet executed
`ramutex_unlock(m)` of line 157. -/
def PC.beforeRelease : PC → Bool
  | .L144 _ => true
  | .L145 _ => true
  | .L146 _ => true
  | .L148 _ => true
  | .L157 _ => true
  | _ => false

/-- The thread is inside `racond_wait` and has executed `ramutex_unlock(m)` of
line 157 (it is at the event wait or after it). -/
def PC.afterRelease : PC → Bool
  | .L159 _ => true
  | .L162 _ => true
  | .L163 _ => true
  | .L164 _ => true
  | .L166 _ => true
  | .L172 _ => true
  | .L176 => true
  | _ => false

/-- Invariant relating the waiter count and the auxiliary lock to the program
counters of `n` threads. -/
structure CountInv (n : Nat) (s : State) : Prop where
  len : s.pcs.length = n
  count : s.c.nWaiters = s.pcs.countP PC.registered
  lock : ∀ t pc, s.pcs[t]? = some pc → pc.inWaitersLock = true →
    s.c.waiters_lock.OwningThread = some t

/-- Kinds of the two events: the signal event is auto-reset and the broadcast
event is manual-reset. -/
def EvKinds (ix : EventIndices) (s : State) : Prop :=
  (s.c.events.get ix.EVENT_COND_SIGNAL).bManualReset = false ∧
    (s.c.events.get ix.EVENT_COND_BROADCAST).bManualReset = true

/-- Whether the signal event is signaled. -/
def sigSignaled (ix : EventIndices) (s : State) : Bool :=
  (s.c.events.get ix.EVENT_COND_SIGNAL).signaled

/-- Whether the broadcast event is signaled. -/
def bcSignaled (ix : EventIndices) (s : State) : Bool :=
  (s.c.events.get ix.EVENT_COND_BROADCAST).signaled

/-- A state with two threads: thread 0 is registered and blocked at the event
wait with an infinite timeout, thread 1 holds `m` and has just called
`racond_wait` with a timeout of 50 ms. -/
def stateTwoThreads : State :=
  { c := { events := { h0 := { bManualReset := false, signaled := false },
                       h1 := { bManualReset := true, signaled := false } },
           nWaiters := 1,
           waiters_lock := { OwningThread := none, RecursionCount := 0 } },
    m := { hMutex := { OwningThread := some 1, RecursionCount := 1 } },
    pcs := [PC.L159 INFINITE, PC.L144 50] }

/-- A schedule that reaches `stateTwoThreads`. -/
def schedTwoThreads : List Action :=
  [.ramutex_lock 0, .racond_wait 0 (-1), .adv 0, .adv 0, .adv 0, .adv 0, .adv 0,
   .ramutex_lock 1, .racond_wait 1 50]

/-- Bookkeeping carried along a run, without influence on it: the number of
times the call `ResetEvent` of line 173 has been executed so far. -/
structure Ghost where
  resets : Nat

/-- Bookkeeping at the start of a run. -/
def Ghost.zero : Ghost := { resets := 0 }

/-- Update of the bookkeeping by the step taken with action `a` in state `s`:
the counter advances when a thread executes line 172 with `is_last` set, which
is when `racond_wait_step` applies `ResetEvent`. -/
def ghostStep (s : State) (a : Action) (g : Ghost) : Ghost :=
  match a with
  | .adv t =>
    match s.pcs[t]? with
    | some (.L172 true) => { g with resets := g.resets + 1 }
    | _ => g
  | _ => g

/-- Execution of a schedule with bookkeeping. -/
def grun (ix : EventIndices) (s : State) (g : Ghost) : List Action → Option (State × Ghost)
  | [] => some (s, g)
  | a :: as =>
    match step ix s a with
    | some s' => grun ix s' (ghostStep s a g) as
    | none => none

/-- Number of times thread `t` holds the recursive mutex `m`: the recursion
count of the critical section when `t` owns it, and 0 otherwise. -/
def holdCount (m : ramutex) (t : Tid) : Nat :=
  if m.hMutex.OwningThread = some t then m.hMutex.RecursionCount else 0

/-- An owned critical section has a positive recursion count. -/
def MutexWf (s : State) : Prop :=
  ∀ o : Tid, s.m.hMutex.OwningThread = some o → 0 < s.m.hMutex.RecursionCount

/-- A thread inside `racond_wait` that has not yet executed line 157 owns
`m`. -/
def HoldInv (s : State) : Prop :=
  ∀ (t : Tid) (pc : PC), s.pcs[t]? = some pc → pc.beforeRelease = true →
    s.m.hMutex.OwningThread = some t

/-- Whether action `a` keeps thread `t` inside its current call of
`racond_wait`: it is an action of another thread, or the next statement of `t`,
or the expiry of the timeout of `t`. -/
def Action.within (t : Tid) : Action → Bool
  | .adv _ => true
  | .timeout _ => true
  | .ramutex_lock u => decide (u ≠ t)
  | .ramutex_trylock u => decide (u ≠ t)
  | .ramutex_unlock u => decide (u ≠ t)
  | .racond_wait u _ => decide (u ≠ t)
  | .racond_signal u => decide (u ≠ t)
  | .racond_broadcast u => decide (u ≠ t)

/-- State of `m` with respect to thread `t` during the call of `racond_wait`
that `t` entered while holding `m` `h` times: the hold count is `h` before line
157, `h - 1` from the event wait to line 176, and `h` again once the call has
returned. -/
def CallInv (t : Tid) (h : Nat) (s : State) : Prop :=
  ∃ pc, s.pcs[t]? = some pc ∧
    (pc.beforeRelease = true → holdCount s.m t = h) ∧
    (pc.afterRelease = true → holdCount s.m t + 1 = h) ∧
    (pc = PC.idle → holdCount s.m t = h)

/-- The freshly created state with two threads (signal event at index 0) after
thread 0 has locked `m` and called `racond_wait` with a timeout of 50 ms. -/
def stateWaitCalled : State :=
  { c := { events := { h0 := { bManualReset := false, signaled := false },
                       h1 := { bManualReset := true, signaled := false } },
           nWaiters := 0,
           waiters_lock := { OwningThread := none, RecursionCount := 0 } },
    m := { hMutex := { OwningThread := some 0, RecursionCount := 1 } },
    pcs := [PC.L144 50, PC.idle] }

/-- A schedule in which thread 0, having called `racond_wait` with a timeout of
50 ms, times out at the event wait and reaches the final statement, while
thread 1 takes and releases `m` in between. -/
def schedTimeout : List Action :=
  [.adv 0, .adv 0, .adv 0, .adv 0, .adv 0, .ramutex_lock 1, .timeout 0, .ramutex_unlock 1,
   .adv 0, .adv 0, .adv 0, .adv 0, .adv 0]

/-- Number of steps of a run in which the broadcast event goes from signaled to
unsignaled. -/
def clears (ix : EventIndices) (s : State) : List Action → Nat
  | [] => 0
  | a :: as =>
    match step ix s a with
    | some s' =>
      (if bcSignaled ix s = true ∧ bcSignaled ix s' = false then 1 else 0) + clears ix s' as
    | none => 0

/-- Concrete run with bookkeeping from the initial state with `n` threads. -/
def grunInit (ix : EventIndices) (n : Nat) (acts : List Action) : Option (State × Ghost) :=
  (init ix n zeroCond zeroMutex).bind fun s0 => grun ix s0 Ghost.zero acts

/-- The thread that takes the step. -/
def Action.tid : Action → Tid
  | .ramutex_lock t => t
  | .ramutex_trylock t => t
  | .ramutex_unlock t => t
  | .racond_wait t _ => t
  | .racond_signal t => t
  | .racond_broadcast t => t
  | .adv t => t
  | .timeout t => t

/-- Actions other than a signal, a broadcast or the expiry of a timeout. -/
def Action.quiet : Action → Bool
  | .racond_signal _ => false
  | .racond_broadcast _ => false
  | .timeout _ => false
  | _ => true

/-- Actions other than a signal, a broadcast, the expiry of a timeout or a new
call of `racond_wait`. -/
def Action.calm : Action → Bool
  | .racond_signal _ => false
  | .racond_broadcast _ => false
  | .timeout _ => false
  | .racond_wait _ _ => false
  | _ => true

/-- A signal issued by thread 1 while nobody waits, after which thread 0 calls
`racond_wait` with an infinite timeout and reaches the event wait. -/
def schedSignalThenWait : List Action :=
  [.racond_signal 1, .ramutex_lock 0, .racond_wait 0 (-1), .adv 0, .adv 0, .adv 0, .adv 0,
   .adv 0]

/-- A broadcast issued by thread 1 while nobody waits, after which thread 0
calls `racond_wait` with an infinite timeout and reaches the event wait. -/
def schedBroadcastThenWait : List Action :=
  [.racond_broadcast 1, .ramutex_lock 0, .racond_wait 0 (-1), .adv 0, .adv 0, .adv 0, .adv 0,
   .adv 0]

/-- The freshly created state with two threads (signal event at index 0) after
thread 0 has locked `m`. -/
def stateMutexHeld : State :=
  { c := { events := { h0 := { bManualReset := false, signaled := false },
                       h1 := { bManualReset := true, signaled := false } },
           nWaiters := 0,
           waiters_lock := { OwningThread := none, RecursionCount := 0 } },
    m := { hMutex := { OwningThread := some 0, RecursionCount := 1 } },
    pcs := [PC.idle, PC.idle] }

/-- The thread is registered and has not yet returned from its event wait: it
is about to wait (lines 146 to 157) or waiting on the events (line 159). -/
def PC.awaiting : PC → Bool
  | .L146 _ => true
  | .L148 _ => true
  | .L157 _ => true
  | .L159 _ => true
  | _ => false

/-- The thread has called `racond_wait` and has not yet executed the increment
of line 145. -/
def PC.entering : PC → Bool
  | .L144 _ => true
  | .L145 _ => true
  | _ => false

/-- Thread `t` is registered and has not returned from its event wait. -/
def Awaits (s : State) (t : Tid) : Prop :=
  ∃ pc, s.pcs[t]? = some pc ∧ pc.awaiting = true

/-- Whether thread `t` stands at the event wait of line 159. -/
def atWait (s : State) (t : Tid) : Bool :=
  match s.pcs[t]? with
  | some (.L159 _) => true
  | _ => false

/-- Number of returns from the event wait by threads of `W` along a run: at each
step, the threads of `W` that stand at the event wait before the step and no
longer after it. -/
def returns (ix : EventIndices) (W : List Tid) (s : State) : List Action → Nat
  | [] => 0
  | a :: as =>
    match step ix s a with
    | some s' => (W.countP fun t => atWait s t && !atWait s' t) + returns ix W s' as
    | none => 0

/-- Control flow of `racond_wait`: `pc.flow pc'` holds when a thread at `pc` can
be at `pc'` after one step of its own. -/
def PC.flow : PC → PC → Bool
  | .idle, .L144 _ => true
  | .L144 _, .L145 _ => true
  | .L145 _, .L146 _ => true
  | .L146 _, .L148 _ => true
  | .L148 _, .L157 _ => true
  | .L157 _, .L159 _ => true
  | .L159 _, .L162 _ => true
  | .L162 _, .L163 _ => true
  | .L163 _, .L164 _ => true
  | .L164 _, .L166 _ => true
  | .L166 b, .L172 b' => decide (b = b')
  | .L172 _, .L176 => true
  | .L176, .idle => true
  | _, _ => false

/-- Situation after one `racond_signal` among the waiters `W`: the broadcast
event is unsignaled, and either the signal is still pending and no thread of `W`
has returned from its event wait, or the signal has been consumed and at most
one thread of `W` has returned from its event wait. -/
def OneSignal (ix : EventIndices) (W : List Tid) (s : State) : Prop :=
  bcSignaled ix s = false ∧
  ((sigSignaled ix s = true ∧ ∀ t ∈ W, Awaits s t) ∨
   (sigSignaled ix s = false ∧
     ∀ t ∈ W, ∀ t' ∈ W, ¬ Awaits s t → ¬ Awaits s t' → t = t'))

/-- Situation in which only the threads of `W` can get to the event wait: no
thread is between the call and the increment of line 145, every thread that is
registered and has not returned from its event wait belongs to `W`, and once the
signal has been consumed some thread of `W` has returned from its event wait. -/
def SoleSignal (ix : EventIndices) (W : List Tid) (s : State) : Prop :=
  (∀ (t : Tid) (pc : PC), s.pcs[t]? = some pc →
    pc.entering = false ∧ (pc.awaiting = true → t ∈ W)) ∧
  (sigSignaled ix s = false → ∃ t0 ∈ W, ¬ Awaits s t0)

/-- The state in which three threads are blocked at the event wait with an
infinite timeout (signal event at index 0), right after the fourth thread has
called `racond_signal`. -/
def stateThreeSignaled : State :=
  { c := { events := { h0 := { bManualReset := false, signaled := true },
                       h1 := { bManualReset := true, signaled := false } },
           nWaiters := 3,
           waiters_lock := { OwningThread := none, RecursionCount := 0 } },
    m := { hMutex := { OwningThread := none, RecursionCount := 0 } },
    pcs := [PC.L159 INFINITE, PC.L159 INFINITE, PC.L159 INFINITE, PC.idle] }

/-- Thread 3 locks `m`, calls `racond_wait` with an infinite timeout, reaches
the event wait and returns from it. -/
def schedSteal : List Action :=
  [.ramutex_lock 3, .racond_wait 3 (-1), .adv 3, .adv 3, .adv 3, .adv 3, .adv 3, .adv 3]

/-- The state reached when three threads are blocked at the event wait with an
infinite timeout, thread 3 calls `racond_signal` and then runs `schedSteal`:
thread 3 has returned from the event wait with the signal result, the three
earlier waiters have not. -/
def stateSignalStolen : State :=
  { c := { events := { h0 := { bManualReset := false, signaled := false },
                       h1 := { bManualReset := true, signaled := false } },
           nWaiters := 4,
           waiters_lock := { OwningThread := none, RecursionCount := 0 } },
    m := { hMutex := { OwningThread := none, RecursionCount := 0 } },
    pcs := [PC.L159 INFINITE, PC.L159 INFINITE, PC.L159 INFINITE, PC.L162 (WAIT_OBJECT_0 + 0)] }

/-- A reachable state with three threads blocked at the event wait with an
infinite timeout and a fourth, idle thread (signal event at index 0). -/
def stateThreeWaiters : State :=
  { c := { events := { h0 := { bManualReset := false, signaled := false },
                       h1 := { bManualReset := true, signaled := false } },
           nWaiters := 3,
           waiters_lock := { OwningThread := none, RecursionCount := 0 } },
    m := { hMutex := { OwningThread := none, RecursionCount := 0 } },
    pcs := [PC.L159 INFINITE, PC.L159 INFINITE, PC.L159 INFINITE, PC.idle] }

/-- A schedule that reaches `stateThreeWaiters`. -/
def schedThreeWaiters : List Action :=
  [.ramutex_lock 0, .racond_wait 0 (-1), .adv 0, .adv 0, .adv 0, .adv 0, .adv 0,
   .ramutex_lock 1, .racond_wait 1 (-1), .adv 1, .adv 1, .adv 1, .adv 1, .adv 1,
   .ramutex_lock 2, .racond_wait 2 (-1), .adv 2, .adv 2, .adv 2, .adv 2, .adv 2]

/-- The value of `result` a thread carries between the event wait and the test
of line 164. -/
def PC.result : PC → Option Nat
  | .L162 r => some r
  | .L163 r => some r
  | .L164 r => some r
  | _ => none

/-- The thread has executed the decrement of line 163 and not yet the test of
line 164. -/
def PC.deciding : PC → Bool
  | .L164 _ => true
  | _ => false

/-- The thread has found itself to be the last waiter and has not yet executed
the `ResetEvent` of line 173. -/
def PC.resetPending : PC → Bool
  | .L166 true => true
  | .L172 true => true
  | _ => false

/-- The thread is registered, or has decremented the waiter count and has not
yet executed the test of line 164, or has found itself last and has not yet
executed its `ResetEvent`. -/
def PC.resetDue (pc : PC) : Bool :=
  pc.registered || pc.deciding || pc.resetPending

/-- Invariant of the interval that follows a `racond_broadcast` and during which
no signal or broadcast is issued and no timeout expires: the signal event is
unsignaled, every result in flight is the broadcast result, as long as the
broadcast event is signaled some thread is still due to reset it, and once it is
unsignaled a `ResetEvent` has been executed since the broadcast. `r0` is the
number of `ResetEvent` calls executed before the broadcast. -/
structure Drain (ix : EventIndices) (n r0 : Nat) (s : State) (g : Ghost) : Prop where
  cnt : CountInv n s
  kinds : EvKinds ix s
  sig : sigSignaled ix s = false
  res : ∀ (t : Tid) (pc : PC) (r : Nat), s.pcs[t]? = some pc → pc.result = some r →
    r = WAIT_OBJECT_0 + ix.EVENT_COND_BROADCAST.val
  due : bcSignaled ix s = true → ∃ (t : Tid) (pc : PC), s.pcs[t]? = some pc ∧ pc.resetDue = true
  base : r0 ≤ g.resets
  done : bcSignaled ix s = false → r0 + 1 ≤ g.resets

/-- Invariant of a broadcast episode: the interval that starts with a
`racond_broadcast` issued while no thread is between the call of `racond_wait`
and the increment of line 145 and no `ResetEvent` is pending, and during which
no signal or broadcast is issued, no timeout expires and no thread calls
`racond_wait`. `r0` is the number of `ResetEvent` calls executed before the
broadcast. The episode is in one of three phases: the broadcast event is
signaled and nobody has found itself last; it is signaled and exactly one thread
has a `ResetEvent` pending; it has been reset once. -/
structure Episode (ix : EventIndices) (n r0 : Nat) (s : State) (g : Ghost) : Prop where
  cnt : CountInv n s
  kinds : EvKinds ix s
  noEnter : ∀ (t : Tid) (pc : PC), s.pcs[t]? = some pc → pc.entering = false
  sig : sigSignaled ix s = false
  res : ∀ (t : Tid) (pc : PC) (r : Nat), s.pcs[t]? = some pc → pc.result = some r →
    r = WAIT_OBJECT_0 + ix.EVENT_COND_BROADCAST.val
  phase :
    (bcSignaled ix s = true ∧ g.resets = r0 ∧
      (∀ (t : Tid) (pc : PC), s.pcs[t]? = some pc → pc.resetPending = false) ∧
      (s.c.nWaiters = 0 → ∃ (t : Tid) (pc : PC), s.pcs[t]? = some pc ∧ pc.deciding = true)) ∨
    (bcSignaled ix s = true ∧ g.resets = r0 ∧ s.c.nWaiters = 0 ∧
      (∀ (t : Tid) (pc : PC), s.pcs[t]? = some pc → pc.deciding = false) ∧
      ∃ (t0 : Tid) (pc0 : PC), s.pcs[t0]? = some pc0 ∧ pc0.resetPending = true ∧
        ∀ (u : Tid) (pc : PC), u ≠ t0 → s.pcs[u]? = some pc → pc.resetPending = false) ∨
    (bcSignaled ix s = false ∧ g.resets = r0 + 1 ∧ s.c.nWaiters = 0 ∧
      (∀ (t : Tid) (pc : PC), s.pcs[t]? = some pc → pc.deciding = false) ∧
      (∀ (t : Tid) (pc : PC), s.pcs[t]? = some pc → pc.resetPending = false))

/-- Schedule of a lost broadcast, first part. Thread 0 waits alone and is woken
by a first broadcast of thread 2; it decrements the waiter count to 0, sets
`is_last` and leaves the auxiliary lock, its `ResetEvent` still to come. Thread 1
then calls `racond_wait` with an infinite timeout, registers, releases `m` and
stands at the event wait. -/
def schedLostBroadcast : List Action :=
  [.ramutex_lock 0, .racond_wait 0 (-1), .adv 0, .adv 0, .adv 0, .adv 0, .adv 0,
   .racond_broadcast 2,
   .adv 0, .adv 0, .adv 0, .adv 0, .adv 0,
   .ramutex_lock 1, .racond_wait 1 (-1), .adv 1, .adv 1, .adv 1, .adv 1, .adv 1]

/-- Schedule in which `ResetEvent` is executed twice for one broadcast:
after `schedLostBroadcast` (thread 0 has its `ResetEvent` pending, thread 1 has
called `racond_wait` after the broadcast and stands at the event wait), thread
1 is woken by the broadcast event, which is still signaled, finds the waiter
count at 0 and sets `is_last` as well; both threads then execute line 173. -/
def schedResetTwice : List Action :=
  schedLostBroadcast ++ [.adv 1, .adv 1, .adv 1, .adv 1, .adv 1, .adv 0, .adv 1]

/-- The state `stateThreeWaiters` right after thread 3 has called
`racond_broadcast`. -/
def stateThreeWoken : State :=
  { c := { events := { h0 := { bManualReset := false, signaled := false },
                       h1 := { bManualReset := true, signaled := true } },
           nWaiters := 3,
           waiters_lock := { OwningThread := none, RecursionCount := 0 } },
    m := { hMutex := { OwningThread := none, RecursionCount := 0 } },
    pcs := [PC.L159 INFINITE, PC.L159 INFINITE, PC.L159 INFINITE, PC.idle] }

/-- The three waiters of `stateThreeWoken` leave the event wait one after the
other and run up to the final statement of `racond_wait`. -/
def schedAllLeave : List Action :=
  [.adv 0, .adv 0, .adv 0, .adv 0, .adv 0, .adv 0,
   .adv 1, .adv 1, .adv 1, .adv 1, .adv 1, .adv 1,
   .adv 2, .adv 2, .adv 2, .adv 2, .adv 2, .adv 2]

end Win32

/-! ## POSIX branch -/

namespace Posix

/-- The struct `ramutex` without `WIN32`. -/
structure ramutex where
  hMutex : pthread_mutex_t
deriving DecidableEq

/-- The struct `racond` without `WIN32`: the native condition variable, which
has no state of its own in this development. -/
structure racond where
  hCond : Unit
deriving DecidableEq

/-- Function `ramutex_create`, lines 28-44. -/
def ramutex_create (aMalloc : Option ramutex) : Option ramutex × List Effect :=
  match aMalloc with
  | none => (none, [Effect.ShowFatalError "ramutex_create: OOM while allocating %u bytes.\n"])
  | some m =>
    let m := { m with hMutex := pthread_mutex_init }
    (some m, [Effect.pthread_mutex_init])

/-- Function `ramutex_trylock`, lines 70-82. -/
def ramutex_trylock (m : ramutex) (t : Tid) : Bool × ramutex :=
  let r := pthread_mutex_trylock m.hMutex t
  if r.1 = 0 then (true, { m with hMutex := r.2 })
  else (false, { m with hMutex := r.2 })

/-- Function `racond_create`, lines 102-121. -/
def racond_create (aMalloc : Option racond) : Option racond × List Effect :=
  match aMalloc with
  | none => (none, [Effect.ShowFatalError "racond_create: OOM while allocating %u bytes\n"])
  | some c => (some c, [Effect.pthread_cond_init])

/-- Signed 64-bit wrap-around of an integer. -/
def wrap64 (x : Int) : Int := (x + 2 ^ 63) % 2 ^ 64 - 2 ^ 63

/-- The native call `racond_wait` ends in. -/
inductive NativeWait where
  | pthread_cond_wait
  | pthread_cond_timedwait (tv_sec tv_nsec : Int)
deriving DecidableEq

/-- Function `racond_wait`, lines 179-189; `gettick` is the value returned by the tick
source. Division and remainder truncate toward zero. -/
def racond_wait (gettick : Int) (timeout_ticks : Int) : NativeWait :=
  if timeout_ticks < 0 then NativeWait.pthread_cond_wait
  else
    let exact_timeout := wrap64 (gettick + timeout_ticks)
    let tv_sec := exact_timeout.tdiv 1000
    let tv_nsec := wrap64 ((exact_timeout.tmod 1000) * 1000000)
    NativeWait.pthread_cond_timedwait tv_sec tv_nsec

end Posix

/-! ## Theorems -/

/-! ### Shared lemmas on the interleaving semantics -/

namespace Win32

theorem getElem?_set_some {l : List PC} {t u : Nat} {p q : PC}
    (h : (l.set t p)[u]? = some q) : (u = t ∧ q = p) ∨ (u ≠ t ∧ l[u]? = some q) := by
  rw [List.getElem?_set] at h
  by_cases htu : t = u
  · left
    rw [if_pos htu] at h
    split at h
    · exact ⟨htu.symm, (Option.some.inj h).symm⟩
    · cases h
  · right
    rw [if_neg htu] at h
    exact ⟨fun e => htu e.symm, h⟩

theorem countP_set_of_getElem? {l : List PC} {t : Nat} {pc : PC} (p : PC → Bool) (pc' : PC)
    (h : l[t]? = some pc) :
    (l.set t pc').countP p + (if p pc = true then 1 else 0)
      = l.countP p + (if p pc' = true then 1 else 0) := by
  obtain ⟨ht, hget⟩ := List.getElem?_eq_some.mp h
  rw [List.countP_set p l t pc' ht, hget]
  by_cases hp : p pc = true
  · have hpos : 0 < l.countP p := by
      rw [List.countP_pos_iff]
      exact ⟨pc, hget ▸ List.getElem_mem _, hp⟩
    rw [if_pos hp]
    omega
  · rw [if_neg hp]
    omega

theorem countP_le_len (l : List PC) (p : PC → Bool) : l.countP p ≤ l.length :=
  List.countP_le_length p

theorem decWaiters_eq_mod (n : Nat) (h : n < 2 ^ 32) :
    decWaiters n = (n + 2 ^ 32 - 1) % 2 ^ 32 := by
  unfold decWaiters MAXDWORD
  split
  · subst_vars
    norm_num
  · have h1 : n + 2 ^ 32 - 1 = (n - 1) + 2 ^ 32 := by omega
    rw [h1, Nat.add_mod_right, Nat.mod_eq_of_lt (by omega)]

theorem inc_no_wrap (n N : Nat) (h : n + 1 ≤ N) (hN : N < 2 ^ 32) :
    incWaiters n = n + 1 := by
  unfold incWaiters
  apply Nat.mod_eq_of_lt
  omega

theorem dec_no_wrap (n : Nat) (h : 0 < n) : decWaiters n = n - 1 := by
  unfold decWaiters
  rw [if_neg (by omega)]

theorem countP_set_same {l : List PC} {t : Nat} {pc : PC} (pc' : PC)
    (h : l[t]? = some pc) (hreg : pc'.registered = pc.registered) :
    (l.set t pc').countP PC.registered = l.countP PC.registered := by
  have := countP_set_of_getElem? PC.registered pc' h
  rw [hreg] at this
  omega

theorem enter_owner {cs cs' : CRITICAL_SECTION} {t : Tid}
    (h : EnterCriticalSection cs t = some cs') :
    cs'.OwningThread = some t ∧ (cs.OwningThread = none ∨ cs.OwningThread = some t) := by
  unfold EnterCriticalSection at h
  split at h
  · cases h
    exact ⟨rfl, Or.inl ‹_›⟩
  · split at h
    · cases h
      subst_vars
      exact ⟨rfl, Or.inr ‹_›⟩
    · cases h

theorem leave_owner {cs cs' : CRITICAL_SECTION} {t : Tid}
    (h : LeaveCriticalSection cs t = some cs') :
    cs.OwningThread = some t ∧ (cs'.OwningThread = none ∨ cs'.OwningThread = some t) := by
  unfold LeaveCriticalSection at h
  split at h
  · split at h
    · cases h
      exact ⟨‹_›, Or.inl rfl⟩
    · cases h
      exact ⟨‹_›, Or.inr rfl⟩
  · cases h

theorem countInv_step {ix : EventIndices} {n : Nat} (hn : n < 2 ^ 32) {s s' : State} {a : Action}
    (hi : CountInv n s) (h : step ix s a = some s') : CountInv n s' := by
  obtain ⟨hlen, hcnt, hlock⟩ := hi
  cases a with
  | ramutex_lock t =>
    simp only [Win32.step] at h
    split at h
    · obtain ⟨m, -, rfl⟩ := Option.map_eq_some'.mp h
      exact ⟨hlen, hcnt, hlock⟩
    · cases h
  | ramutex_trylock t =>
    simp only [Win32.step] at h
    split at h
    · cases h
      exact ⟨hlen, hcnt, hlock⟩
    · cases h
  | ramutex_unlock t =>
    simp only [Win32.step] at h
    split at h
    · obtain ⟨m, -, rfl⟩ := Option.map_eq_some'.mp h
      exact ⟨hlen, hcnt, hlock⟩
    · cases h
  | racond_signal t =>
    simp only [Win32.step] at h
    split at h
    · cases h
      exact ⟨hlen, hcnt, hlock⟩
    · cases h
  | racond_broadcast t =>
    simp only [Win32.step] at h
    split at h
    · cases h
      exact ⟨hlen, hcnt, hlock⟩
    · cases h
  | racond_wait t tk =>
    simp only [Win32.step] at h
    split at h
    · rename_i hc
      cases h
      refine ⟨(List.length_set _ _ _).trans hlen, ?_, ?_⟩
      · have := countP_set_of_getElem? PC.registered (PC.L144 tk) hc.1
        simp [PC.registered] at this
        simpa [this] using hcnt
      · intro u q hq hin
        rcases getElem?_set_some hq with ⟨rfl, rfl⟩ | ⟨hne, hq'⟩
        · simp [PC.inWaitersLock] at hin
        · exact hlock u q hq' hin
    · cases h
  | timeout t =>
    simp only [Win32.step] at h
    split at h
    · rename_i ms hpc
      split at h
      · cases h
        refine ⟨(List.length_set _ _ _).trans hlen, ?_, ?_⟩
        · have := countP_set_of_getElem? PC.registered (PC.L162 WAIT_TIMEOUT) hpc
          simp [PC.registered] at this
          simpa [this] using hcnt
        · intro u q hq hin
          rcases getElem?_set_some hq with ⟨rfl, rfl⟩ | ⟨hne, hq'⟩
          · simp [PC.inWaitersLock] at hin
          · exact hlock u q hq' hin
      · cases h
    · cases h
  | adv t =>
    simp only [Win32.step] at h
    split at h
    · rename_i pc hpc
      have hcs := fun (pc' : PC) => countP_set_of_getElem? PC.registered pc' hpc
      have hown := hlock t pc hpc
      cases pc <;> simp only [racond_wait_step] at h
      case idle => cases h
      case L144 tk =>
        obtain ⟨wl, hwl, rfl⟩ := Option.map_eq_some'.mp h
        obtain ⟨ho', ho⟩ := enter_owner hwl
        refine ⟨(List.length_set _ _ _).trans hlen, ?_, ?_⟩
        · have := hcs (PC.L145 tk)
          simp [PC.registered] at this
          simpa [this] using hcnt
        · intro u q hq hin
          rcases getElem?_set_some hq with ⟨rfl, rfl⟩ | ⟨hne, hq'⟩
          · exact ho'
          · have := hlock u q hq' hin
            rcases ho with ho | ho <;> rw [ho] at this
            · cases this
            · exact absurd (Option.some.inj this).symm hne
      case L145 tk =>
        cases h
        have hc := hcs (PC.L146 tk)
        simp only [PC.registered, if_true, Bool.false_eq_true, if_false] at hc
        have hle := countP_le_len (s.pcs.set t (PC.L146 tk)) PC.registered
        simp only [List.length_set] at hle
        refine ⟨(List.length_set _ _ _).trans hlen, ?_, ?_⟩
        · dsimp only
          have h5 : s.c.nWaiters + 1 ≤ n := by omega
          rw [inc_no_wrap s.c.nWaiters n h5 hn]
          omega
        · intro u q hq hin
          rcases getElem?_set_some hq with ⟨rfl, rfl⟩ | ⟨hne, hq'⟩
          · exact hown rfl
          · exact hlock u q hq' hin
      case L146 tk =>
        obtain ⟨wl, hwl, rfl⟩ := Option.map_eq_some'.mp h
        obtain ⟨ho, ho'⟩ := leave_owner hwl
        refine ⟨(List.length_set _ _ _).trans hlen, ?_, ?_⟩
        · have := hcs (PC.L148 tk)
          simp [PC.registered] at this
          simpa [this] using hcnt
        · intro u q hq hin
          rcases getElem?_set_some hq with ⟨rfl, rfl⟩ | ⟨hne, hq'⟩
          · simp [PC.inWaitersLock] at hin
          · have := hlock u q hq' hin
            rw [ho] at this
            exact absurd (Option.some.inj this).symm hne
      case L148 tk =>
        cases h
        refine ⟨(List.length_set _ _ _).trans hlen, ?_, ?_⟩
        · have := hcs (PC.L157 (racond_wait_ms tk))
          simp [PC.registered] at this
          simpa [this] using hcnt
        · intro u q hq hin
          rcases getElem?_set_some hq with ⟨rfl, rfl⟩ | ⟨hne, hq'⟩
          · simp [PC.inWaitersLock] at hin
          · exact hlock u q hq' hin
      case L157 ms =>
        obtain ⟨m, -, rfl⟩ := Option.map_eq_some'.mp h
        refine ⟨(List.length_set _ _ _).trans hlen, ?_, ?_⟩
        · have := hcs (PC.L159 ms)
          simp [PC.registered] at this
          simpa [this] using hcnt
        · intro u q hq hin
          rcases getElem?_set_some hq with ⟨rfl, rfl⟩ | ⟨hne, hq'⟩
          · simp [PC.inWaitersLock] at hin
          · exact hlock u q hq' hin
      case L159 ms =>
        obtain ⟨r, -, rfl⟩ := Option.map_eq_some'.mp h
        refine ⟨(List.length_set _ _ _).trans hlen, ?_, ?_⟩
        · have := hcs (PC.L162 r.1)
          simp [PC.registered] at this
          simpa [this] using hcnt
        · intro u q hq hin
          rcases getElem?_set_some hq with ⟨rfl, rfl⟩ | ⟨hne, hq'⟩
          · simp [PC.inWaitersLock] at hin
          · exact hlock u q hq' hin
      case L162 r =>
        obtain ⟨wl, hwl, rfl⟩ := Option.map_eq_some'.mp h
        obtain ⟨ho', ho⟩ := enter_owner hwl
        refine ⟨(List.length_set _ _ _).trans hlen, ?_, ?_⟩
        · have := hcs (PC.L163 r)
          simp [PC.registered] at this
          simpa [this] using hcnt
        · intro u q hq hin
          rcases getElem?_set_some hq with ⟨rfl, rfl⟩ | ⟨hne, hq'⟩
          · exact ho'
          · have := hlock u q hq' hin
            rcases ho with ho | ho <;> rw [ho] at this
            · cases this
            · exact absurd (Option.some.inj this).symm hne
      case L163 r =>
        cases h
        have hc := hcs (PC.L164 r)
        simp only [PC.registered, if_true, Bool.false_eq_true, if_false] at hc
        refine ⟨(List.length_set _ _ _).trans hlen, ?_, ?_⟩
        · dsimp only
          have h5 : 0 < s.c.nWaiters := by
            rw [hcnt]
            omega
          rw [dec_no_wrap s.c.nWaiters h5, hcnt]
          omega
        · intro u q hq hin
          rcases getElem?_set_some hq with ⟨rfl, rfl⟩ | ⟨hne, hq'⟩
          · exact hown rfl
          · exact hlock u q hq' hin
      case L164 r =>
        cases h
        refine ⟨(List.length_set _ _ _).trans hlen, ?_, ?_⟩
        · dsimp only
          exact hcnt.trans (countP_set_same (PC.L166 _) hpc rfl).symm
        · intro u q hq hin
          rcases getElem?_set_some hq with ⟨rfl, rfl⟩ | ⟨hne, hq'⟩
          · exact hown rfl
          · exact hlock u q hq' hin
      case L166 b =>
        obtain ⟨wl, hwl, rfl⟩ := Option.map_eq_some'.mp h
        obtain ⟨ho, ho'⟩ := leave_owner hwl
        refine ⟨(List.length_set _ _ _).trans hlen, ?_, ?_⟩
        · have := hcs (PC.L172 b)
          simp [PC.registered] at this
          simpa [this] using hcnt
        · intro u q hq hin
          rcases getElem?_set_some hq with ⟨rfl, rfl⟩ | ⟨hne, hq'⟩
          · simp [PC.inWaitersLock] at hin
          · have := hlock u q hq' hin
            rw [ho] at this
            exact absurd (Option.some.inj this).symm hne
      case L172 b =>
        cases h
        refine ⟨(List.length_set _ _ _).trans hlen, ?_, ?_⟩
        · have := hcs PC.L176
          simp [PC.registered] at this
          simpa [this] using hcnt
        · intro u q hq hin
          rcases getElem?_set_some hq with ⟨rfl, rfl⟩ | ⟨hne, hq'⟩
          · simp [PC.inWaitersLock] at hin
          · exact hlock u q hq' hin
      case L176 =>
        obtain ⟨m, -, rfl⟩ := Option.map_eq_some'.mp h
        refine ⟨(List.length_set _ _ _).trans hlen, ?_, ?_⟩
        · have := hcs PC.idle
          simp [PC.registered] at this
          simpa [this] using hcnt
        · intro u q hq hin
          rcases getElem?_set_some hq with ⟨rfl, rfl⟩ | ⟨hne, hq'⟩
          · simp [PC.inWaitersLock] at hin
          · exact hlock u q hq' hin
    · cases h

end Win32

/-! ### Numeric conversions -/

/-- Characterisation of the millisecond argument for a non-negative timeout:
it never exceeds the timeout, and it is `INFINITE` exactly at
`timeout_ticks = MAXDWORD`. -/
theorem racond_wait_ms_nonneg (tk : Int) (h : 0 ≤ tk) :
    (Win32.racond_wait_ms tk : Int) ≤ tk ∧
      (Win32.racond_wait_ms tk = INFINITE ↔ tk = 4294967295) := by
  have h0 : ¬ tk < 0 := not_lt.mpr h
  unfold Win32.racond_wait_ms
  rw [if_neg h0]
  by_cases h1 : tk > (MAXDWORD : Int)
  · rw [if_pos h1]
    simp only [MAXDWORD, INFINITE] at h1 ⊢
    constructor
    · norm_num
      omega
    · constructor
      · intro h2
        norm_num at h2
      · intro h2
        omega
  · rw [if_neg h1]
    simp only [MAXDWORD, INFINITE] at h1 ⊢
    have h2 : tk % (2 : Int) ^ 32 = tk := by
      apply Int.emod_eq_of_lt h
      norm_num at h1 ⊢
      omega
    rw [h2]
    constructor
    · rw [Int.toNat_of_nonneg h]
    · constructor
      · intro h3
        have h4 : ((tk.toNat : Nat) : Int) = tk := Int.toNat_of_nonneg h
        omega
      · intro h3
        subst h3
        rfl

/-- C6: at `timeout_ticks = MAXDWORD = 4294967295`, a non-negative timeout, the
test `timeout_ticks > MAXDWORD` of line 151 is false and the cast yields
`0xFFFFFFFF`, so the millisecond argument of the event wait is `INFINITE`. -/
theorem C6_maxdword_timeout_is_infinite :
    (0 : Int) ≤ 4294967295 ∧ Win32.racond_wait_ms 4294967295 = INFINITE := by
  decide

/-- C10: on the native path a negative timeout selects the untimed wait and
computes no deadline; for `now ≥ 0` and `timeout_ticks ≥ 0` whose sum fits in a
signed 64-bit integer the timed wait receives `tv_sec = (now + timeout_ticks) /
1000` and `tv_nsec = ((now + timeout_ticks) % 1000) * 1000000`, with
`0 ≤ tv_nsec < 1000000000` and `tv_sec * 1000 + tv_nsec / 1000000 = now +
timeout_ticks`. -/
theorem C10_native_deadline (now tk : Int) :
    (tk < 0 → Posix.racond_wait now tk = Posix.NativeWait.pthread_cond_wait) ∧
    (0 ≤ now → 0 ≤ tk → now + tk < 2 ^ 63 →
      Posix.racond_wait now tk =
          Posix.NativeWait.pthread_cond_timedwait ((now + tk) / 1000)
            (((now + tk) % 1000) * 1000000) ∧
        0 ≤ ((now + tk) % 1000) * 1000000 ∧
        ((now + tk) % 1000) * 1000000 < 1000000000 ∧
        ((now + tk) / 1000) * 1000 + (((now + tk) % 1000) * 1000000) / 1000000 = now + tk) := by
  constructor
  · intro h
    simp [Posix.racond_wait, h]
  · intro hn ht hs
    have hsum : 0 ≤ now + tk := by omega
    have hw : Posix.wrap64 (now + tk) = now + tk := by
      unfold Posix.wrap64
      have : (now + tk + 2 ^ 63) % 2 ^ 64 = now + tk + 2 ^ 63 :=
        Int.emod_eq_of_lt (by omega) (by omega)
      omega
    have hm0 : 0 ≤ (now + tk) % 1000 := Int.emod_nonneg _ (by norm_num)
    have hm1 : (now + tk) % 1000 < 1000 := Int.emod_lt_of_pos _ (by norm_num)
    have hw2 : Posix.wrap64 (((now + tk) % 1000) * 1000000) = ((now + tk) % 1000) * 1000000 := by
      unfold Posix.wrap64
      have : ((now + tk) % 1000 * 1000000 + 2 ^ 63) % 2 ^ 64
          = (now + tk) % 1000 * 1000000 + 2 ^ 63 :=
        Int.emod_eq_of_lt (by omega) (by omega)
      omega
    have hd : (now + tk).tdiv 1000 = (now + tk) / 1000 :=
      Int.tdiv_eq_ediv hsum (by norm_num)
    have hm : (now + tk).tmod 1000 = (now + tk) % 1000 :=
      Int.tmod_eq_emod hsum (by norm_num)
    refine ⟨?_, by omega, by omega, ?_⟩
    · have hneg : ¬ tk < 0 := not_lt.mpr ht
      simp only [Posix.racond_wait, if_neg hneg, hw, hd, hm, hw2]
    · have := Int.ediv_add_emod (now + tk) 1000
      omega

/-- Witness for `C10_native_deadline`: at tick 5000 a timeout of 1500 ms gives
the deadline 6 s + 500000000 ns, and a timeout of -1 the untimed wait. -/
theorem C10_native_deadline_witness :
    Posix.racond_wait 5000 (-1) = Posix.NativeWait.pthread_cond_wait ∧
    (Posix.racond_wait 5000 1500 =
          Posix.NativeWait.pthread_cond_timedwait (((5000 : Int) + 1500) / 1000)
            ((((5000 : Int) + 1500) % 1000) * 1000000) ∧
        0 ≤ (((5000 : Int) + 1500) % 1000) * 1000000 ∧
        (((5000 : Int) + 1500) % 1000) * 1000000 < 1000000000 ∧
        (((5000 : Int) + 1500) / 1000) * 1000 + ((((5000 : Int) + 1500) % 1000) * 1000000) / 1000000
          = 5000 + 1500) :=
  ⟨(C10_native_deadline 5000 (-1)).1 (by decide),
   (C10_native_deadline 5000 1500).2 (by decide) (by decide) (by decide)⟩

namespace Win32

theorem init_eq {ix : EventIndices} {n : Nat} {cb : racond} {mb : ramutex} {s0 : State}
    (h : init ix n cb mb = some s0) :
    s0.pcs = List.replicate n PC.idle ∧ s0.c.nWaiters = 0 ∧
      s0.c.waiters_lock = InitializeCriticalSection ∧
      s0.m.hMutex = InitializeCriticalSection ∧
      s0.c.events.get ix.EVENT_COND_SIGNAL = CreateEvent false false ∧
      s0.c.events.get ix.EVENT_COND_BROADCAST = CreateEvent true false := by
  simp only [init, racond_create, ramutex_create] at h
  cases h
  refine ⟨rfl, rfl, rfl, rfl, ?_, ?_⟩
  · obtain ⟨sg, bc, hne⟩ := ix
    fin_cases sg <;> fin_cases bc <;> first | exact absurd rfl hne | rfl
  · obtain ⟨sg, bc, hne⟩ := ix
    fin_cases sg <;> fin_cases bc <;> first | exact absurd rfl hne | rfl

theorem getElem?_replicate_idle {n t : Nat} {pc : PC}
    (h : (List.replicate n PC.idle)[t]? = some pc) : pc = PC.idle := by
  obtain ⟨ht, hget⟩ := List.getElem?_eq_some.mp h
  have hmem : pc ∈ List.replicate n PC.idle := hget ▸ List.getElem_mem _
  exact (List.mem_replicate.mp hmem).2

theorem init_countInv {ix : EventIndices} {n : Nat} {cb : racond} {mb : ramutex} {s0 : State}
    (h : init ix n cb mb = some s0) : CountInv n s0 := by
  obtain ⟨hp, hn, -, -, -, -⟩ := init_eq h
  refine ⟨by rw [hp, List.length_replicate], ?_, ?_⟩
  · rw [hn, hp]
    symm
    rw [List.countP_eq_zero]
    intro a ha
    rw [(List.mem_replicate.mp ha).2]
    simp [PC.registered]
  · intro t pc hpc hin
    rw [hp] at hpc
    rw [getElem?_replicate_idle hpc] at hin
    simp [PC.inWaitersLock] at hin

theorem run_countInv {ix : EventIndices} {n : Nat} (hn : n < 2 ^ 32) (acts : List Action) :
    ∀ {s s' : State}, CountInv n s → run ix s acts = some s' → CountInv n s' := by
  induction acts with
  | nil =>
    intro s s' hi h
    simp only [run] at h
    cases h
    exact hi
  | cons a as ih =>
    intro s s' hi h
    simp only [run] at h
    obtain ⟨s1, h1, h2⟩ := Option.bind_eq_some.mp h
    exact ih (countInv_step hn hi h1) h2

theorem reachable_countInv {ix : EventIndices} {n : Nat} (hn : n < 2 ^ 32) {s : State}
    (h : Reachable ix n s) : CountInv n s := by
  obtain ⟨cb, mb, s0, acts, h0, hr⟩ := h
  exact run_countInv hn acts (init_countInv h0) hr

theorem reachable_of_runInit {ix : EventIndices} {n : Nat} (acts : List Action) {s : State}
    (h : runInit ix n acts = some s) : Reachable ix n s := by
  unfold runInit at h
  obtain ⟨s0, h0, hr⟩ := Option.bind_eq_some.mp h
  exact ⟨zeroCond, zeroMutex, s0, acts, h0, hr⟩

/-- Only the statements of lines 145 and 163, executed inside the auxiliary
lock, write the waiter count. -/
theorem step_nWaiters {ix : EventIndices} {s s' : State} {a : Action}
    (h : step ix s a = some s') :
    s'.c.nWaiters = s.c.nWaiters ∨
      ∃ t pc, a = Action.adv t ∧ s.pcs[t]? = some pc ∧ pc.inWaitersLock = true := by
  cases a with
  | ramutex_lock t =>
    simp only [Win32.step] at h
    split at h
    · obtain ⟨m, -, rfl⟩ := Option.map_eq_some'.mp h
      exact Or.inl rfl
    · cases h
  | ramutex_trylock t =>
    simp only [Win32.step] at h
    split at h
    · cases h
      exact Or.inl rfl
    · cases h
  | ramutex_unlock t =>
    simp only [Win32.step] at h
    split at h
    · obtain ⟨m, -, rfl⟩ := Option.map_eq_some'.mp h
      exact Or.inl rfl
    · cases h
  | racond_signal t =>
    simp only [Win32.step] at h
    split at h
    · cases h
      exact Or.inl rfl
    · cases h
  | racond_broadcast t =>
    simp only [Win32.step] at h
    split at h
    · cases h
      exact Or.inl rfl
    · cases h
  | racond_wait t tk =>
    simp only [Win32.step] at h
    split at h
    · cases h
      exact Or.inl rfl
    · cases h
  | timeout t =>
    simp only [Win32.step] at h
    split at h
    · split at h
      · cases h
        exact Or.inl rfl
      · cases h
    · cases h
  | adv t =>
    simp only [Win32.step] at h
    split at h
    · rename_i pc hpc
      cases pc <;> simp only [racond_wait_step] at h
      case idle => cases h
      case L144 tk =>
        obtain ⟨wl, -, rfl⟩ := Option.map_eq_some'.mp h
        exact Or.inl rfl
      case L145 tk => exact Or.inr ⟨t, _, rfl, hpc, rfl⟩
      case L146 tk => exact Or.inr ⟨t, _, rfl, hpc, rfl⟩
      case L148 tk =>
        cases h
        exact Or.inl rfl
      case L157 ms =>
        obtain ⟨m, -, rfl⟩ := Option.map_eq_some'.mp h
        exact Or.inl rfl
      case L159 ms =>
        obtain ⟨r, -, rfl⟩ := Option.map_eq_some'.mp h
        exact Or.inl rfl
      case L162 r =>
        obtain ⟨wl, -, rfl⟩ := Option.map_eq_some'.mp h
        exact Or.inl rfl
      case L163 r => exact Or.inr ⟨t, _, rfl, hpc, rfl⟩
      case L164 r => exact Or.inr ⟨t, _, rfl, hpc, rfl⟩
      case L166 b => exact Or.inr ⟨t, _, rfl, hpc, rfl⟩
      case L172 b =>
        cases h
        exact Or.inl rfl
      case L176 =>
        obtain ⟨m, -, rfl⟩ := Option.map_eq_some'.mp h
        exact Or.inl rfl
    · cases h

end Win32

/-! ### Waiter-count invariant -/

/-- C9: in every state reachable from the state produced by `racond_create`
with fewer than `2^32` threads, `nWaiters` equals the number of threads that
have executed the increment of line 145 and not yet the decrement of line 163;
a thread about to execute the decrement finds the counter positive, so the
unsigned decrement does not wrap; and a step that changes `nWaiters` is a
statement of `racond_wait` executed by the thread that owns `waiters_lock`. -/
theorem C9_waiter_count (ix : EventIndices) (n : Nat) (hn : n < 2 ^ 32) (s : Win32.State)
    (hr : Win32.Reachable ix n s) :
    s.c.nWaiters = s.pcs.countP Win32.PC.registered ∧
    (∀ (t : Tid) (r : Nat), s.pcs[t]? = some (Win32.PC.L163 r) →
      0 < s.c.nWaiters ∧ Win32.decWaiters s.c.nWaiters = s.c.nWaiters - 1 ∧
        Win32.decWaiters s.c.nWaiters = (s.c.nWaiters + 2 ^ 32 - 1) % 2 ^ 32) ∧
    (∀ a s', Win32.step ix s a = some s' → s'.c.nWaiters ≠ s.c.nWaiters →
      ∃ t, a = Win32.Action.adv t ∧ s.c.waiters_lock.OwningThread = some t) := by
  have hi := Win32.reachable_countInv hn hr
  refine ⟨hi.count, ?_, ?_⟩
  · intro t r hpc
    have h1 := Win32.countP_set_of_getElem? Win32.PC.registered Win32.PC.idle hpc
    simp only [Win32.PC.registered, if_true, Bool.false_eq_true, if_false] at h1
    have hle := Win32.countP_le_len s.pcs Win32.PC.registered
    have hpos : 0 < s.c.nWaiters := by
      rw [hi.count]
      omega
    have hlt : s.c.nWaiters < 2 ^ 32 := by
      rw [hi.count]
      exact lt_of_le_of_lt (hle.trans (le_of_eq hi.len)) hn
    exact ⟨hpos, Win32.dec_no_wrap _ hpos, Win32.decWaiters_eq_mod _ hlt⟩
  · intro a s' hs hne
    rcases Win32.step_nWaiters hs with h | ⟨t, pc, rfl, hpc, hin⟩
    · exact absurd h hne
    · exact ⟨t, rfl, hi.lock t pc hpc hin⟩

/-- Witness for `C9_waiter_count`: two threads, one of them registered and
blocked at the event wait, the other entering `racond_wait`. -/
theorem C9_waiter_count_witness :
    (2 : Nat) < 2 ^ 32 ∧ Win32.Reachable sigFirst 2 Win32.stateTwoThreads ∧
      Win32.stateTwoThreads.c.nWaiters
        = Win32.stateTwoThreads.pcs.countP Win32.PC.registered :=
  ⟨by norm_num,
   Win32.reachable_of_runInit Win32.schedTwoThreads (by decide),
   (C9_waiter_count sigFirst 2 (by norm_num) Win32.stateTwoThreads
      (Win32.reachable_of_runInit Win32.schedTwoThreads (by decide))).1⟩

/-! ### Creation and `ramutex_trylock` -/

/-- C8: with the allocator returning either a block or null, each of
`ramutex_create` and `racond_create` (both platform branches) returns an absent
handle exactly when the allocation failed; on failure the fatal-error reporter
is called exactly once and no primitive is initialised; on success the reporter
is not called, and the handle returned by the emulated `racond_create` has
waiter count 0, an auto-reset unsignaled signal event, a manual-reset unsignaled
broadcast event and a free auxiliary lock, whatever the block contained. -/
theorem C8_creation (ix : EventIndices) (cm : Option Win32.ramutex) (cc : Option Win32.racond)
    (pm : Option Posix.ramutex) (pc : Option Posix.racond) (blk : Win32.racond) :
    (((Win32.ramutex_create cm).1 = none ↔ cm = none) ∧
      ((Win32.racond_create ix cc).1 = none ↔ cc = none) ∧
      ((Posix.ramutex_create pm).1 = none ↔ pm = none) ∧
      ((Posix.racond_create pc).1 = none ↔ pc = none)) ∧
    (((Win32.ramutex_create none).2.countP Effect.isFatal = 1 ∧
        (Win32.ramutex_create none).2.countP Effect.isInit = 0) ∧
      ((Win32.racond_create ix none).2.countP Effect.isFatal = 1 ∧
        (Win32.racond_create ix none).2.countP Effect.isInit = 0) ∧
      ((Posix.ramutex_create none).2.countP Effect.isFatal = 1 ∧
        (Posix.ramutex_create none).2.countP Effect.isInit = 0) ∧
      ((Posix.racond_create none).2.countP Effect.isFatal = 1 ∧
        (Posix.racond_create none).2.countP Effect.isInit = 0)) ∧
    ((Win32.racond_create ix (some blk)).2.countP Effect.isFatal = 0 ∧
      ∃ c, (Win32.racond_create ix (some blk)).1 = some c ∧
        c.nWaiters = 0 ∧
        c.events.get ix.EVENT_COND_SIGNAL = { bManualReset := false, signaled := false } ∧
        c.events.get ix.EVENT_COND_BROADCAST = { bManualReset := true, signaled := false } ∧
        c.waiters_lock = InitializeCriticalSection) := by
  refine ⟨⟨?_, ?_, ?_, ?_⟩, ⟨⟨rfl, rfl⟩, ⟨rfl, rfl⟩, ⟨rfl, rfl⟩, ⟨rfl, rfl⟩⟩, rfl, ?_⟩
  · cases cm <;> simp [Win32.ramutex_create]
  · cases cc <;> simp [Win32.racond_create]
  · cases pm <;> simp [Posix.ramutex_create]
  · cases pc <;> simp [Posix.racond_create]
  · refine ⟨_, rfl, rfl, ?_, ?_, rfl⟩
    · obtain ⟨sg, bc, hne⟩ := ix
      fin_cases sg <;> fin_cases bc <;> first | exact absurd rfl hne | rfl
    · obtain ⟨sg, bc, hne⟩ := ix
      fin_cases sg <;> fin_cases bc <;> first | exact absurd rfl hne | rfl

/-- C7 (counterexample): in the POSIX branch a thread that already holds the
mutex, so that no other thread holds it, gets `false` from `ramutex_trylock`. -/
theorem C7_counterexample :
    (({ hMutex := { owner := some 0 } } : Posix.ramutex).hMutex.owner = some 0) ∧
      (Posix.ramutex_trylock { hMutex := { owner := some 0 } } 0).1 = false := by
  decide

/-- C7 (amended): `ramutex_trylock` returns `false` exactly when the mutex is
held by another thread (WIN32 branch, where the critical section is recursive)
or by any thread, the caller included (POSIX branch, default mutex); in that
case the mutex state is unchanged; otherwise it returns `true` and the caller is
the holder afterwards. It is a non-blocking call: in the interleaving semantics
it is enabled for an idle thread in every state. -/
theorem C7_trylock (ix : EventIndices) (wm : Win32.ramutex) (pm : Posix.ramutex) (t : Tid)
    (s : Win32.State) :
    (((Win32.ramutex_trylock wm t).1 = false ↔
        ∃ u, u ≠ t ∧ wm.hMutex.OwningThread = some u) ∧
      ((Win32.ramutex_trylock wm t = (false, wm)) ∨
        ((Win32.ramutex_trylock wm t).1 = true ∧
          (Win32.ramutex_trylock wm t).2.hMutex.OwningThread = some t))) ∧
    (((Posix.ramutex_trylock pm t).1 = false ↔ ∃ u, pm.hMutex.owner = some u) ∧
      ((Posix.ramutex_trylock pm t = (false, pm)) ∨
        ((Posix.ramutex_trylock pm t).1 = true ∧
          (Posix.ramutex_trylock pm t).2.hMutex.owner = some t))) ∧
    ((Win32.step ix s (Win32.Action.ramutex_trylock t)).isSome = true ↔
      s.pcs[t]? = some Win32.PC.idle) := by
  refine ⟨?_, ?_, ?_⟩
  · obtain ⟨⟨o, k⟩⟩ := wm
    cases o with
    | none =>
      simp [Win32.ramutex_trylock, TryEnterCriticalSection, EnterCriticalSection]
    | some v =>
      by_cases hv : v = t
      · subst hv
        simp [Win32.ramutex_trylock, TryEnterCriticalSection, EnterCriticalSection]
      · simp [Win32.ramutex_trylock, TryEnterCriticalSection, EnterCriticalSection, hv]
  · obtain ⟨⟨o⟩⟩ := pm
    cases o with
    | none => simp [Posix.ramutex_trylock, pthread_mutex_trylock]
    | some v => simp [Posix.ramutex_trylock, pthread_mutex_trylock, EBUSY]
  · simp only [Win32.step]
    split <;> simp_all

/-! ### Ownership of the mutex and completion of a wait -/

namespace Win32

theorem ramutex_lock_owner {m m' : ramutex} {t : Tid} (h : ramutex_lock m t = some m') :
    m'.hMutex.OwningThread = some t ∧
      (m.hMutex.OwningThread = none ∨ m.hMutex.OwningThread = some t) := by
  obtain ⟨cs, hcs, rfl⟩ := Option.map_eq_some'.mp h
  exact enter_owner hcs

theorem ramutex_unlock_owner {m m' : ramutex} {t : Tid} (h : ramutex_unlock m t = some m') :
    m.hMutex.OwningThread = some t ∧
      (m'.hMutex.OwningThread = none ∨ m'.hMutex.OwningThread = some t) := by
  obtain ⟨cs, hcs, rfl⟩ := Option.map_eq_some'.mp h
  exact leave_owner hcs

theorem ramutex_trylock_owner (m : ramutex) (t : Tid) :
    (ramutex_trylock m t).2 = m ∨
      ((ramutex_trylock m t).2.hMutex.OwningThread = some t ∧
        (m.hMutex.OwningThread = none ∨ m.hMutex.OwningThread = some t)) := by
  unfold ramutex_trylock TryEnterCriticalSection
  cases hE : EnterCriticalSection m.hMutex t with
  | none => exact Or.inl rfl
  | some cs => exact Or.inr (enter_owner hE)

theorem getElem?_set_self_of {l : List PC} {t : Nat} {pc : PC} (pc' : PC)
    (h : l[t]? = some pc) : (l.set t pc')[t]? = some pc' := by
  obtain ⟨ht, -⟩ := List.getElem?_eq_some.mp h
  rw [List.getElem?_set]
  simp [ht]

/-- Once the event wait of thread `t` has returned, and while nobody else holds
the auxiliary lock or `m`, the remaining six statements of `racond_wait` run to
completion. -/
theorem racond_wait_completes {ix : EventIndices} {s : State} {t : Tid} {r : Nat}
    (hpc : s.pcs[t]? = some (PC.L162 r))
    (hwl : s.c.waiters_lock.OwningThread = none)
    (hm : s.m.hMutex.OwningThread = none ∨ s.m.hMutex.OwningThread = some t) :
    ∃ s', run ix s [.adv t, .adv t, .adv t, .adv t, .adv t, .adv t] = some s' ∧
      s'.pcs[t]? = some PC.idle ∧ s'.m.hMutex.OwningThread = some t := by
  have e1 : EnterCriticalSection s.c.waiters_lock t
      = some { OwningThread := some t, RecursionCount := 1 } := by
    unfold EnterCriticalSection
    rw [hwl]
  have p1 := getElem?_set_self_of (PC.L163 r) hpc
  have p2 := getElem?_set_self_of (PC.L164 r) p1
  have hmE : ∃ m', ramutex_lock s.m t = some m' ∧ m'.hMutex.OwningThread = some t := by
    unfold ramutex_lock EnterCriticalSection
    rcases hm with hm | hm <;> rw [hm] <;> simp
  obtain ⟨m', hm1, hm2⟩ := hmE
  generalize hb : (if r = WAIT_OBJECT_0 + ix.EVENT_COND_BROADCAST.val ∧
      decWaiters s.c.nWaiters = 0 then true else false) = b
  have p3 := getElem?_set_self_of (PC.L166 b) p2
  have p4 := getElem?_set_self_of (PC.L172 b) p3
  have p5 := getElem?_set_self_of PC.L176 p4
  have p6 := getElem?_set_self_of PC.idle p5
  simp only [run, Win32.step, hpc, racond_wait_step, e1, Option.map_some', Option.some_bind, p1,
    p2, hb, p3, p4, p5, LeaveCriticalSection, if_true, le_refl, hm1]
  exact ⟨_, rfl, p6, hm2⟩

theorem grunInit_some {ix : EventIndices} {n : Nat} {acts : List Action} {s : State}
    {g : Ghost} (h : grunInit ix n acts = some (s, g)) :
    ∃ s0, init ix n zeroCond zeroMutex = some s0 ∧ grun ix s0 Ghost.zero acts = some (s, g) := by
  unfold grunInit at h
  exact Option.bind_eq_some.mp h

end Win32

/-! ### Frame lemmas: what a step changes -/

namespace Win32

theorem get_set_self (a : EventArray) (i : Fin 2) (e : Event) : (a.set i e).get i = e := by
  fin_cases i <;> rfl

theorem get_set_ne (a : EventArray) {i j : Fin 2} (h : i ≠ j) (e : Event) :
    (a.set i e).get j = a.get j := by
  fin_cases i <;> fin_cases j <;> first | exact absurd rfl h | rfl

/-- The two indices are 0 and 1 in one of the two orders. -/
theorem indices_cases (ix : EventIndices) :
    (ix.EVENT_COND_SIGNAL = 0 ∧ ix.EVENT_COND_BROADCAST = 1) ∨
      (ix.EVENT_COND_SIGNAL = 1 ∧ ix.EVENT_COND_BROADCAST = 0) := by
  obtain ⟨sg, bc, hne⟩ := ix
  fin_cases sg <;> fin_cases bc <;> first
    | exact absurd rfl hne
    | exact Or.inl ⟨rfl, rfl⟩
    | exact Or.inr ⟨rfl, rfl⟩

/-- A wait with only the (auto-reset) signal event signaled returns the signal
index and resets the event. -/
theorem wait_signal (ix : EventIndices) (ev : EventArray)
    (hk : (ev.get ix.EVENT_COND_SIGNAL).bManualReset = false)
    (hs : (ev.get ix.EVENT_COND_SIGNAL).signaled = true)
    (hb : (ev.get ix.EVENT_COND_BROADCAST).signaled = false) :
    WaitForMultipleObjects ev = some (WAIT_OBJECT_0 + ix.EVENT_COND_SIGNAL.val,
      ev.set ix.EVENT_COND_SIGNAL (ResetEvent (ev.get ix.EVENT_COND_SIGNAL))) := by
  rcases indices_cases ix with ⟨h1, h2⟩ | ⟨h1, h2⟩ <;> rw [h1] at hk hs ⊢ <;> rw [h2] at hb <;>
    simp [WaitForMultipleObjects, consumeEvent, hk, hs, hb]

/-- A wait with only the (manual-reset) broadcast event signaled returns the
broadcast index and leaves the events as they are. -/
theorem wait_broadcast (ix : EventIndices) (ev : EventArray)
    (hk : (ev.get ix.EVENT_COND_BROADCAST).bManualReset = true)
    (hs : (ev.get ix.EVENT_COND_SIGNAL).signaled = false)
    (hb : (ev.get ix.EVENT_COND_BROADCAST).signaled = true) :
    WaitForMultipleObjects ev = some (WAIT_OBJECT_0 + ix.EVENT_COND_BROADCAST.val, ev) := by
  rcases indices_cases ix with ⟨h1, h2⟩ | ⟨h1, h2⟩ <;> rw [h2] at hk hb ⊢ <;> rw [h1] at hs <;>
    simp [WaitForMultipleObjects, consumeEvent, hk, hs, hb]

/-- A wait is not satisfied exactly when both events are unsignaled. -/
theorem wait_none_iff (ix : EventIndices) (ev : EventArray) :
    WaitForMultipleObjects ev = none ↔
      (ev.get ix.EVENT_COND_SIGNAL).signaled = false ∧
        (ev.get ix.EVENT_COND_BROADCAST).signaled = false := by
  rcases indices_cases ix with ⟨h1, h2⟩ | ⟨h1, h2⟩ <;> rw [h1, h2] <;>
    simp only [WaitForMultipleObjects] <;>
    cases h0 : (ev.get 0).signaled <;> cases h3 : (ev.get 1).signaled <;> simp

end Win32
namespace Win32

/-- A step leaves the program counters of the other threads alone. -/
theorem step_pcs_other {ix : EventIndices} {s s' : State} {a : Action}
    (h : step ix s a = some s') {u : Tid} (hu : u ≠ a.tid) : s'.pcs[u]? = s.pcs[u]? := by
  have hset : ∀ pc', (s.pcs.set a.tid pc')[u]? = s.pcs[u]? := fun pc' =>
    List.getElem?_set_ne (fun e => hu e.symm)
  cases a with
  | ramutex_lock t =>
    simp only [Win32.step] at h
    split at h
    · obtain ⟨m, -, rfl⟩ := Option.map_eq_some'.mp h
      rfl
    · cases h
  | ramutex_trylock t =>
    simp only [Win32.step] at h
    split at h
    · cases h
      rfl
    · cases h
  | ramutex_unlock t =>
    simp only [Win32.step] at h
    split at h
    · obtain ⟨m, -, rfl⟩ := Option.map_eq_some'.mp h
      rfl
    · cases h
  | racond_signal t =>
    simp only [Win32.step] at h
    split at h
    · cases h
      rfl
    · cases h
  | racond_broadcast t =>
    simp only [Win32.step] at h
    split at h
    · cases h
      rfl
    · cases h
  | racond_wait t tk =>
    simp only [Win32.step] at h
    split at h
    · cases h
      exact hset _
    · cases h
  | timeout t =>
    simp only [Win32.step] at h
    split at h
    · split at h
      · cases h
        exact hset _
      · cases h
    · cases h
  | adv t =>
    simp only [Win32.step] at h
    split at h
    · rename_i pc hpc
      cases pc <;> simp only [racond_wait_step] at h
      case idle => cases h
      case L144 tk =>
        obtain ⟨wl, -, rfl⟩ := Option.map_eq_some'.mp h
        exact hset _
      case L145 tk =>
        cases h
        exact hset _
      case L146 tk =>
        obtain ⟨wl, -, rfl⟩ := Option.map_eq_some'.mp h
        exact hset _
      case L148 tk =>
        cases h
        exact hset _
      case L157 ms =>
        obtain ⟨m, -, rfl⟩ := Option.map_eq_some'.mp h
        exact hset _
      case L159 ms =>
        obtain ⟨r, -, rfl⟩ := Option.map_eq_some'.mp h
        exact hset _
      case L162 r =>
        obtain ⟨wl, -, rfl⟩ := Option.map_eq_some'.mp h
        exact hset _
      case L163 r =>
        cases h
        exact hset _
      case L164 r =>
        cases h
        exact hset _
      case L166 b =>
        obtain ⟨wl, -, rfl⟩ := Option.map_eq_some'.mp h
        exact hset _
      case L172 b =>
        cases h
        exact hset _
      case L176 =>
        obtain ⟨m, -, rfl⟩ := Option.map_eq_some'.mp h
        exact hset _
    · cases h

/-- Only an idle thread makes a call. -/
theorem step_call_idle {ix : EventIndices} {s s' : State} {a : Action}
    (h : step ix s a = some s') (h1 : a ≠ Action.adv a.tid) (h2 : a ≠ Action.timeout a.tid) :
    s.pcs[a.tid]? = some PC.idle := by
  cases a with
  | ramutex_lock t =>
    simp only [Win32.step] at h
    split at h
    · assumption
    · cases h
  | ramutex_trylock t =>
    simp only [Win32.step] at h
    split at h
    · assumption
    · cases h
  | ramutex_unlock t =>
    simp only [Win32.step] at h
    split at h
    · assumption
    · cases h
  | racond_signal t =>
    simp only [Win32.step] at h
    split at h
    · assumption
    · cases h
  | racond_broadcast t =>
    simp only [Win32.step] at h
    split at h
    · assumption
    · cases h
  | racond_wait t tk =>
    simp only [Win32.step] at h
    split at h
    · rename_i hc
      exact hc.1
    · cases h
  | timeout t => exact absurd rfl h2
  | adv t => exact absurd rfl h1

/-- A thread blocked at the event wait stays there until its own wait is
satisfied or times out. -/
theorem step_keeps_wait {ix : EventIndices} {s s' : State} {a : Action}
    (h : step ix s a = some s') {t : Tid} {ms : Nat} (hpc : s.pcs[t]? = some (PC.L159 ms))
    (h1 : a ≠ Action.adv t) (h2 : a ≠ Action.timeout t) : s'.pcs[t]? = some (PC.L159 ms) := by
  by_cases ht : t = a.tid
  · subst ht
    have := step_call_idle h h1 h2
    rw [hpc] at this
    cases this
  · rw [step_pcs_other h ht]
    exact hpc

/-- Effect of a step on the two events. -/
theorem step_events {ix : EventIndices} {s s' : State} {a : Action}
    (h : step ix s a = some s') :
    s'.c.events = s.c.events ∨
    ((∃ t, a = Action.racond_signal t) ∧ s'.c.events = (racond_signal ix s.c).events) ∨
    ((∃ t, a = Action.racond_broadcast t) ∧ s'.c.events = (racond_broadcast ix s.c).events) ∨
    (∃ t ms r, a = Action.adv t ∧ s.pcs[t]? = some (PC.L159 ms) ∧
      WaitForMultipleObjects s.c.events = some (r, s'.c.events) ∧
      s'.pcs = s.pcs.set t (PC.L162 r)) ∨
    (∃ t, a = Action.adv t ∧ s.pcs[t]? = some (PC.L172 true) ∧
      s'.c.events = s.c.events.set ix.EVENT_COND_BROADCAST
        (ResetEvent (s.c.events.get ix.EVENT_COND_BROADCAST))) := by
  cases a with
  | ramutex_lock t =>
    simp only [Win32.step] at h
    split at h
    · obtain ⟨m, -, rfl⟩ := Option.map_eq_some'.mp h
      exact Or.inl rfl
    · cases h
  | ramutex_trylock t =>
    simp only [Win32.step] at h
    split at h
    · cases h
      exact Or.inl rfl
    · cases h
  | ramutex_unlock t =>
    simp only [Win32.step] at h
    split at h
    · obtain ⟨m, -, rfl⟩ := Option.map_eq_some'.mp h
      exact Or.inl rfl
    · cases h
  | racond_signal t =>
    simp only [Win32.step] at h
    split at h
    · cases h
      exact Or.inr (Or.inl ⟨⟨t, rfl⟩, rfl⟩)
    · cases h
  | racond_broadcast t =>
    simp only [Win32.step] at h
    split at h
    · cases h
      exact Or.inr (Or.inr (Or.inl ⟨⟨t, rfl⟩, rfl⟩))
    · cases h
  | racond_wait t tk =>
    simp only [Win32.step] at h
    split at h
    · cases h
      exact Or.inl rfl
    · cases h
  | timeout t =>
    simp only [Win32.step] at h
    split at h
    · split at h
      · cases h
        exact Or.inl rfl
      · cases h
    · cases h
  | adv t =>
    simp only [Win32.step] at h
    split at h
    · rename_i pc hpc
      cases pc <;> simp only [racond_wait_step] at h
      case idle => cases h
      case L144 tk =>
        obtain ⟨wl, -, rfl⟩ := Option.map_eq_some'.mp h
        exact Or.inl rfl
      case L145 tk =>
        cases h
        exact Or.inl rfl
      case L146 tk =>
        obtain ⟨wl, -, rfl⟩ := Option.map_eq_some'.mp h
        exact Or.inl rfl
      case L148 tk =>
        cases h
        exact Or.inl rfl
      case L157 ms =>
        obtain ⟨m, -, rfl⟩ := Option.map_eq_some'.mp h
        exact Or.inl rfl
      case L159 ms =>
        obtain ⟨r, hr, rfl⟩ := Option.map_eq_some'.mp h
        exact Or.inr (Or.inr (Or.inr (Or.inl ⟨t, ms, r.1, rfl, hpc, hr, rfl⟩)))
      case L162 r =>
        obtain ⟨wl, -, rfl⟩ := Option.map_eq_some'.mp h
        exact Or.inl rfl
      case L163 r =>
        cases h
        exact Or.inl rfl
      case L164 r =>
        cases h
        exact Or.inl rfl
      case L166 b =>
        obtain ⟨wl, -, rfl⟩ := Option.map_eq_some'.mp h
        exact Or.inl rfl
      case L172 b =>
        cases b
        · cases h
          exact Or.inl rfl
        · cases h
          exact Or.inr (Or.inr (Or.inr (Or.inr ⟨t, rfl, hpc, rfl⟩)))
      case L176 =>
        obtain ⟨m, -, rfl⟩ := Option.map_eq_some'.mp h
        exact Or.inl rfl
    · cases h

theorem consume_kind (a : EventArray) (i j : Fin 2) :
    ((consumeEvent a i).get j).bManualReset = (a.get j).bManualReset := by
  unfold consumeEvent
  split
  · rfl
  · fin_cases i <;> fin_cases j <;> rfl

theorem wait_kind {ev ev' : EventArray} {r : Nat}
    (h : WaitForMultipleObjects ev = some (r, ev')) (j : Fin 2) :
    (ev'.get j).bManualReset = (ev.get j).bManualReset := by
  unfold WaitForMultipleObjects at h
  split at h
  · rw [← (Prod.mk.inj (Option.some.inj h)).2]
    exact consume_kind _ _ _
  · split at h
    · rw [← (Prod.mk.inj (Option.some.inj h)).2]
      exact consume_kind _ _ _
    · cases h

/-- The kind of an event never changes. -/
theorem step_evKinds {ix : EventIndices} {s s' : State} {a : Action}
    (hk : EvKinds ix s) (h : step ix s a = some s') : EvKinds ix s' := by
  have hne := ix.distinct
  unfold EvKinds at hk ⊢
  rcases step_events h with he | ⟨-, he⟩ | ⟨-, he⟩ | ⟨t, ms, r, -, -, hw, -⟩ | ⟨t, -, -, he⟩
  · rw [he]
    exact hk
  · rw [he]
    simp only [racond_signal]
    rw [get_set_self, get_set_ne _ hne]
    exact ⟨hk.1, hk.2⟩
  · rw [he]
    simp only [racond_broadcast]
    rw [get_set_self, get_set_ne _ hne.symm]
    exact ⟨hk.1, hk.2⟩
  · rw [wait_kind hw, wait_kind hw]
    exact hk
  · rw [he, get_set_self, get_set_ne _ hne.symm]
    exact ⟨hk.1, hk.2⟩

theorem init_evKinds {ix : EventIndices} {n : Nat} {cb : racond} {mb : ramutex} {s0 : State}
    (h : init ix n cb mb = some s0) : EvKinds ix s0 := by
  obtain ⟨-, -, -, -, h1, h2⟩ := init_eq h
  unfold EvKinds
  rw [h1, h2]
  exact ⟨rfl, rfl⟩

theorem run_evKinds {ix : EventIndices} (acts : List Action) :
    ∀ {s s' : State}, EvKinds ix s → run ix s acts = some s' → EvKinds ix s' := by
  induction acts with
  | nil =>
    intro s s' hi h
    simp only [run] at h
    cases h
    exact hi
  | cons a as ih =>
    intro s s' hi h
    simp only [run] at h
    obtain ⟨s1, h1, h2⟩ := Option.bind_eq_some.mp h
    exact ih (step_evKinds hi h1) h2

theorem reachable_evKinds {ix : EventIndices} {n : Nat} {s : State}
    (h : Reachable ix n s) : EvKinds ix s := by
  obtain ⟨cb, mb, s0, acts, h0, hr⟩ := h
  exact run_evKinds acts (init_evKinds h0) hr

end Win32

/-! ### A signal issued while nobody waits -/

/-- C4 (counterexample): in the freshly created state (no waiter, both events
unsignaled) thread 1 calls `racond_signal`; thread 0 then calls `racond_wait`
with an infinite timeout, reaches the event wait of line 159, and the wait is
satisfied at once by the signal event instead of blocking. Both index orders. -/
theorem C4_counterexample :
    ((Win32.runInit sigFirst 2 []).map fun s =>
        (s.c.nWaiters, Win32.sigSignaled sigFirst s, Win32.bcSignaled sigFirst s, s.pcs))
      = some (0, false, false, [Win32.PC.idle, Win32.PC.idle]) ∧
    ((Win32.runInit sigFirst 2 Win32.schedSignalThenWait).map fun s => s.pcs[0]?)
      = some (some (Win32.PC.L159 INFINITE)) ∧
    (((Win32.runInit sigFirst 2 Win32.schedSignalThenWait).bind fun s =>
        Win32.step sigFirst s (Win32.Action.adv 0)).map fun s => s.pcs[0]?)
      = some (some (Win32.PC.L162 (WAIT_OBJECT_0 + 0))) ∧
    (((Win32.runInit bcFirst 2 Win32.schedSignalThenWait).bind fun s =>
        Win32.step bcFirst s (Win32.Action.adv 0)).map fun s => s.pcs[0]?)
      = some (some (Win32.PC.L162 (WAIT_OBJECT_0 + 1))) := by
  decide

namespace Win32

/-- From a state in which thread `t` is idle and owns `m` and the auxiliary
lock is free, the call `racond_wait(c, m, tk)` with `tk < 0` reaches the event
wait with an infinite timeout, registered, without touching the events. -/
theorem racond_wait_reaches_wait (ix : EventIndices) (s : State) (t : Tid) (tk : Int)
    (ht : s.pcs[t]? = some PC.idle) (hm : s.m.hMutex.OwningThread = some t)
    (hwl : s.c.waiters_lock.OwningThread = none) (htk : tk < 0) :
    ∃ s2, run ix s [.racond_wait t tk, .adv t, .adv t, .adv t, .adv t, .adv t] = some s2 ∧
      s2.pcs[t]? = some (PC.L159 INFINITE) ∧ s2.c.events = s.c.events ∧
      s2.c.nWaiters = incWaiters s.c.nWaiters := by
  have hms : racond_wait_ms tk = INFINITE := by simp [racond_wait_ms, htk]
  have e1 : EnterCriticalSection s.c.waiters_lock t
      = some { OwningThread := some t, RecursionCount := 1 } := by
    unfold EnterCriticalSection
    rw [hwl]
  obtain ⟨m', hm'⟩ : ∃ m', ramutex_unlock s.m t = some m' := by
    unfold ramutex_unlock LeaveCriticalSection
    rw [if_pos hm]
    split <;> exact ⟨_, rfl⟩
  have p0 := getElem?_set_self_of (PC.L144 tk) ht
  have p1 := getElem?_set_self_of (PC.L145 tk) p0
  have p2 := getElem?_set_self_of (PC.L146 tk) p1
  have p3 := getElem?_set_self_of (PC.L148 tk) p2
  have p4 := getElem?_set_self_of (PC.L157 INFINITE) p3
  have p5 := getElem?_set_self_of (PC.L159 INFINITE) p4
  simp only [run, Win32.step, ht, hm, and_self, if_true, racond_wait_step, e1, Option.map_some',
    Option.some_bind, p0, p1, p2, p3, p4, hms, hm', LeaveCriticalSection, le_refl]
  exact ⟨_, rfl, p5, rfl, rfl⟩

end Win32

/-- C4 (amended): a signal with no waiter is retained. From a state in which
nobody is inside `racond_wait` (waiter count 0, auxiliary lock free) and both
events are unsignaled, `racond_signal` leaves the auto-reset signal event
signaled; a thread that subsequently calls `racond_wait` with an infinite
timeout reaches the event wait and does not block there: the wait returns at
once with the signal result and resets the signal event, after which both
events are unsignaled again and a further wait would block. -/
theorem C4_signal_retained (ix : EventIndices) (s : Win32.State) (t u : Tid) (tk : Int)
    (hk : Win32.EvKinds ix s) (hn : s.c.nWaiters = 0)
    (hwl : s.c.waiters_lock.OwningThread = none)
    (hs : Win32.sigSignaled ix s = false) (hb : Win32.bcSignaled ix s = false)
    (hu : s.pcs[u]? = some Win32.PC.idle) (ht : s.pcs[t]? = some Win32.PC.idle)
    (hm : s.m.hMutex.OwningThread = some t) (htk : tk < 0) :
    ∃ s1 s2 s3, Win32.step ix s (Win32.Action.racond_signal u) = some s1 ∧
      Win32.sigSignaled ix s1 = true ∧
      Win32.run ix s1 [.racond_wait t tk, .adv t, .adv t, .adv t, .adv t, .adv t] = some s2 ∧
      s2.pcs[t]? = some (Win32.PC.L159 INFINITE) ∧ s2.c.nWaiters = 1 ∧
      Win32.step ix s2 (Win32.Action.adv t) = some s3 ∧
      s3.pcs[t]? = some (Win32.PC.L162 (WAIT_OBJECT_0 + ix.EVENT_COND_SIGNAL.val)) ∧
      Win32.sigSignaled ix s3 = false ∧ Win32.bcSignaled ix s3 = false ∧
      WaitForMultipleObjects s3.c.events = none := by
  have hne := ix.distinct
  have hs1 : Win32.step ix s (Win32.Action.racond_signal u)
      = some { s with c := Win32.racond_signal ix s.c } := by
    simp only [Win32.step, hu, if_true]
  obtain ⟨s2, hrun, hpc2, hev2, hn2⟩ :=
    Win32.racond_wait_reaches_wait ix { s with c := Win32.racond_signal ix s.c } t tk ht hm hwl
      htk
  unfold Win32.EvKinds at hk
  unfold Win32.sigSignaled at hs
  unfold Win32.bcSignaled at hb
  have hsig1 : (s2.c.events.get ix.EVENT_COND_SIGNAL).signaled = true := by
    rw [hev2]
    simp only [Win32.racond_signal]
    rw [Win32.get_set_self]
    rfl
  have hkind1 : (s2.c.events.get ix.EVENT_COND_SIGNAL).bManualReset = false := by
    rw [hev2]
    simp only [Win32.racond_signal]
    rw [Win32.get_set_self]
    exact hk.1
  have hbc1 : (s2.c.events.get ix.EVENT_COND_BROADCAST).signaled = false := by
    rw [hev2]
    simp only [Win32.racond_signal]
    rw [Win32.get_set_ne _ hne]
    exact hb
  have hw := Win32.wait_signal ix s2.c.events hkind1 hsig1 hbc1
  have hstep : ∃ s3, Win32.step ix s2 (Win32.Action.adv t) = some s3 ∧
      s3.pcs = s2.pcs.set t (Win32.PC.L162 (WAIT_OBJECT_0 + ix.EVENT_COND_SIGNAL.val)) ∧
      s3.c.events = s2.c.events.set ix.EVENT_COND_SIGNAL
        (ResetEvent (s2.c.events.get ix.EVENT_COND_SIGNAL)) := by
    simp only [Win32.step, hpc2, Win32.racond_wait_step, hw, Option.map_some']
    exact ⟨_, rfl, rfl, rfl⟩
  obtain ⟨s3, hstep, hp3, he3⟩ := hstep
  have hs3 : ((s2.c.events.set ix.EVENT_COND_SIGNAL
      (ResetEvent (s2.c.events.get ix.EVENT_COND_SIGNAL))).get ix.EVENT_COND_SIGNAL).signaled
        = false := by
    rw [Win32.get_set_self]
    rfl
  have hb3 : ((s2.c.events.set ix.EVENT_COND_SIGNAL
      (ResetEvent (s2.c.events.get ix.EVENT_COND_SIGNAL))).get ix.EVENT_COND_BROADCAST).signaled
        = false := by
    rw [Win32.get_set_ne _ hne]
    exact hbc1
  refine ⟨_, s2, s3, hs1, ?_, hrun, hpc2, ?_, hstep, ?_, ?_, ?_, ?_⟩
  · unfold Win32.sigSignaled
    simp only [Win32.racond_signal]
    rw [Win32.get_set_self]
    rfl
  · rw [hn2]
    show Win32.incWaiters s.c.nWaiters = 1
    rw [hn]
    rfl
  · rw [hp3]
    exact Win32.getElem?_set_self_of _ hpc2
  · unfold Win32.sigSignaled
    rw [he3]
    exact hs3
  · unfold Win32.bcSignaled
    rw [he3]
    exact hb3
  · rw [he3]
    exact (Win32.wait_none_iff ix _).mpr ⟨hs3, hb3⟩

/-- Witness for `C4_signal_retained`: the freshly created state with two
threads, after thread 0 has locked `m`; thread 1 signals, thread 0 waits. -/
theorem C4_signal_retained_witness :
    Win32.runInit sigFirst 2 [Win32.Action.ramutex_lock 0] = some Win32.stateMutexHeld ∧
      ∃ s1 s2 s3,
        Win32.step sigFirst Win32.stateMutexHeld (Win32.Action.racond_signal 1) = some s1 ∧
        Win32.sigSignaled sigFirst s1 = true ∧
        Win32.run sigFirst s1 [.racond_wait 0 (-1), .adv 0, .adv 0, .adv 0, .adv 0, .adv 0]
          = some s2 ∧
        s2.pcs[0]? = some (Win32.PC.L159 INFINITE) ∧ s2.c.nWaiters = 1 ∧
        Win32.step sigFirst s2 (Win32.Action.adv 0) = some s3 ∧
        s3.pcs[0]? = some (Win32.PC.L162 (WAIT_OBJECT_0 + sigFirst.EVENT_COND_SIGNAL.val)) ∧
        Win32.sigSignaled sigFirst s3 = false ∧ Win32.bcSignaled sigFirst s3 = false ∧
        WaitForMultipleObjects s3.c.events = none :=
  ⟨by decide,
   C4_signal_retained sigFirst Win32.stateMutexHeld 0 1 (-1) ⟨by decide, by decide⟩ (by decide)
    (by decide) (by decide) (by decide) (by decide) (by decide) (by decide) (by decide)⟩

/-! ### The event wait while no object is signaled -/

namespace Win32

/-- The step of a thread blocked at the event wait, when no object is
signaled, is not enabled. -/
theorem adv_wait_blocked {ix : EventIndices} {s : State} {t : Tid} {ms : Nat}
    (hpc : s.pcs[t]? = some (PC.L159 ms)) (hs : sigSignaled ix s = false)
    (hb : bcSignaled ix s = false) : step ix s (Action.adv t) = none := by
  have hw : WaitForMultipleObjects s.c.events = none := (wait_none_iff ix _).mpr ⟨hs, hb⟩
  simp only [Win32.step, hpc, racond_wait_step, hw, Option.map_none']

end Win32

/-! ### Broadcast episodes -/

namespace Win32

theorem registered_pos {n : Nat} {s : State} (hc : CountInv n s) {t : Tid} {pc : PC}
    (hpc : s.pcs[t]? = some pc) (hr : pc.registered = true) : 0 < s.c.nWaiters := by
  obtain ⟨ht, hget⟩ := List.getElem?_eq_some.mp hpc
  rw [hc.count, List.countP_pos_iff]
  exact ⟨pc, hget ▸ List.getElem_mem _, hr⟩

theorem forall_pcs_set {P : PC → Prop} {l : List PC} {t0 : Nat} {pc' : PC}
    (h : ∀ (t : Tid) (pc : PC), l[t]? = some pc → P pc) (hp : P pc') :
    ∀ (t : Tid) (pc : PC), (l.set t0 pc')[t]? = some pc → P pc := by
  intro t pc hq
  rcases getElem?_set_some hq with ⟨-, rfl⟩ | ⟨-, hq'⟩
  · exact hp
  · exact h t pc hq'

theorem exists_pcs_set {Q : PC → Prop} {l : List PC} {t0 : Nat} {pc0 : PC} (pc' : PC)
    (hpc : l[t0]? = some pc0) (hq : Q pc0 → Q pc')
    (h : ∃ (t : Tid) (pc : PC), l[t]? = some pc ∧ Q pc) :
    ∃ (t : Tid) (pc : PC), (l.set t0 pc')[t]? = some pc ∧ Q pc := by
  obtain ⟨t, pc, h1, h2⟩ := h
  by_cases e : t = t0
  · subst e
    rw [hpc] at h1
    cases h1
    exact ⟨t, pc', getElem?_set_self_of pc' hpc, hq h2⟩
  · exact ⟨t, pc, by rw [List.getElem?_set_ne (fun e' => e e'.symm)]; exact h1, h2⟩

/-- A step that changes neither the program counters, nor the events, nor the
waiter count preserves the episode invariant. -/
theorem episode_same {ix : EventIndices} {n r0 : Nat} {s s' : State} {g : Ghost}
    (he : Episode ix n r0 s g) (hc : CountInv n s') (hp : s'.pcs = s.pcs)
    (hev : s'.c.events = s.c.events) (hnw : s'.c.nWaiters = s.c.nWaiters) :
    Episode ix n r0 s' g := by
  have hk : EvKinds ix s' := by
    unfold EvKinds
    rw [hev]
    exact he.kinds
  have hsig : sigSignaled ix s' = sigSignaled ix s := by
    unfold sigSignaled
    rw [hev]
  have hbc : bcSignaled ix s' = bcSignaled ix s := by
    unfold bcSignaled
    rw [hev]
  refine ⟨hc, hk, ?_, hsig.trans he.sig, ?_, ?_⟩
  · rw [hp]
    exact he.noEnter
  · rw [hp]
    exact he.res
  · rw [hp, hbc, hnw]
    exact he.phase

/-- A step of thread `t` that changes neither the events nor the waiter count
and keeps the thread in the same class preserves the episode invariant. -/
theorem episode_move {ix : EventIndices} {n r0 : Nat} {s s' : State} {g : Ghost} {t : Tid}
    {pc pc' : PC} (he : Episode ix n r0 s g) (hc : CountInv n s')
    (hpc : s.pcs[t]? = some pc) (hp : s'.pcs = s.pcs.set t pc')
    (hev : s'.c.events = s.c.events) (hnw : s'.c.nWaiters = s.c.nWaiters)
    (h1 : pc'.entering = false)
    (h2 : ∀ r, pc'.result = some r →
      r = WAIT_OBJECT_0 + ix.EVENT_COND_BROADCAST.val ∨ pc.result = some r)
    (h3 : pc'.deciding = pc.deciding) (h4 : pc'.resetPending = pc.resetPending) :
    Episode ix n r0 s' g := by
  have hk : EvKinds ix s' := by
    unfold EvKinds
    rw [hev]
    exact he.kinds
  have hsig : sigSignaled ix s' = sigSignaled ix s := by
    unfold sigSignaled
    rw [hev]
  have hbc : bcSignaled ix s' = bcSignaled ix s := by
    unfold bcSignaled
    rw [hev]
  refine ⟨hc, hk, ?_, hsig.trans he.sig, ?_, ?_⟩
  · rw [hp]
    exact forall_pcs_set he.noEnter h1
  · rw [hp]
    intro u q r hq hr
    rcases getElem?_set_some hq with ⟨-, rfl⟩ | ⟨-, hq'⟩
    · rcases h2 r hr with h | h
      · exact h
      · exact he.res t pc r hpc h
    · exact he.res u q r hq' hr
  · rw [hp, hbc, hnw]
    rcases he.phase with ⟨a1, a2, a3, a4⟩ | ⟨b1, b2, b3, b4, t0, pc0, b5, b6, b7⟩ |
      ⟨c1, c2, c3, c4, c5⟩
    · refine Or.inl ⟨a1, a2, forall_pcs_set a3 (h4.trans (a3 t pc hpc)), ?_⟩
      intro h0
      exact exists_pcs_set pc' hpc (fun hd => h3.trans hd) (a4 h0)
    · refine Or.inr (Or.inl ⟨b1, b2, b3, forall_pcs_set b4 (h3.trans (b4 t pc hpc)), ?_⟩)
      by_cases e : t = t0
      · subst e
        rw [hpc] at b5
        cases b5
        refine ⟨t, pc', getElem?_set_self_of pc' hpc, h4.trans b6, ?_⟩
        intro u q hu hq
        rw [List.getElem?_set_ne (fun e' => hu e'.symm)] at hq
        exact b7 u q hu hq
      · refine ⟨t0, pc0, ?_, b6, ?_⟩
        · rw [List.getElem?_set_ne e]
          exact b5
        · intro u q hu hq
          rcases getElem?_set_some hq with ⟨-, rfl⟩ | ⟨-, hq'⟩
          · exact h4.trans (b7 t pc e hpc)
          · exact b7 u q hu hq'
    · exact Or.inr (Or.inr ⟨c1, c2, c3, forall_pcs_set c4 (h3.trans (c4 t pc hpc)),
        forall_pcs_set c5 (h4.trans (c5 t pc hpc))⟩)

end Win32
namespace Win32

theorem deciding_inWaitersLock {pc : PC} (h : pc.deciding = true) : pc.inWaitersLock = true := by
  cases pc <;> first | rfl | cases h

/-- A step other than a signal, a broadcast, a timeout or a new call of
`racond_wait` preserves the episode invariant. -/
theorem episode_step {ix : EventIndices} {n r0 : Nat} (hn : n < 2 ^ 32) {s s' : State}
    {g : Ghost} {a : Action} (he : Episode ix n r0 s g) (hq : a.calm = true)
    (h : step ix s a = some s') : Episode ix n r0 s' (ghostStep s a g) := by
  have hne := ix.distinct
  have hc' := countInv_step hn he.cnt h
  have hk' := step_evKinds he.kinds h
  cases a with
  | racond_signal t => cases hq
  | racond_broadcast t => cases hq
  | racond_wait t tk => cases hq
  | timeout t => cases hq
  | ramutex_lock t =>
    simp only [Win32.step] at h
    split at h
    · obtain ⟨m, -, rfl⟩ := Option.map_eq_some'.mp h
      exact episode_same he hc' rfl rfl rfl
    · cases h
  | ramutex_trylock t =>
    simp only [Win32.step] at h
    split at h
    · cases h
      exact episode_same he hc' rfl rfl rfl
    · cases h
  | ramutex_unlock t =>
    simp only [Win32.step] at h
    split at h
    · obtain ⟨m, -, rfl⟩ := Option.map_eq_some'.mp h
      exact episode_same he hc' rfl rfl rfl
    · cases h
  | adv t =>
    simp only [Win32.step] at h
    split at h
    · rename_i pc hpc
      have hno := he.noEnter t pc hpc
      cases pc <;> simp only [racond_wait_step] at h
      case idle => cases h
      case L144 tk => cases hno
      case L145 tk => cases hno
      case L146 tk =>
        obtain ⟨wl, -, rfl⟩ := Option.map_eq_some'.mp h
        simp only [ghostStep, hpc]
        exact episode_move he hc' hpc rfl rfl rfl rfl (fun _ hr => by cases hr) rfl rfl
      case L148 tk =>
        cases h
        simp only [ghostStep, hpc]
        exact episode_move he hc' hpc rfl rfl rfl rfl (fun _ hr => by cases hr) rfl rfl
      case L157 ms =>
        obtain ⟨m, -, rfl⟩ := Option.map_eq_some'.mp h
        simp only [ghostStep, hpc]
        exact episode_move he hc' hpc rfl rfl rfl rfl (fun _ hr => by cases hr) rfl rfl
      case L159 ms =>
        have hpos := registered_pos he.cnt hpc rfl
        rcases he.phase with ⟨a1, -, -, -⟩ | ⟨-, -, b3, -⟩ | ⟨-, -, c3, -⟩
        · have hw := wait_broadcast ix s.c.events he.kinds.2 he.sig a1
          rw [hw] at h
          simp only [Option.map_some'] at h
          cases h
          simp only [ghostStep, hpc]
          exact episode_move he hc' hpc rfl rfl rfl rfl (fun r hr => Or.inl (Option.some.inj hr).symm)
            rfl rfl
        · omega
        · omega
      case L162 r =>
        obtain ⟨wl, -, rfl⟩ := Option.map_eq_some'.mp h
        simp only [ghostStep, hpc]
        exact episode_move he hc' hpc rfl rfl rfl rfl (fun _ hr => Or.inr hr) rfl rfl
      case L163 r =>
        cases h
        have hpos := registered_pos he.cnt hpc rfl
        simp only [ghostStep, hpc]
        refine ⟨hc', hk', forall_pcs_set he.noEnter rfl, he.sig, ?_, ?_⟩
        · intro u q r' hq' hr'
          rcases getElem?_set_some hq' with ⟨-, rfl⟩ | ⟨-, hq''⟩
          · exact he.res t (PC.L163 r) r' hpc hr'
          · exact he.res u q r' hq'' hr'
        · rcases he.phase with ⟨a1, a2, a3, -⟩ | ⟨-, -, b3, -⟩ | ⟨-, -, c3, -⟩
          · exact Or.inl ⟨a1, a2, forall_pcs_set a3 rfl,
              fun _ => ⟨t, PC.L164 r, getElem?_set_self_of _ hpc, rfl⟩⟩
          · omega
          · omega
      case L164 r =>
        cases h
        have hr := he.res t (PC.L164 r) r hpc rfl
        have hown := he.cnt.lock t (PC.L164 r) hpc rfl
        simp only [ghostStep, hpc]
        rcases he.phase with ⟨a1, a2, a3, -⟩ | ⟨-, -, -, b4, -⟩ | ⟨-, -, -, c4, -⟩
        · by_cases h0 : s.c.nWaiters = 0
          · have hb : (if r = WAIT_OBJECT_0 + ix.EVENT_COND_BROADCAST.val ∧ s.c.nWaiters = 0
                then true else false) = true := by
              rw [if_pos ⟨hr, h0⟩]
            rw [hb] at hc' hk' ⊢
            refine ⟨hc', hk', forall_pcs_set he.noEnter rfl, he.sig, ?_, ?_⟩
            · intro u q r' hq' hr'
              rcases getElem?_set_some hq' with ⟨-, rfl⟩ | ⟨-, hq''⟩
              · cases hr'
              · exact he.res u q r' hq'' hr'
            · refine Or.inr (Or.inl ⟨a1, a2, h0, ?_, t, PC.L166 true,
                getElem?_set_self_of _ hpc, rfl, ?_⟩)
              · intro u q hq'
                rcases getElem?_set_some hq' with ⟨-, rfl⟩ | ⟨hu, hq''⟩
                · rfl
                · cases hd : q.deciding with
                  | false => rfl
                  | true =>
                    have := he.cnt.lock u q hq'' (deciding_inWaitersLock hd)
                    rw [hown] at this
                    exact absurd (Option.some.inj this).symm hu
              · intro u q hu hq'
                rw [List.getElem?_set_ne (fun e' => hu e'.symm)] at hq'
                exact a3 u q hq'
          · have hb : (if r = WAIT_OBJECT_0 + ix.EVENT_COND_BROADCAST.val ∧ s.c.nWaiters = 0
                then true else false) = false := by
              rw [if_neg (fun hh => h0 hh.2)]
            rw [hb] at hc' hk' ⊢
            refine ⟨hc', hk', forall_pcs_set he.noEnter rfl, he.sig, ?_, ?_⟩
            · intro u q r' hq' hr'
              rcases getElem?_set_some hq' with ⟨-, rfl⟩ | ⟨-, hq''⟩
              · cases hr'
              · exact he.res u q r' hq'' hr'
            · exact Or.inl ⟨a1, a2, forall_pcs_set a3 rfl, fun hh => absurd hh h0⟩
        · have := b4 t _ hpc
          cases this
        · have := c4 t _ hpc
          cases this
      case L166 b =>
        obtain ⟨wl, -, rfl⟩ := Option.map_eq_some'.mp h
        simp only [ghostStep, hpc]
        exact episode_move he hc' hpc rfl rfl rfl rfl (fun _ hr => by cases hr) rfl
          (by cases b <;> rfl)
      case L172 b =>
        cases b
        · cases h
          simp only [ghostStep, hpc]
          exact episode_move he hc' hpc rfl rfl rfl rfl (fun _ hr => by cases hr) rfl rfl
        · cases h
          simp only [ghostStep, hpc]
          have hsig : ((s.c.events.set ix.EVENT_COND_BROADCAST
              (ResetEvent (s.c.events.get ix.EVENT_COND_BROADCAST))).get
                ix.EVENT_COND_SIGNAL).signaled = false := by
            rw [get_set_ne _ hne.symm]
            exact he.sig
          have hbc : ((s.c.events.set ix.EVENT_COND_BROADCAST
              (ResetEvent (s.c.events.get ix.EVENT_COND_BROADCAST))).get
                ix.EVENT_COND_BROADCAST).signaled = false := by
            rw [get_set_self]
            rfl
          refine ⟨hc', hk', forall_pcs_set he.noEnter rfl, hsig, ?_, ?_⟩
          · intro u q r' hq' hr'
            rcases getElem?_set_some hq' with ⟨-, rfl⟩ | ⟨-, hq''⟩
            · cases hr'
            · exact he.res u q r' hq'' hr'
          · rcases he.phase with ⟨-, -, a3, -⟩ | ⟨-, b2, b3, b4, t0, pc0, b5, b6, b7⟩ |
              ⟨-, -, -, -, c5⟩
            · have := a3 t _ hpc
              cases this
            · have ht0 : t = t0 := by
                by_contra hc
                have := b7 t _ hc hpc
                cases this
              subst ht0
              refine Or.inr (Or.inr ⟨hbc, by rw [← b2], b3, forall_pcs_set b4 rfl, ?_⟩)
              intro u q hq'
              rcases getElem?_set_some hq' with ⟨-, rfl⟩ | ⟨hu, hq''⟩
              · rfl
              · exact b7 u q hu hq''
            · have := c5 t _ hpc
              cases this
      case L176 =>
        obtain ⟨m, -, rfl⟩ := Option.map_eq_some'.mp h
        simp only [ghostStep, hpc]
        exact episode_move he hc' hpc rfl rfl rfl rfl (fun _ hr => by cases hr) rfl rfl
    · cases h

end Win32

namespace Win32

theorem episode_run {ix : EventIndices} {n r0 : Nat} (hn : n < 2 ^ 32) (acts : List Action) :
    ∀ {s s' : State} {g g' : Ghost}, Episode ix n r0 s g → (∀ a ∈ acts, a.calm = true) →
      grun ix s g acts = some (s', g') → Episode ix n r0 s' g' := by
  induction acts with
  | nil =>
    intro s s' g g' he _ h
    simp only [grun] at h
    cases h
    exact he
  | cons a as ih =>
    intro s s' g g' he hq h
    simp only [grun] at h
    split at h
    · rename_i s1 h1
      exact ih (episode_step hn he (hq a (List.mem_cons_self a as)) h1)
        (fun b hb => hq b (List.mem_cons_of_mem a hb)) h
    · cases h

/-- A wait leaves the state of the manual-reset broadcast event as it is. -/
theorem wait_bc_kept {ix : EventIndices} {ev ev' : EventArray} {r : Nat}
    (hk : (ev.get ix.EVENT_COND_BROADCAST).bManualReset = true)
    (h : WaitForMultipleObjects ev = some (r, ev')) :
    (ev'.get ix.EVENT_COND_BROADCAST).signaled = (ev.get ix.EVENT_COND_BROADCAST).signaled := by
  unfold WaitForMultipleObjects at h
  rcases indices_cases ix with ⟨-, h2⟩ | ⟨-, h2⟩ <;> rw [h2] at hk ⊢
  · split at h
    · rw [← (Prod.mk.inj (Option.some.inj h)).2]
      unfold consumeEvent
      split
      · rfl
      · rw [get_set_ne _ (by decide)]
    · split at h
      · rw [← (Prod.mk.inj (Option.some.inj h)).2]
        unfold consumeEvent
        rw [if_pos hk]
      · cases h
  · split at h
    · rw [← (Prod.mk.inj (Option.some.inj h)).2]
      unfold consumeEvent
      rw [if_pos hk]
    · split at h
      · rw [← (Prod.mk.inj (Option.some.inj h)).2]
        unfold consumeEvent
        split
        · rfl
        · rw [get_set_ne _ (by decide)]
      · cases h

/-- The only step that takes the broadcast event from signaled to unsignaled is
the `ResetEvent` of line 173 of a thread whose `is_last` flag is set. -/
theorem bc_reset_only_by_waiter {ix : EventIndices} {s s' : State} {a : Action}
    (hk : EvKinds ix s) (h : step ix s a = some s') (h1 : bcSignaled ix s = true)
    (h2 : bcSignaled ix s' = false) :
    ∃ t, a = Action.adv t ∧ s.pcs[t]? = some (PC.L172 true) := by
  have hne := ix.distinct
  unfold bcSignaled at h1 h2
  rcases step_events h with he | ⟨-, he⟩ | ⟨-, he⟩ | ⟨t, ms, r, -, -, hw, -⟩ | ⟨t, ha, hpc, -⟩
  · rw [he, h1] at h2
    cases h2
  · rw [he] at h2
    simp only [racond_signal] at h2
    rw [get_set_ne _ hne, h1] at h2
    cases h2
  · rw [he] at h2
    simp only [racond_broadcast] at h2
    rw [get_set_self] at h2
    cases h2
  · rw [wait_bc_kept hk.2 hw, h1] at h2
    cases h2
  · exact ⟨t, ha, hpc⟩

/-- At the end of an episode the broadcast event has been reset exactly once. -/
theorem episode_end {ix : EventIndices} {n r0 : Nat} {s : State} {g : Ghost}
    (he : Episode ix n r0 s g) (h0 : s.c.nWaiters = 0)
    (hq : ∀ (t : Tid) (pc : PC), s.pcs[t]? = some pc →
      pc.deciding = false ∧ pc.resetPending = false) :
    bcSignaled ix s = false ∧ g.resets = r0 + 1 ∧ WaitForMultipleObjects s.c.events = none := by
  rcases he.phase with ⟨-, -, -, a4⟩ | ⟨-, -, -, -, t0, pc0, b5, b6, -⟩ | ⟨c1, c2, -, -, -⟩
  · obtain ⟨t, pc, hpc, hd⟩ := a4 h0
    rw [(hq t pc hpc).1] at hd
    cases hd
  · rw [(hq t0 pc0 b5).2] at b6
    cases b6
  · exact ⟨c1, c2, (wait_none_iff ix _).mpr ⟨he.sig, c1⟩⟩

/-- A broadcast issued while nobody is inside `racond_wait` is retained: the
next thread that calls `racond_wait` is woken by it at the event wait. -/
theorem broadcast_retained (ix : EventIndices) (z : State) (t v : Tid) (tk : Int)
    (hk : EvKinds ix z) (hwl : z.c.waiters_lock.OwningThread = none)
    (hs : sigSignaled ix z = false) (hv : z.pcs[v]? = some PC.idle)
    (ht : z.pcs[t]? = some PC.idle) (hm : z.m.hMutex.OwningThread = some t) (htk : tk < 0) :
    ∃ z1 z2 z3, step ix z (Action.racond_broadcast v) = some z1 ∧
      bcSignaled ix z1 = true ∧ z1.c.nWaiters = z.c.nWaiters ∧
      run ix z1 [.racond_wait t tk, .adv t, .adv t, .adv t, .adv t, .adv t] = some z2 ∧
      z2.pcs[t]? = some (PC.L159 INFINITE) ∧
      step ix z2 (Action.adv t) = some z3 ∧
      z3.pcs[t]? = some (PC.L162 (WAIT_OBJECT_0 + ix.EVENT_COND_BROADCAST.val)) ∧
      bcSignaled ix z3 = true := by
  have hne := ix.distinct
  have hs1 : step ix z (Action.racond_broadcast v)
      = some { z with c := racond_broadcast ix z.c } := by
    simp only [Win32.step, hv, if_true]
  obtain ⟨z2, hrun, hpc2, hev2, -⟩ :=
    racond_wait_reaches_wait ix { z with c := racond_broadcast ix z.c } t tk ht hm hwl htk
  unfold EvKinds at hk
  unfold sigSignaled at hs
  have hbc1 : (z2.c.events.get ix.EVENT_COND_BROADCAST).signaled = true := by
    rw [hev2]
    simp only [racond_broadcast]
    rw [get_set_self]
    rfl
  have hkind1 : (z2.c.events.get ix.EVENT_COND_BROADCAST).bManualReset = true := by
    rw [hev2]
    simp only [racond_broadcast]
    rw [get_set_self]
    exact hk.2
  have hsig1 : (z2.c.events.get ix.EVENT_COND_SIGNAL).signaled = false := by
    rw [hev2]
    simp only [racond_broadcast]
    rw [get_set_ne _ hne.symm]
    exact hs
  have hw := wait_broadcast ix z2.c.events hkind1 hsig1 hbc1
  have hstep : ∃ z3, step ix z2 (Action.adv t) = some z3 ∧
      z3.pcs = z2.pcs.set t (PC.L162 (WAIT_OBJECT_0 + ix.EVENT_COND_BROADCAST.val)) ∧
      z3.c.events = z2.c.events := by
    simp only [Win32.step, hpc2, racond_wait_step, hw, Option.map_some']
    exact ⟨_, rfl, rfl, rfl⟩
  obtain ⟨z3, hstep, hp3, he3⟩ := hstep
  refine ⟨_, z2, z3, hs1, ?_, rfl, hrun, hpc2, hstep, ?_, ?_⟩
  · unfold bcSignaled
    simp only [racond_broadcast]
    rw [get_set_self]
    rfl
  · rw [hp3]
    exact getElem?_set_self_of _ hpc2
  · unfold bcSignaled
    rw [he3]
    exact hbc1

end Win32

/-! ### A lost broadcast -/

/-- C2: a broadcast is lost. After `schedLostBroadcast` thread 0 has its
`ResetEvent` pending and thread 1 is registered (waiter count 1) and has not yet
returned from its event wait. Thread 2 now calls `racond_broadcast`: the
broadcast event is signaled. Thread 0 then executes its `ResetEvent` of line
173: the broadcast event is unsignaled although thread 1 has not returned from
its event wait, and the wait of thread 1, whose timeout is infinite, is not
enabled. Both index orders. -/
theorem C2_broadcast_lost :
    (((Win32.runInit sigFirst 3 Win32.schedLostBroadcast).map fun s =>
        (s.pcs, s.c.nWaiters))
      = some ([Win32.PC.L172 true, Win32.PC.L159 INFINITE, Win32.PC.idle], 1) ∧
    ((Win32.runInit sigFirst 3
        (Win32.schedLostBroadcast ++ [Win32.Action.racond_broadcast 2])).map fun s =>
        (s.pcs[1]?, Win32.bcSignaled sigFirst s))
      = some (some (Win32.PC.L159 INFINITE), true) ∧
    ((Win32.runInit sigFirst 3
        (Win32.schedLostBroadcast ++
          [Win32.Action.racond_broadcast 2, Win32.Action.adv 0])).map fun s =>
        (s.pcs, Win32.sigSignaled sigFirst s, Win32.bcSignaled sigFirst s,
          Win32.step sigFirst s (Win32.Action.adv 1)))
      = some ([Win32.PC.L176, Win32.PC.L159 INFINITE, Win32.PC.idle], false, false, none)) ∧
    (((Win32.runInit bcFirst 3 Win32.schedLostBroadcast).map fun s =>
        (s.pcs, s.c.nWaiters))
      = some ([Win32.PC.L172 true, Win32.PC.L159 INFINITE, Win32.PC.idle], 1) ∧
    ((Win32.runInit bcFirst 3
        (Win32.schedLostBroadcast ++ [Win32.Action.racond_broadcast 2])).map fun s =>
        (s.pcs[1]?, Win32.bcSignaled bcFirst s))
      = some (some (Win32.PC.L159 INFINITE), true) ∧
    ((Win32.runInit bcFirst 3
        (Win32.schedLostBroadcast ++
          [Win32.Action.racond_broadcast 2, Win32.Action.adv 0])).map fun s =>
        (s.pcs, Win32.sigSignaled bcFirst s, Win32.bcSignaled bcFirst s,
          Win32.step bcFirst s (Win32.Action.adv 1)))
      = some ([Win32.PC.L176, Win32.PC.L159 INFINITE, Win32.PC.idle], false, false, none)) := by
  decide

/-! ### A broadcast issued while nobody waits -/

/-- C5 (counterexample): in the freshly created state thread 1 calls
`racond_broadcast` while nobody waits. Afterwards no thread is inside
`racond_wait`, the waiter count is 0 and no `ResetEvent` is pending, yet the
broadcast event is signaled; thread 0 then calls `racond_wait` with an infinite
timeout, reaches the event wait and is woken at once by that broadcast. Both
index orders. -/
theorem C5_counterexample :
    ((Win32.runInit sigFirst 2 [Win32.Action.racond_broadcast 1]).map fun s =>
        (s.pcs, s.c.nWaiters, Win32.bcSignaled sigFirst s))
      = some ([Win32.PC.idle, Win32.PC.idle], 0, true) ∧
    ((Win32.runInit sigFirst 2 Win32.schedBroadcastThenWait).map fun s => s.pcs[0]?)
      = some (some (Win32.PC.L159 INFINITE)) ∧
    (((Win32.runInit sigFirst 2 Win32.schedBroadcastThenWait).bind fun s =>
        Win32.step sigFirst s (Win32.Action.adv 0)).map fun s => s.pcs[0]?)
      = some (some (Win32.PC.L162 (WAIT_OBJECT_0 + 1))) ∧
    (((Win32.runInit bcFirst 2 Win32.schedBroadcastThenWait).bind fun s =>
        Win32.step bcFirst s (Win32.Action.adv 0)).map fun s => s.pcs[0]?)
      = some (some (Win32.PC.L162 (WAIT_OBJECT_0 + 0))) := by
  decide

/-! ### Summary of a step: program counters and the mutex -/

namespace Win32

/-- Effect of a step on the program counters: either none, or the thread that
takes the step moves along the control flow of `racond_wait`; the only move out
of `idle` is a call of `racond_wait`, made by a thread that owns `m`. -/
theorem step_pcs {ix : EventIndices} {s s' : State} {a : Action}
    (h : step ix s a = some s') :
    s'.pcs = s.pcs ∨
      ∃ pc pc', s.pcs[a.tid]? = some pc ∧ s'.pcs = s.pcs.set a.tid pc' ∧ pc.flow pc' = true ∧
        (pc = PC.idle → (∃ tk, a = Action.racond_wait a.tid tk) ∧
          s.m.hMutex.OwningThread = some a.tid) := by
  cases a with
  | ramutex_lock t =>
    simp only [Win32.step] at h
    split at h
    · obtain ⟨m, -, rfl⟩ := Option.map_eq_some'.mp h
      exact Or.inl rfl
    · cases h
  | ramutex_trylock t =>
    simp only [Win32.step] at h
    split at h
    · cases h
      exact Or.inl rfl
    · cases h
  | ramutex_unlock t =>
    simp only [Win32.step] at h
    split at h
    · obtain ⟨m, -, rfl⟩ := Option.map_eq_some'.mp h
      exact Or.inl rfl
    · cases h
  | racond_signal t =>
    simp only [Win32.step] at h
    split at h
    · cases h
      exact Or.inl rfl
    · cases h
  | racond_broadcast t =>
    simp only [Win32.step] at h
    split at h
    · cases h
      exact Or.inl rfl
    · cases h
  | racond_wait t tk =>
    simp only [Win32.step] at h
    split at h
    · rename_i hc
      cases h
      exact Or.inr ⟨_, _, hc.1, rfl, rfl, fun _ => ⟨⟨tk, rfl⟩, hc.2⟩⟩
    · cases h
  | timeout t =>
    simp only [Win32.step] at h
    split at h
    · rename_i ms hpc
      split at h
      · cases h
        exact Or.inr ⟨_, _, hpc, rfl, rfl, fun e => by cases e⟩
      · cases h
    · cases h
  | adv t =>
    simp only [Win32.step] at h
    split at h
    · rename_i pc hpc
      cases pc <;> simp only [racond_wait_step] at h
      case idle => cases h
      case L144 tk =>
        obtain ⟨wl, -, rfl⟩ := Option.map_eq_some'.mp h
        exact Or.inr ⟨_, _, hpc, rfl, rfl, fun e => by cases e⟩
      case L145 tk =>
        cases h
        exact Or.inr ⟨_, _, hpc, rfl, rfl, fun e => by cases e⟩
      case L146 tk =>
        obtain ⟨wl, -, rfl⟩ := Option.map_eq_some'.mp h
        exact Or.inr ⟨_, _, hpc, rfl, rfl, fun e => by cases e⟩
      case L148 tk =>
        cases h
        exact Or.inr ⟨_, _, hpc, rfl, rfl, fun e => by cases e⟩
      case L157 ms =>
        obtain ⟨m, -, rfl⟩ := Option.map_eq_some'.mp h
        exact Or.inr ⟨_, _, hpc, rfl, rfl, fun e => by cases e⟩
      case L159 ms =>
        obtain ⟨r, -, rfl⟩ := Option.map_eq_some'.mp h
        exact Or.inr ⟨_, _, hpc, rfl, rfl, fun e => by cases e⟩
      case L162 r =>
        obtain ⟨wl, -, rfl⟩ := Option.map_eq_some'.mp h
        exact Or.inr ⟨_, _, hpc, rfl, rfl, fun e => by cases e⟩
      case L163 r =>
        cases h
        exact Or.inr ⟨_, _, hpc, rfl, rfl, fun e => by cases e⟩
      case L164 r =>
        cases h
        exact Or.inr ⟨_, _, hpc, rfl, rfl, fun e => by cases e⟩
      case L166 b =>
        obtain ⟨wl, -, rfl⟩ := Option.map_eq_some'.mp h
        exact Or.inr ⟨_, _, hpc, rfl, by simp [PC.flow], fun e => by cases e⟩
      case L172 b =>
        cases h
        exact Or.inr ⟨_, _, hpc, rfl, rfl, fun e => by cases e⟩
      case L176 =>
        obtain ⟨m, -, rfl⟩ := Option.map_eq_some'.mp h
        exact Or.inr ⟨_, _, hpc, rfl, rfl, fun e => by cases e⟩
    · cases h

/-- Effect of a step on the mutex `m`: either none, or an
`EnterCriticalSection` by the thread that takes the step (a client call, or the
final statement of `racond_wait`), or a `LeaveCriticalSection` by that thread (a
client call, or line 157 of `racond_wait`). -/
theorem step_mutex {ix : EventIndices} {s s' : State} {a : Action}
    (h : step ix s a = some s') :
    s'.m = s.m ∨
    (EnterCriticalSection s.m.hMutex a.tid = some s'.m.hMutex ∧
      ((s.pcs[a.tid]? = some PC.idle ∧ s'.pcs = s.pcs) ∨
        (a = Action.adv a.tid ∧ s.pcs[a.tid]? = some PC.L176 ∧
          s'.pcs = s.pcs.set a.tid PC.idle))) ∨
    (LeaveCriticalSection s.m.hMutex a.tid = some s'.m.hMutex ∧
      ((s.pcs[a.tid]? = some PC.idle ∧ s'.pcs = s.pcs) ∨
        ∃ ms, a = Action.adv a.tid ∧ s.pcs[a.tid]? = some (PC.L157 ms) ∧
          s'.pcs = s.pcs.set a.tid (PC.L159 ms))) := by
  cases a with
  | ramutex_lock t =>
    simp only [Win32.step] at h
    split at h
    · rename_i hpc
      obtain ⟨m, hm, rfl⟩ := Option.map_eq_some'.mp h
      obtain ⟨cs, hcs, rfl⟩ := Option.map_eq_some'.mp hm
      exact Or.inr (Or.inl ⟨hcs, Or.inl ⟨hpc, rfl⟩⟩)
    · cases h
  | ramutex_trylock t =>
    simp only [Win32.step] at h
    split at h
    · rename_i hpc
      cases h
      cases hE : EnterCriticalSection s.m.hMutex t with
      | none =>
        left
        simp [ramutex_trylock, TryEnterCriticalSection, hE]
      | some cs =>
        right
        left
        refine ⟨?_, Or.inl ⟨hpc, rfl⟩⟩
        simp [ramutex_trylock, TryEnterCriticalSection, hE, Action.tid]
    · cases h
  | ramutex_unlock t =>
    simp only [Win32.step] at h
    split at h
    · rename_i hpc
      obtain ⟨m, hm, rfl⟩ := Option.map_eq_some'.mp h
      obtain ⟨cs, hcs, rfl⟩ := Option.map_eq_some'.mp hm
      exact Or.inr (Or.inr ⟨hcs, Or.inl ⟨hpc, rfl⟩⟩)
    · cases h
  | racond_signal t =>
    simp only [Win32.step] at h
    split at h
    · cases h
      exact Or.inl rfl
    · cases h
  | racond_broadcast t =>
    simp only [Win32.step] at h
    split at h
    · cases h
      exact Or.inl rfl
    · cases h
  | racond_wait t tk =>
    simp only [Win32.step] at h
    split at h
    · cases h
      exact Or.inl rfl
    · cases h
  | timeout t =>
    simp only [Win32.step] at h
    split at h
    · split at h
      · cases h
        exact Or.inl rfl
      · cases h
    · cases h
  | adv t =>
    simp only [Win32.step] at h
    split at h
    · rename_i pc hpc
      cases pc <;> simp only [racond_wait_step] at h
      case idle => cases h
      case L144 tk =>
        obtain ⟨wl, -, rfl⟩ := Option.map_eq_some'.mp h
        exact Or.inl rfl
      case L145 tk =>
        cases h
        exact Or.inl rfl
      case L146 tk =>
        obtain ⟨wl, -, rfl⟩ := Option.map_eq_some'.mp h
        exact Or.inl rfl
      case L148 tk =>
        cases h
        exact Or.inl rfl
      case L157 ms =>
        obtain ⟨m, hm, rfl⟩ := Option.map_eq_some'.mp h
        obtain ⟨cs, hcs, rfl⟩ := Option.map_eq_some'.mp hm
        exact Or.inr (Or.inr ⟨hcs, Or.inr ⟨ms, rfl, hpc, rfl⟩⟩)
      case L159 ms =>
        obtain ⟨r, -, rfl⟩ := Option.map_eq_some'.mp h
        exact Or.inl rfl
      case L162 r =>
        obtain ⟨wl, -, rfl⟩ := Option.map_eq_some'.mp h
        exact Or.inl rfl
      case L163 r =>
        cases h
        exact Or.inl rfl
      case L164 r =>
        cases h
        exact Or.inl rfl
      case L166 b =>
        obtain ⟨wl, -, rfl⟩ := Option.map_eq_some'.mp h
        exact Or.inl rfl
      case L172 b =>
        cases h
        exact Or.inl rfl
      case L176 =>
        obtain ⟨m, hm, rfl⟩ := Option.map_eq_some'.mp h
        obtain ⟨cs, hcs, rfl⟩ := Option.map_eq_some'.mp hm
        exact Or.inr (Or.inl ⟨hcs, Or.inr ⟨rfl, hpc, rfl⟩⟩)
    · cases h

theorem run_append {ix : EventIndices} (as bs : List Action) :
    ∀ (s : State), run ix s (as ++ bs) = (run ix s as).bind fun s' => run ix s' bs := by
  induction as with
  | nil =>
    intro s
    rfl
  | cons a as ih =>
    intro s
    simp only [List.cons_append, run]
    cases step ix s a with
    | none => rfl
    | some s1 => exact ih s1

theorem reachable_run {ix : EventIndices} {n : Nat} {s s' : State} (acts : List Action)
    (hr : Reachable ix n s) (h : run ix s acts = some s') : Reachable ix n s' := by
  obtain ⟨cb, mb, s0, acts0, h0, hr0⟩ := hr
  refine ⟨cb, mb, s0, acts0 ++ acts, h0, ?_⟩
  rw [run_append, hr0]
  exact h

theorem reachable_step {ix : EventIndices} {n : Nat} {s s' : State} {a : Action}
    (hr : Reachable ix n s) (h : step ix s a = some s') : Reachable ix n s' := by
  refine reachable_run [a] hr ?_
  simp only [run, h, Option.some_bind]

/-- Reading a program counter after a step. -/
theorem step_pcs_cases {ix : EventIndices} {s s' : State} {a : Action}
    (h : step ix s a = some s') {u : Tid} {q : PC} (hq : s'.pcs[u]? = some q) :
    s.pcs[u]? = some q ∨
      (u = a.tid ∧ ∃ pc, s.pcs[u]? = some pc ∧ pc.flow q = true ∧
        (pc = PC.idle → (∃ tk, a = Action.racond_wait a.tid tk) ∧
          s.m.hMutex.OwningThread = some a.tid)) := by
  rcases step_pcs h with hp | ⟨pc, pc', hpc, hp, hf, hi⟩
  · rw [hp] at hq
    exact Or.inl hq
  · rw [hp] at hq
    rcases getElem?_set_some hq with ⟨rfl, rfl⟩ | ⟨-, hq'⟩
    · exact Or.inr ⟨rfl, pc, hpc, hf, hi⟩
    · exact Or.inl hq'

end Win32
/-! ### The paired mutex across `racond_wait` -/

namespace Win32

theorem enter_count {cs cs' : CRITICAL_SECTION} {t : Tid}
    (h : EnterCriticalSection cs t = some cs') : 0 < cs'.RecursionCount := by
  unfold EnterCriticalSection at h
  split at h
  · cases h
    exact Nat.one_pos
  · split at h
    · cases h
      exact Nat.succ_pos _
    · cases h

theorem leave_count {cs cs' : CRITICAL_SECTION} {t : Tid}
    (h : LeaveCriticalSection cs t = some cs') (o : Tid) (ho : cs'.OwningThread = some o) :
    0 < cs'.RecursionCount := by
  unfold LeaveCriticalSection at h
  split at h
  · split at h
    · cases h
      cases ho
    · cases h
      dsimp only
      omega
  · cases h

theorem mutexWf_step {ix : EventIndices} {s s' : State} {a : Action}
    (hi : MutexWf s) (h : step ix s a = some s') : MutexWf s' := by
  intro o ho
  rcases step_mutex h with hm | ⟨he, -⟩ | ⟨hl, -⟩
  · rw [hm] at ho ⊢
    exact hi o ho
  · exact enter_count he
  · exact leave_count hl o ho

theorem reachable_mutexWf {ix : EventIndices} {n : Nat} {s : State}
    (h : Reachable ix n s) : MutexWf s := by
  obtain ⟨cb, mb, s0, acts, h0, hr⟩ := h
  have h1 : MutexWf s0 := by
    intro o ho
    rw [(init_eq h0).2.2.2.1] at ho
    cases ho
  clear h0
  induction acts generalizing s0 with
  | nil =>
    simp only [run] at hr
    cases hr
    exact h1
  | cons a as ih =>
    simp only [run] at hr
    obtain ⟨s1, hs1, hs2⟩ := Option.bind_eq_some.mp hr
    exact ih s1 hs2 (mutexWf_step h1 hs1)

/-- An `EnterCriticalSection` by another thread leaves the hold count of `t`
as it is. -/
theorem holdCount_enter_other (m m' : ramutex) {v t : Tid}
    (h : EnterCriticalSection m.hMutex v = some m'.hMutex) (hv : v ≠ t) :
    holdCount m' t = holdCount m t := by
  obtain ⟨h1, h2⟩ := enter_owner h
  have e1 : m'.hMutex.OwningThread ≠ some t := by
    rw [h1]
    exact fun e => hv (Option.some.inj e)
  have e2 : m.hMutex.OwningThread ≠ some t := by
    rcases h2 with h2 | h2 <;> rw [h2]
    · exact fun e => by cases e
    · exact fun e => hv (Option.some.inj e)
  unfold holdCount
  rw [if_neg e1, if_neg e2]

/-- A `LeaveCriticalSection` by another thread leaves the hold count of `t` as
it is. -/
theorem holdCount_leave_other (m m' : ramutex) {v t : Tid}
    (h : LeaveCriticalSection m.hMutex v = some m'.hMutex) (hv : v ≠ t) :
    holdCount m' t = holdCount m t := by
  obtain ⟨h1, h2⟩ := leave_owner h
  have e1 : m.hMutex.OwningThread ≠ some t := by
    rw [h1]
    exact fun e => hv (Option.some.inj e)
  have e2 : m'.hMutex.OwningThread ≠ some t := by
    rcases h2 with h2 | h2 <;> rw [h2]
    · exact fun e => by cases e
    · exact fun e => hv (Option.some.inj e)
  unfold holdCount
  rw [if_neg e1, if_neg e2]

/-- An `EnterCriticalSection` by `t` raises its hold count by one and makes it
the owner. -/
theorem holdCount_enter_self (m m' : ramutex) {t : Tid}
    (h : EnterCriticalSection m.hMutex t = some m'.hMutex) :
    holdCount m' t = holdCount m t + 1 ∧ m'.hMutex.OwningThread = some t := by
  unfold EnterCriticalSection at h
  unfold holdCount
  split at h
  · rename_i ho
    have e := Option.some.inj h
    rw [← e, ho]
    simp
  · rename_i o ho
    split at h
    · rename_i hot
      have e := Option.some.inj h
      rw [← e, ho, hot]
      simp
    · cases h

/-- A `LeaveCriticalSection` by `t`, which holds the mutex, lowers its hold
count by one; the mutex is free afterwards when the hold count was one. -/
theorem holdCount_leave_self (m m' : ramutex) {t : Tid}
    (h : LeaveCriticalSection m.hMutex t = some m'.hMutex) (hpos : 0 < holdCount m t) :
    holdCount m' t + 1 = holdCount m t ∧
      (holdCount m t = 1 → m'.hMutex.OwningThread = none) := by
  unfold LeaveCriticalSection at h
  unfold holdCount at hpos ⊢
  split at h
  · rename_i ho
    rw [if_pos ho] at hpos ⊢
    split at h
    · rename_i hc
      have e := Option.some.inj h
      rw [← e]
      simp
      omega
    · rename_i hc
      have e := Option.some.inj h
      rw [← e]
      simp
      omega
  · cases h

/-- A step of another thread leaves the hold count of `t` as it is. -/
theorem holdCount_step_other {ix : EventIndices} {s s' : State} {a : Action} {t : Tid}
    (h : step ix s a = some s') (ht : a.tid ≠ t) : holdCount s'.m t = holdCount s.m t := by
  rcases step_mutex h with hm | ⟨he, -⟩ | ⟨hl, -⟩
  · rw [hm]
  · exact holdCount_enter_other _ _ he ht
  · exact holdCount_leave_other _ _ hl ht

theorem within_tid {t : Tid} {a : Action} (hw : a.within t = true) (ht : a.tid = t) :
    a = Action.adv t ∨ a = Action.timeout t := by
  cases a <;> simp [Action.within, Action.tid] at hw ht
  all_goals first
    | exact absurd ht hw
    | (subst ht; simp)

/-- A step of thread `t` inside `racond_wait` that leaves `m` alone and stays on
the same side of line 157 preserves the hold-count invariant. -/
theorem callInv_move {s s' : State} {t : Tid} {h : Nat} {pc pc' : PC}
    (hpc : s.pcs[t]? = some pc)
    (hb : pc.beforeRelease = true → holdCount s.m t = h)
    (ha : pc.afterRelease = true → holdCount s.m t + 1 = h)
    (hm : s'.m = s.m) (hp : s'.pcs = s.pcs.set t pc')
    (h1 : pc'.beforeRelease = pc.beforeRelease) (h2 : pc'.afterRelease = pc.afterRelease)
    (h3 : pc' ≠ PC.idle) : CallInv t h s' := by
  refine ⟨pc', ?_, ?_, ?_, ?_⟩
  · rw [hp]
    exact getElem?_set_self_of _ hpc
  · intro hx
    rw [hm]
    rw [h1] at hx
    exact hb hx
  · intro hx
    rw [hm]
    rw [h2] at hx
    exact ha hx
  · intro hx
    exact absurd hx h3

/-- The hold-count invariant of the call of thread `t` is preserved by the
statements of `racond_wait` that `t` executes. -/
theorem callInv_adv {ix : EventIndices} {s s' : State} {t : Tid} {h : Nat}
    (hpos : 0 < h) (hi : CallInv t h s)
    (hs : step ix s (Action.adv t) = some s') : CallInv t h s' := by
  obtain ⟨pc, hpc, hb, ha, hidle⟩ := hi
  simp only [Win32.step, hpc] at hs
  cases pc <;> simp only [racond_wait_step] at hs
  case idle => cases hs
  case L144 tk =>
    obtain ⟨wl, -, rfl⟩ := Option.map_eq_some'.mp hs
    exact callInv_move hpc hb ha rfl rfl rfl rfl (fun e => by cases e)
  case L145 tk =>
    cases hs
    exact callInv_move hpc hb ha rfl rfl rfl rfl (fun e => by cases e)
  case L146 tk =>
    obtain ⟨wl, -, rfl⟩ := Option.map_eq_some'.mp hs
    exact callInv_move hpc hb ha rfl rfl rfl rfl (fun e => by cases e)
  case L148 tk =>
    cases hs
    exact callInv_move hpc hb ha rfl rfl rfl rfl (fun e => by cases e)
  case L157 ms =>
    obtain ⟨m, hm, rfl⟩ := Option.map_eq_some'.mp hs
    obtain ⟨cs, hcs, rfl⟩ := Option.map_eq_some'.mp hm
    have h0 := hb rfl
    have h1 := (holdCount_leave_self s.m { hMutex := cs } hcs (by rw [h0]; exact hpos)).1
    refine ⟨PC.L159 ms, getElem?_set_self_of _ hpc, (fun e => by cases e), fun _ => ?_,
      (fun e => by cases e)⟩
    rw [← h0]
    exact h1
  case L159 ms =>
    obtain ⟨r, -, rfl⟩ := Option.map_eq_some'.mp hs
    exact callInv_move hpc hb ha rfl rfl rfl rfl (fun e => by cases e)
  case L162 r =>
    obtain ⟨wl, -, rfl⟩ := Option.map_eq_some'.mp hs
    exact callInv_move hpc hb ha rfl rfl rfl rfl (fun e => by cases e)
  case L163 r =>
    cases hs
    exact callInv_move hpc hb ha rfl rfl rfl rfl (fun e => by cases e)
  case L164 r =>
    cases hs
    exact callInv_move hpc hb ha rfl rfl rfl rfl (fun e => by cases e)
  case L166 b =>
    obtain ⟨wl, -, rfl⟩ := Option.map_eq_some'.mp hs
    exact callInv_move hpc hb ha rfl rfl rfl rfl (fun e => by cases e)
  case L172 b =>
    cases hs
    exact callInv_move hpc hb ha rfl rfl rfl rfl (fun e => by cases e)
  case L176 =>
    obtain ⟨m, hm, rfl⟩ := Option.map_eq_some'.mp hs
    obtain ⟨cs, hcs, rfl⟩ := Option.map_eq_some'.mp hm
    have h0 := ha rfl
    have h1 := (holdCount_enter_self s.m { hMutex := cs } hcs).1
    refine ⟨PC.idle, getElem?_set_self_of _ hpc, (fun e => by cases e), (fun e => by cases e),
      fun _ => ?_⟩
    rw [← h0]
    exact h1

/-- The hold-count invariant of the call of thread `t` is preserved by every
step of another thread and by every step of `t` inside the call. -/
theorem callInv_step {ix : EventIndices} {s s' : State} {a : Action} {t : Tid} {h : Nat}
    (hpos : 0 < h) (hi : CallInv t h s) (hw : a.within t = true)
    (hs : step ix s a = some s') : CallInv t h s' := by
  by_cases ht : a.tid = t
  · rcases within_tid hw ht with rfl | rfl
    · exact callInv_adv hpos hi hs
    · obtain ⟨pc, hpc, hb, ha, hidle⟩ := hi
      simp only [Win32.step] at hs
      split at hs
      · rename_i ms hpc'
        split at hs
        · cases hs
          rw [hpc'] at hpc
          cases hpc
          exact callInv_move hpc' hb ha rfl rfl rfl rfl (fun e => by cases e)
        · cases hs
      · cases hs
  · obtain ⟨pc, hpc, hb, ha, hidle⟩ := hi
    have hp := step_pcs_other hs (fun e => ht e.symm)
    have hh := holdCount_step_other hs ht
    refine ⟨pc, by rw [hp]; exact hpc, ?_, ?_, ?_⟩
    · rw [hh]
      exact hb
    · rw [hh]
      exact ha
    · rw [hh]
      exact hidle

theorem callInv_run {ix : EventIndices} {t : Tid} {h : Nat} (hpos : 0 < h) (acts : List Action) :
    ∀ {s s' : State}, CallInv t h s → (∀ a ∈ acts, a.within t = true) →
      run ix s acts = some s' → CallInv t h s' := by
  induction acts with
  | nil =>
    intro s s' hi _ hr
    simp only [run] at hr
    cases hr
    exact hi
  | cons a as ih =>
    intro s s' hi hw hr
    simp only [run] at hr
    obtain ⟨s1, h1, h2⟩ := Option.bind_eq_some.mp hr
    exact ih (callInv_step hpos hi (hw a (List.mem_cons_self a as)) h1)
      (fun b hb => hw b (List.mem_cons_of_mem a hb)) h2

theorem holdCount_pos {m : ramutex} {t : Tid} (h : 0 < holdCount m t) :
    m.hMutex.OwningThread = some t := by
  unfold holdCount at h
  split at h
  · assumption
  · cases h

theorem holdCount_of_owner {m : ramutex} {t u : Tid} (h : m.hMutex.OwningThread = some t)
    (hu : u ≠ t) : holdCount m u = 0 := by
  unfold holdCount
  rw [h, if_neg (fun e => hu (Option.some.inj e).symm)]

/-- From the first statement of `racond_wait`, executed by a thread that owns
`m` while the auxiliary lock is free, the call runs up to the event wait, with
the timeout computed at lines 148-151. -/
theorem racond_wait_to_event_wait (ix : EventIndices) {s : State} {t : Tid} {tk : Int}
    (hpc : s.pcs[t]? = some (PC.L144 tk)) (hm : s.m.hMutex.OwningThread = some t)
    (hwl : s.c.waiters_lock.OwningThread = none) :
    ∃ s5, run ix s [.adv t, .adv t, .adv t, .adv t, .adv t] = some s5 ∧
      s5.pcs[t]? = some (PC.L159 (racond_wait_ms tk)) := by
  have e1 : EnterCriticalSection s.c.waiters_lock t
      = some { OwningThread := some t, RecursionCount := 1 } := by
    unfold EnterCriticalSection
    rw [hwl]
  obtain ⟨m', hm'⟩ : ∃ m', ramutex_unlock s.m t = some m' := by
    unfold ramutex_unlock LeaveCriticalSection
    rw [if_pos hm]
    split <;> exact ⟨_, rfl⟩
  have p1 := getElem?_set_self_of (PC.L145 tk) hpc
  have p2 := getElem?_set_self_of (PC.L146 tk) p1
  have p3 := getElem?_set_self_of (PC.L148 tk) p2
  have p4 := getElem?_set_self_of (PC.L157 (racond_wait_ms tk)) p3
  have p5 := getElem?_set_self_of (PC.L159 (racond_wait_ms tk)) p4
  simp only [run, Win32.step, hpc, racond_wait_step, e1, Option.map_some', Option.some_bind,
    p1, p2, p3, p4, hm', LeaveCriticalSection, if_true, le_refl]
  exact ⟨_, rfl, p5⟩

end Win32
/-- C1: a thread `t` that holds `m` (`h ≥ 1` times, the critical section being
recursive) calls `racond_wait`, with any timeout. Along every continuation in
which `t` does nothing but execute the call (the other threads are arbitrary),
the number of times `t` holds `m` is `h` before line 157, `h - 1` from the
event wait of line 159 up to line 176, and `h` again once the call has returned:
`m` is released exactly once, before the wait on the events, and re-acquired by
the final statement. From the first statement the call runs up to the event
wait when the auxiliary lock is free. The release of line 157 is enabled and
frees `m` when `h = 1`; when `h > 1` the caller still owns `m` during the wait.
The event wait returns when an event is signaled or, for a finite timeout, when
the timeout expires, in either case without touching `m`. The final statement is
enabled exactly when `m` is free or owned by the caller; the step that executes
it returns with the caller as the owner of `m`, holding it `h` times, and no
other thread holding it. Once the event wait has returned, the rest of the call
runs to completion whenever the auxiliary lock and `m` are not held by another
thread. -/
theorem C1_wait_reacquires_mutex (ix : EventIndices) (n : Nat) (s s0 : Win32.State) (t : Tid)
    (tk : Int) (hr : Win32.Reachable ix n s)
    (hcall : Win32.step ix s (Win32.Action.racond_wait t tk) = some s0) :
    0 < Win32.holdCount s.m t ∧ s0.m = s.m ∧ s0.pcs[t]? = some (Win32.PC.L144 tk) ∧
    ∀ acts s', (∀ a ∈ acts, a.within t = true) → Win32.run ix s0 acts = some s' →
      ∃ pc, s'.pcs[t]? = some pc ∧
        (pc.beforeRelease = true → Win32.holdCount s'.m t = Win32.holdCount s.m t) ∧
        (pc.afterRelease = true → Win32.holdCount s'.m t + 1 = Win32.holdCount s.m t) ∧
        (pc = Win32.PC.idle → Win32.holdCount s'.m t = Win32.holdCount s.m t) ∧
        (∀ tk', pc = Win32.PC.L144 tk' → s'.c.waiters_lock.OwningThread = none →
          ∃ s5, Win32.run ix s' [.adv t, .adv t, .adv t, .adv t, .adv t] = some s5 ∧
            s5.pcs[t]? = some (Win32.PC.L159 (Win32.racond_wait_ms tk')) ∧
            Win32.holdCount s5.m t + 1 = Win32.holdCount s.m t) ∧
        (∀ ms, pc = Win32.PC.L157 ms →
          ∃ s'', Win32.step ix s' (Win32.Action.adv t) = some s'' ∧
            s''.pcs[t]? = some (Win32.PC.L159 ms) ∧
            Win32.holdCount s''.m t + 1 = Win32.holdCount s.m t ∧
            (Win32.holdCount s.m t = 1 → s''.m.hMutex.OwningThread = none)) ∧
        (∀ ms, pc = Win32.PC.L159 ms →
          ((Win32.step ix s' (Win32.Action.adv t)).isSome = true ↔
            (WaitForMultipleObjects s'.c.events).isSome = true) ∧
          ((Win32.step ix s' (Win32.Action.timeout t)).isSome = true ↔
            (ms ≠ INFINITE ∧ WaitForMultipleObjects s'.c.events = none)) ∧
          ∀ a s'', a = Win32.Action.adv t ∨ a = Win32.Action.timeout t →
            Win32.step ix s' a = some s'' →
            s''.m = s'.m ∧ ∃ r, s''.pcs[t]? = some (Win32.PC.L162 r)) ∧
        (pc = Win32.PC.L176 →
          ((Win32.step ix s' (Win32.Action.adv t)).isSome = true ↔
            (s'.m.hMutex.OwningThread = none ∨ s'.m.hMutex.OwningThread = some t)) ∧
          ∀ s'', Win32.step ix s' (Win32.Action.adv t) = some s'' →
            s''.pcs[t]? = some Win32.PC.idle ∧ s''.m.hMutex.OwningThread = some t ∧
              Win32.holdCount s''.m t = Win32.holdCount s.m t ∧
              ∀ u, u ≠ t → Win32.holdCount s''.m u = 0) ∧
        (∀ r, pc = Win32.PC.L162 r → s'.c.waiters_lock.OwningThread = none →
          (s'.m.hMutex.OwningThread = none ∨ s'.m.hMutex.OwningThread = some t) →
          ∃ s'', Win32.run ix s' [.adv t, .adv t, .adv t, .adv t, .adv t, .adv t] = some s'' ∧
            s''.pcs[t]? = some Win32.PC.idle ∧ s''.m.hMutex.OwningThread = some t ∧
            Win32.holdCount s''.m t = Win32.holdCount s.m t) := by
  have hwf := Win32.reachable_mutexWf hr
  simp only [Win32.step] at hcall
  split at hcall
  · rename_i hc
    cases hcall
    have hpos : 0 < Win32.holdCount s.m t := by
      unfold Win32.holdCount
      rw [if_pos hc.2]
      exact hwf t hc.2
    have hpc0 := Win32.getElem?_set_self_of (Win32.PC.L144 tk) hc.1
    have hinv0 : Win32.CallInv t (Win32.holdCount s.m t)
        { s with pcs := s.pcs.set t (Win32.PC.L144 tk) } :=
      ⟨_, hpc0, fun _ => rfl, (fun e => by cases e), (fun e => by cases e)⟩
    refine ⟨hpos, rfl, hpc0, ?_⟩
    intro acts s' hw hrun
    have hinv := Win32.callInv_run hpos acts hinv0 hw hrun
    obtain ⟨pc, hpc, hb, ha, hidle⟩ := hinv
    refine ⟨pc, hpc, hb, ha, hidle, ?_, ?_, ?_, ?_, ?_⟩
    · intro tk' htk' hwl
      subst htk'
      have h0 := hb rfl
      have hown := Win32.holdCount_pos (by rw [h0]; exact hpos)
      obtain ⟨s5, hs5, hp5⟩ := Win32.racond_wait_to_event_wait ix hpc hown hwl
      refine ⟨s5, hs5, hp5, ?_⟩
      have hw5 : ∀ a ∈ [Win32.Action.adv t, .adv t, .adv t, .adv t, .adv t],
          a.within t = true := by
        intro a ha'
        simp only [List.mem_cons, List.mem_singleton, List.not_mem_nil, or_false] at ha'
        rcases ha' with rfl | rfl | rfl | rfl | rfl <;> rfl
      obtain ⟨pc5, hpc5, -, ha5, -⟩ :=
        Win32.callInv_run hpos _ (⟨_, hpc, hb, ha, hidle⟩ : Win32.CallInv t _ s') hw5 hs5
      rw [hp5] at hpc5
      cases hpc5
      exact ha5 rfl
    · intro ms hms
      subst hms
      have h0 := hb rfl
      have hown := Win32.holdCount_pos (by rw [h0]; exact hpos)
      obtain ⟨cs, hcs⟩ : ∃ cs, LeaveCriticalSection s'.m.hMutex t = some cs := by
        unfold LeaveCriticalSection
        rw [if_pos hown]
        split <;> exact ⟨_, rfl⟩
      have hstep : ∃ s'', Win32.step ix s' (Win32.Action.adv t) = some s'' ∧
          s''.pcs = s'.pcs.set t (Win32.PC.L159 ms) ∧ s''.m = { hMutex := cs } := by
        simp only [Win32.step, hpc, Win32.racond_wait_step, Win32.ramutex_unlock, hcs,
          Option.map_some']
        exact ⟨_, rfl, rfl, rfl⟩
      obtain ⟨s'', hs'', hp'', hm''⟩ := hstep
      have hl := Win32.holdCount_leave_self s'.m s''.m (by rw [hm'']; exact hcs)
        (by rw [h0]; exact hpos)
      refine ⟨s'', hs'', by rw [hp'']; exact Win32.getElem?_set_self_of _ hpc, ?_, ?_⟩
      · rw [← h0]
        exact hl.1
      · intro h1
        exact hl.2 (h0.trans h1)
    · intro ms hms
      subst hms
      refine ⟨?_, ?_, ?_⟩
      · simp only [Win32.step, hpc, Win32.racond_wait_step, Option.isSome_map']
      · simp only [Win32.step, hpc]
        split <;> simp_all
      · intro a s'' ha' hs''
        rcases ha' with rfl | rfl
        · simp only [Win32.step, hpc, Win32.racond_wait_step] at hs''
          obtain ⟨r, -, rfl⟩ := Option.map_eq_some'.mp hs''
          exact ⟨rfl, r.1, Win32.getElem?_set_self_of _ hpc⟩
        · simp only [Win32.step, hpc] at hs''
          split at hs''
          · cases hs''
            exact ⟨rfl, _, Win32.getElem?_set_self_of _ hpc⟩
          · cases hs''
    · intro hpc'
      subst hpc'
      have h0 := ha rfl
      constructor
      · simp only [Win32.step, hpc, Win32.racond_wait_step, Win32.ramutex_lock,
          EnterCriticalSection]
        cases ho : s'.m.hMutex.OwningThread with
        | none => simp
        | some o =>
          by_cases hot : o = t
          · simp [hot]
          · simp [hot]
      · intro s'' hs''
        simp only [Win32.step, hpc, Win32.racond_wait_step] at hs''
        obtain ⟨m, hm, rfl⟩ := Option.map_eq_some'.mp hs''
        obtain ⟨cs, hcs, rfl⟩ := Option.map_eq_some'.mp hm
        have he := Win32.holdCount_enter_self s'.m { hMutex := cs } hcs
        refine ⟨Win32.getElem?_set_self_of _ hpc, he.2, ?_, ?_⟩
        · rw [← h0]
          exact he.1
        · intro u hu
          exact Win32.holdCount_of_owner he.2 hu
    · intro r hr' hwl hm
      subst hr'
      obtain ⟨s'', hs'', hp'', ho''⟩ := Win32.racond_wait_completes hpc hwl hm
      refine ⟨s'', hs'', hp'', ho'', ?_⟩
      have hw6 : ∀ a ∈ [Win32.Action.adv t, .adv t, .adv t, .adv t, .adv t, .adv t],
          a.within t = true := by
        intro a ha'
        simp only [List.mem_cons, List.mem_singleton, List.not_mem_nil, or_false] at ha'
        rcases ha' with rfl | rfl | rfl | rfl | rfl | rfl <;> rfl
      obtain ⟨pc6, hpc6, -, -, hidle6⟩ :=
        Win32.callInv_run hpos _ (⟨_, hpc, hb, ha, hidle⟩ : Win32.CallInv t _ s') hw6 hs''
      rw [hp''] at hpc6
      exact hidle6 (Option.some.inj hpc6).symm
  · cases hcall

/-- Witness for `C1_wait_reacquires_mutex`: thread 0 holds `m` once and calls
`racond_wait` with a timeout of 50 ms; it releases `m`, thread 1 takes and
releases `m` meanwhile, the wait times out and thread 0 reaches line 176 holding
`m` zero times. -/
theorem C1_wait_reacquires_mutex_witness :
    Win32.Reachable sigFirst 2 Win32.stateMutexHeld ∧
    Win32.step sigFirst Win32.stateMutexHeld (Win32.Action.racond_wait 0 50)
      = some Win32.stateWaitCalled ∧
    Win32.holdCount Win32.stateMutexHeld.m 0 = 1 ∧
    ∃ s', Win32.run sigFirst Win32.stateWaitCalled Win32.schedTimeout = some s' ∧
      s'.pcs[0]? = some Win32.PC.L176 ∧ Win32.holdCount s'.m 0 + 1 = 1 :=
  have hreach : Win32.Reachable sigFirst 2 Win32.stateMutexHeld :=
    Win32.reachable_of_runInit [Win32.Action.ramutex_lock 0] (by decide)
  have hcall : Win32.step sigFirst Win32.stateMutexHeld (Win32.Action.racond_wait 0 50)
      = some Win32.stateWaitCalled := by decide
  have hw : ∀ a ∈ Win32.schedTimeout, a.within 0 = true := by decide
  match h : Win32.run sigFirst Win32.stateWaitCalled Win32.schedTimeout with
  | some s' => by
    have hpc : s'.pcs[0]? = some Win32.PC.L176 := by
      have h1 : (Win32.run sigFirst Win32.stateWaitCalled Win32.schedTimeout).map
          (fun r => r.pcs[0]?) = some (some Win32.PC.L176) := by decide
      rw [h] at h1
      exact Option.some.inj h1
    obtain ⟨pc, hpc', -, ha, -⟩ :=
      (C1_wait_reacquires_mutex sigFirst 2 Win32.stateMutexHeld Win32.stateWaitCalled 0 50
        hreach hcall).2.2.2 Win32.schedTimeout s' hw h
    rw [hpc] at hpc'
    cases hpc'
    exact ⟨hreach, hcall, by decide, s', rfl, hpc, ha rfl⟩
  | none => by
    have h1 : (Win32.run sigFirst Win32.stateWaitCalled Win32.schedTimeout).isSome = true := by
      decide
    rw [h] at h1
    cases h1

/-! ### One signal among several waiters -/

namespace Win32

theorem flow_beforeRelease {pc q : PC} (hf : pc.flow q = true) (hq : q.beforeRelease = true) :
    pc = PC.idle ∨ pc.beforeRelease = true := by
  cases pc <;> cases q <;> simp_all [PC.flow, PC.beforeRelease]

theorem flow_entering {pc q : PC} (hf : pc.flow q = true) (hq : q.entering = true) :
    pc = PC.idle ∨ pc.entering = true := by
  cases pc <;> cases q <;> simp_all [PC.flow, PC.entering]

theorem flow_awaiting {pc q : PC} (hf : pc.flow q = true) (hq : q.awaiting = true) :
    pc.awaiting = true ∨ pc.entering = true := by
  cases pc <;> cases q <;> simp_all [PC.flow, PC.entering, PC.awaiting]

theorem flow_from_awaiting {pc q : PC} (hf : pc.flow q = true) (hp : pc.awaiting = true) :
    q.awaiting = true ∨ ∃ ms, pc = PC.L159 ms := by
  cases pc <;> cases q <;> simp_all [PC.flow, PC.awaiting]

theorem holdInv_step {ix : EventIndices} {s s' : State} {a : Action}
    (hi : HoldInv s) (h : step ix s a = some s') : HoldInv s' := by
  intro u q hq hb
  rcases step_mutex h with hm | ⟨he, hc⟩ | ⟨hl, hc⟩
  · rw [hm]
    rcases step_pcs_cases h hq with hq' | ⟨hu, pc, hpc, hf, hid⟩
    · exact hi u q hq' hb
    · rcases flow_beforeRelease hf hb with hpi | hpb
      · rw [hu]
        exact (hid hpi).2
      · exact hi u pc hpc hpb
  · obtain ⟨-, h2⟩ := enter_owner he
    rcases hc with ⟨hidle, hp⟩ | ⟨-, h176, hp⟩
    · rw [hp] at hq
      have ho := hi u q hq hb
      rcases h2 with h2 | h2 <;> rw [h2] at ho
      · cases ho
      · have e : a.tid = u := Option.some.inj ho
        rw [e, hq] at hidle
        cases hidle
        cases hb
    · rw [hp] at hq
      rcases getElem?_set_some hq with ⟨-, rfl⟩ | ⟨hne, hq'⟩
      · cases hb
      · have ho := hi u q hq' hb
        rcases h2 with h2 | h2 <;> rw [h2] at ho
        · cases ho
        · exact absurd (Option.some.inj ho).symm hne
  · obtain ⟨h1, -⟩ := leave_owner hl
    rcases hc with ⟨hidle, hp⟩ | ⟨ms, -, h157, hp⟩
    · rw [hp] at hq
      have ho := hi u q hq hb
      rw [h1] at ho
      have e : a.tid = u := Option.some.inj ho
      rw [e, hq] at hidle
      cases hidle
      cases hb
    · rw [hp] at hq
      rcases getElem?_set_some hq with ⟨-, rfl⟩ | ⟨hne, hq'⟩
      · cases hb
      · have ho := hi u q hq' hb
        rw [h1] at ho
        exact absurd (Option.some.inj ho).symm hne

theorem reachable_holdInv {ix : EventIndices} {n : Nat} {s : State}
    (h : Reachable ix n s) : HoldInv s := by
  obtain ⟨cb, mb, s0, acts, h0, hr⟩ := h
  have h1 : HoldInv s0 := by
    intro t pc hpc hb
    rw [(init_eq h0).1] at hpc
    rw [getElem?_replicate_idle hpc] at hb
    cases hb
  clear h0
  induction acts generalizing s0 with
  | nil =>
    simp only [run] at hr
    cases hr
    exact h1
  | cons a as ih =>
    simp only [run] at hr
    obtain ⟨s1, hs1, hs2⟩ := Option.bind_eq_some.mp hr
    exact ih s1 hs2 (holdInv_step h1 hs1)

/-- A duplicate-free list of positions that all satisfy `p` is no longer than
the number of elements that satisfy `p`. -/
theorem length_le_countP (p : PC → Bool) : ∀ (l : List PC) (W : List Nat), W.Nodup →
    (∀ t ∈ W, ∃ pc, l[t]? = some pc ∧ p pc = true) → W.length ≤ l.countP p := by
  intro l
  induction l with
  | nil =>
    intro W _ hW
    cases W with
    | nil => simp
    | cons t W =>
      obtain ⟨pc, h, -⟩ := hW t (List.mem_cons_self t W)
      simp at h
  | cons x xs ih =>
    have hpos : ∀ (V : List Nat), V.Nodup → 0 ∉ V →
        (∀ t ∈ V, ∃ pc, (x :: xs)[t]? = some pc ∧ p pc = true) → V.length ≤ xs.countP p := by
      intro V hnd h0 hV
      have h1 := ih (V.map Nat.pred) ?_ ?_
      · simpa using h1
      · refine hnd.map_on ?_
        intro a ha b hb hab
        have ha0 : a ≠ 0 := fun e => h0 (e ▸ ha)
        have hb0 : b ≠ 0 := fun e => h0 (e ▸ hb)
        have := congrArg Nat.succ hab
        rwa [Nat.succ_pred ha0, Nat.succ_pred hb0] at this
      · intro t ht
        obtain ⟨a, ha, rfl⟩ := List.mem_map.mp ht
        have ha0 : a ≠ 0 := fun e => h0 (e ▸ ha)
        obtain ⟨pc, hpc, hp⟩ := hV a ha
        obtain ⟨b, rfl⟩ := Nat.exists_eq_succ_of_ne_zero ha0
        refine ⟨pc, ?_, hp⟩
        simpa using hpc
    intro W hnd hW
    rw [List.countP_cons]
    by_cases h0 : 0 ∈ W
    · have hl := List.length_erase_of_mem h0
      have hle := hpos (W.erase 0) (hnd.erase 0) (hnd.not_mem_erase)
        (fun t ht => hW t (List.mem_of_mem_erase ht))
      obtain ⟨pc, hpc, hp⟩ := hW 0 h0
      simp at hpc
      subst hpc
      have hlen : 0 < W.length := List.length_pos_of_mem h0
      rw [hp]
      simp only [if_true]
      omega
    · have hle := hpos W hnd h0 hW
      omega

/-- When the waiter count equals the number of the threads of `W`, which are
all registered, every registered thread belongs to `W`. -/
theorem registered_mem {n : Nat} {s : State} {W : List Tid} (hc : CountInv n s)
    (hnd : W.Nodup) (hW : ∀ t ∈ W, ∃ pc, s.pcs[t]? = some pc ∧ pc.registered = true)
    (hlen : s.c.nWaiters = W.length) {t : Tid} {pc : PC} (hpc : s.pcs[t]? = some pc)
    (hr : pc.registered = true) : t ∈ W := by
  by_contra hnot
  have h1 := length_le_countP PC.registered s.pcs (t :: W) (List.nodup_cons.mpr ⟨hnot, hnd⟩) ?_
  · rw [← hc.count, hlen] at h1
    simp at h1
  · intro u hu
    rcases List.mem_cons.mp hu with rfl | hu
    · exact ⟨pc, hpc, hr⟩
    · exact hW u hu

theorem awaiting_registered {pc : PC} (h : pc.awaiting = true) : pc.registered = true := by
  cases pc <;> first | rfl | cases h

end Win32
namespace Win32

/-- A thread that is registered and has not returned from its event wait stays
so across a step without timeout, unless the step is the return of its own
event wait. -/
theorem awaits_step {ix : EventIndices} {s s' : State} {a : Action} {t : Tid}
    (h : step ix s a = some s') (hq : a.quiet = true) (ha : Awaits s t)
    (hne : ∀ ms, s.pcs[t]? = some (PC.L159 ms) → a ≠ Action.adv t) : Awaits s' t := by
  obtain ⟨pc, hpc, haw⟩ := ha
  rcases step_pcs h with hp | ⟨pc0, pc', hpc0, hp, hf, -⟩
  · exact ⟨pc, by rw [hp]; exact hpc, haw⟩
  · by_cases ht : a.tid = t
    · rw [ht] at hpc0 hp
      rw [hpc] at hpc0
      cases hpc0
      refine ⟨pc', by rw [hp]; exact getElem?_set_self_of _ hpc, ?_⟩
      rcases flow_from_awaiting hf haw with h' | ⟨ms, rfl⟩
      · exact h'
      · have h1 : a ≠ Action.adv a.tid := by
          rw [ht]
          exact hne ms hpc
        have h2 : a ≠ Action.timeout a.tid := by
          intro e
          rw [e] at hq
          cases hq
        have := step_call_idle h h1 h2
        rw [ht, hpc] at this
        cases this
    · refine ⟨pc, ?_, haw⟩
      rw [hp, List.getElem?_set_ne ht]
      exact hpc

/-- A thread that is not between the increment and the return of its event
wait, and not between the call and the increment either, is not between the
increment and the return of its event wait after a step. -/
theorem not_awaits_step {ix : EventIndices} {s s' : State} {a : Action} {t : Tid}
    (h : step ix s a = some s') (hent : ∀ pc, s.pcs[t]? = some pc → pc.entering = false)
    (hn : ¬ Awaits s t) : ¬ Awaits s' t := by
  rintro ⟨q, hq, haw⟩
  rcases step_pcs_cases h hq with hq' | ⟨-, pc, hpc, hf, -⟩
  · exact hn ⟨q, hq', haw⟩
  · rcases flow_awaiting hf haw with h1 | h1
    · exact hn ⟨pc, hpc, h1⟩
    · rw [hent pc hpc] at h1
      cases h1

/-- Effect of a step without signal or broadcast on the two events: the signal
event changes only when a thread returns from its event wait, and the broadcast
event stays unsignaled. -/
theorem quiet_events {ix : EventIndices} {s s' : State} {a : Action}
    (hk : EvKinds ix s) (h : step ix s a = some s') (hq : a.quiet = true)
    (hb : bcSignaled ix s = false) :
    bcSignaled ix s' = false ∧
      (sigSignaled ix s' = sigSignaled ix s ∨
        (sigSignaled ix s = true ∧ sigSignaled ix s' = false ∧
          ∃ t ms, a = Action.adv t ∧ s.pcs[t]? = some (PC.L159 ms) ∧
            s'.pcs = s.pcs.set t (PC.L162 (WAIT_OBJECT_0 + ix.EVENT_COND_SIGNAL.val)))) := by
  have hne := ix.distinct
  rcases step_events h with he | ⟨⟨t, rfl⟩, -⟩ | ⟨⟨t, rfl⟩, -⟩ | ⟨t, ms, r, rfl, hpc, hw, hp⟩ |
    ⟨t, -, -, he⟩
  · unfold sigSignaled bcSignaled
    rw [he]
    exact ⟨hb, Or.inl rfl⟩
  · cases hq
  · cases hq
  · cases hsig : sigSignaled ix s with
    | false =>
      have := adv_wait_blocked hpc hsig hb
      rw [h] at this
      cases this
    | true =>
      have hw' := wait_signal ix s.c.events hk.1 hsig hb
      rw [hw'] at hw
      have e := Prod.mk.inj (Option.some.inj hw)
      have e1 : r = WAIT_OBJECT_0 + ix.EVENT_COND_SIGNAL.val := e.1.symm
      have e2 : s'.c.events = s.c.events.set ix.EVENT_COND_SIGNAL
          (ResetEvent (s.c.events.get ix.EVENT_COND_SIGNAL)) := e.2.symm
      have hs' : sigSignaled ix s' = false := by
        unfold sigSignaled
        rw [e2, get_set_self]
        rfl
      have hb' : bcSignaled ix s' = false := by
        unfold bcSignaled
        rw [e2, get_set_ne _ hne]
        exact hb
      refine ⟨hb', Or.inr ⟨rfl, hs', t, ms, rfl, hpc, ?_⟩⟩
      rw [hp, e1]
  · unfold sigSignaled bcSignaled
    rw [he, get_set_ne _ hne.symm, get_set_self]
    exact ⟨rfl, Or.inl rfl⟩

/-- While only the signal event is signaled, the event wait of a thread
returns the signal result and consumes the signal. -/
theorem wait_return_signal {ix : EventIndices} {s : State} {t : Tid} {ms : Nat}
    (hk : EvKinds ix s) (hs : sigSignaled ix s = true) (hb : bcSignaled ix s = false)
    (hpc : s.pcs[t]? = some (PC.L159 ms)) :
    ∃ s3, step ix s (Action.adv t) = some s3 ∧
      s3.pcs[t]? = some (PC.L162 (WAIT_OBJECT_0 + ix.EVENT_COND_SIGNAL.val)) ∧
      sigSignaled ix s3 = false ∧ bcSignaled ix s3 = false := by
  have hne := ix.distinct
  have hw := wait_signal ix s.c.events hk.1 hs hb
  simp only [Win32.step, hpc, racond_wait_step, hw, Option.map_some']
  refine ⟨_, rfl, getElem?_set_self_of _ hpc, ?_, ?_⟩
  · unfold sigSignaled
    dsimp only
    rw [get_set_self]
    rfl
  · unfold bcSignaled
    dsimp only
    rw [get_set_ne _ hne]
    exact hb

/-- A step without signal, broadcast or timeout preserves the one-signal
situation. -/
theorem oneSignal_step {ix : EventIndices} {W : List Tid} {s s' : State} {a : Action}
    (hk : EvKinds ix s) (hi : OneSignal ix W s) (hq : a.quiet = true)
    (h : step ix s a = some s') : OneSignal ix W s' := by
  obtain ⟨hb, hd⟩ := hi
  obtain ⟨hb', hsig⟩ := quiet_events hk h hq hb
  refine ⟨hb', ?_⟩
  rcases hsig with hsame | ⟨hs, hs', t, ms, rfl, hpc, hp⟩
  · have hkeep : ∀ u, Awaits s u → Awaits s' u := by
      intro u hu
      refine awaits_step h hq hu ?_
      rintro ms hpc rfl
      cases hsg : sigSignaled ix s with
      | false =>
        rw [adv_wait_blocked hpc hsg hb] at h
        cases h
      | true =>
        obtain ⟨s3, h3, -, hs3, -⟩ := wait_return_signal hk hsg hb hpc
        rw [h] at h3
        cases h3
        rw [hsame, hsg] at hs3
        cases hs3
    rcases hd with ⟨hs, hall⟩ | ⟨hs, huniq⟩
    · exact Or.inl ⟨hsame.trans hs, fun u hu => hkeep u (hall u hu)⟩
    · refine Or.inr ⟨hsame.trans hs, ?_⟩
      intro t1 h1 t2 h2 hn1 hn2
      exact huniq t1 h1 t2 h2 (fun e => hn1 (hkeep t1 e)) (fun e => hn2 (hkeep t2 e))
  · rcases hd with ⟨-, hall⟩ | ⟨hs0, -⟩
    · refine Or.inr ⟨hs', ?_⟩
      intro t1 h1 t2 h2 hn1 hn2
      have e1 : t1 = t := by
        by_contra hc
        obtain ⟨pc, hpc1, haw⟩ := hall t1 h1
        exact hn1 ⟨pc, by rw [hp, List.getElem?_set_ne (fun e => hc e.symm)]; exact hpc1, haw⟩
      have e2 : t2 = t := by
        by_contra hc
        obtain ⟨pc, hpc2, haw⟩ := hall t2 h2
        exact hn2 ⟨pc, by rw [hp, List.getElem?_set_ne (fun e => hc e.symm)]; exact hpc2, haw⟩
      rw [e1, e2]
    · rw [hs0] at hs
      cases hs

theorem oneSignal_run {ix : EventIndices} {W : List Tid} (acts : List Action) :
    ∀ {s s' : State}, EvKinds ix s → OneSignal ix W s → (∀ a ∈ acts, a.quiet = true) →
      run ix s acts = some s' → OneSignal ix W s' := by
  induction acts with
  | nil =>
    intro s s' _ hi _ h
    simp only [run] at h
    cases h
    exact hi
  | cons a as ih =>
    intro s s' hk hi hq h
    simp only [run] at h
    obtain ⟨s1, h1, h2⟩ := Option.bind_eq_some.mp h
    exact ih (step_evKinds hk h1)
      (oneSignal_step hk hi (hq a (List.mem_cons_self a as)) h1)
      (fun b hb => hq b (List.mem_cons_of_mem a hb)) h2

theorem calm_quiet {a : Action} (h : a.calm = true) : a.quiet = true := by
  cases a <;> first | rfl | cases h

/-- A step other than a signal, a broadcast, a timeout or a new call of
`racond_wait` preserves the situation in which only the threads of `W` can get
to the event wait. -/
theorem soleSignal_step {ix : EventIndices} {W : List Tid} {s s' : State} {a : Action}
    (hk : EvKinds ix s) (hb : bcSignaled ix s = false) (hi : SoleSignal ix W s)
    (hq : a.calm = true) (h : step ix s a = some s') : SoleSignal ix W s' := by
  obtain ⟨hcl, hex⟩ := hi
  constructor
  · intro u q hq'
    rcases step_pcs_cases h hq' with hq'' | ⟨hu, pc, hpc, hf, hid⟩
    · exact hcl u q hq''
    · obtain ⟨he, hw⟩ := hcl u pc hpc
      have hidle : pc ≠ PC.idle := by
        intro e
        obtain ⟨⟨tk, hcall⟩, -⟩ := hid e
        rw [hcall] at hq
        cases hq
      constructor
      · cases hqe : q.entering with
        | false => rfl
        | true =>
          rcases flow_entering hf hqe with h1 | h1
          · exact absurd h1 hidle
          · rw [he] at h1
            cases h1
      · intro haw
        rw [hu]
        rw [hu] at hw
        rcases flow_awaiting hf haw with h1 | h1
        · exact hw h1
        · rw [he] at h1
          cases h1
  · intro hs'
    obtain ⟨-, hsig⟩ := quiet_events hk h (calm_quiet hq) hb
    rcases hsig with hsame | ⟨-, -, t, ms, rfl, hpc, hp⟩
    · obtain ⟨t0, ht0, hn0⟩ := hex (hsame.symm.trans hs')
      exact ⟨t0, ht0, not_awaits_step h (fun pc hpc => (hcl t0 pc hpc).1) hn0⟩
    · refine ⟨t, (hcl t _ hpc).2 rfl, ?_⟩
      rintro ⟨q, hq', haw⟩
      rw [hp, getElem?_set_self_of _ hpc] at hq'
      cases hq'
      cases haw

theorem soleSignal_run {ix : EventIndices} {W : List Tid} (acts : List Action) :
    ∀ {s s' : State}, EvKinds ix s → OneSignal ix W s → SoleSignal ix W s →
      (∀ a ∈ acts, a.calm = true) → run ix s acts = some s' → SoleSignal ix W s' := by
  induction acts with
  | nil =>
    intro s s' _ _ hi _ h
    simp only [run] at h
    cases h
    exact hi
  | cons a as ih =>
    intro s s' hk ho hi hq h
    simp only [run] at h
    obtain ⟨s1, h1, h2⟩ := Option.bind_eq_some.mp h
    have hqa := hq a (List.mem_cons_self a as)
    exact ih (step_evKinds hk h1) (oneSignal_step hk ho (calm_quiet hqa) h1)
      (soleSignal_step hk ho.1 hi hqa h1)
      (fun b hb => hq b (List.mem_cons_of_mem a hb)) h2

/-- While the signal is pending, a thread that is registered and has not
returned from its event wait can take its next step, and the step of a thread at
the event wait returns the signal result and consumes the signal. -/
theorem awaiting_enabled {ix : EventIndices} {n : Nat} {s : State} {t : Tid} {pc : PC}
    (hc : CountInv n s) (hh : HoldInv s) (hk : EvKinds ix s)
    (hs : sigSignaled ix s = true) (hb : bcSignaled ix s = false)
    (hpc : s.pcs[t]? = some pc) (ha : pc.awaiting = true) :
    ∃ s3, step ix s (Action.adv t) = some s3 ∧
      ∀ ms, pc = PC.L159 ms →
        s3.pcs[t]? = some (PC.L162 (WAIT_OBJECT_0 + ix.EVENT_COND_SIGNAL.val)) ∧
          sigSignaled ix s3 = false ∧ bcSignaled ix s3 = false := by
  cases pc <;> try cases ha
  case L146 tk =>
    have ho := hc.lock t _ hpc rfl
    obtain ⟨cs, hcs⟩ : ∃ cs, LeaveCriticalSection s.c.waiters_lock t = some cs := by
      unfold LeaveCriticalSection
      rw [if_pos ho]
      split <;> exact ⟨_, rfl⟩
    simp only [Win32.step, hpc, racond_wait_step, hcs, Option.map_some']
    exact ⟨_, rfl, fun ms e => by cases e⟩
  case L148 tk =>
    simp only [Win32.step, hpc, racond_wait_step]
    exact ⟨_, rfl, fun ms e => by cases e⟩
  case L157 ms =>
    have ho := hh t _ hpc rfl
    obtain ⟨cs, hcs⟩ : ∃ cs, LeaveCriticalSection s.m.hMutex t = some cs := by
      unfold LeaveCriticalSection
      rw [if_pos ho]
      split <;> exact ⟨_, rfl⟩
    simp only [Win32.step, hpc, racond_wait_step, ramutex_unlock, hcs, Option.map_some']
    exact ⟨_, rfl, fun ms e => by cases e⟩
  case L159 ms =>
    obtain ⟨s3, h3, hp3, hs3, hb3⟩ := wait_return_signal hk hs hb hpc
    exact ⟨s3, h3, fun _ _ => ⟨hp3, hs3, hb3⟩⟩

/-- Once both events are unsignaled, the threads at the event wait stay there
as long as no signal or broadcast is issued and no timeout expires. -/
theorem blocked_run {ix : EventIndices} {W : List Tid} (acts : List Action) :
    ∀ {s s' : State}, EvKinds ix s → sigSignaled ix s = false → bcSignaled ix s = false →
      (∀ t ∈ W, s.pcs[t]? = some (PC.L159 INFINITE)) → (∀ a ∈ acts, a.quiet = true) →
      run ix s acts = some s' →
      sigSignaled ix s' = false ∧ bcSignaled ix s' = false ∧
        ∀ t ∈ W, s'.pcs[t]? = some (PC.L159 INFINITE) := by
  induction acts with
  | nil =>
    intro s s' _ hs hb hW _ h
    simp only [run] at h
    cases h
    exact ⟨hs, hb, hW⟩
  | cons a as ih =>
    intro s s' hk hs hb hW hq h
    simp only [run] at h
    obtain ⟨s1, h1, h2⟩ := Option.bind_eq_some.mp h
    have hqa := hq a (List.mem_cons_self a as)
    obtain ⟨hb1, hsig⟩ := quiet_events hk h1 hqa hb
    have hs1 : sigSignaled ix s1 = false := by
      rcases hsig with hsame | ⟨htrue, -⟩
      · exact hsame.trans hs
      · rw [hs] at htrue
        cases htrue
    have hW1 : ∀ t ∈ W, s1.pcs[t]? = some (PC.L159 INFINITE) := by
      intro t ht
      refine step_keeps_wait h1 (hW t ht) ?_ ?_
      · rintro rfl
        rw [adv_wait_blocked (hW t ht) hs hb] at h1
        cases h1
      · rintro rfl
        cases hqa
    exact ih (step_evKinds hk h1) hs1 hb1 hW1 (fun b hb' => hq b (List.mem_cons_of_mem a hb')) h2

end Win32
namespace Win32

theorem atWait_true {s : State} {t : Tid} :
    atWait s t = true ↔ ∃ ms, s.pcs[t]? = some (PC.L159 ms) := by
  constructor
  · intro h
    unfold atWait at h
    split at h
    · rename_i ms hpc
      exact ⟨ms, hpc⟩
    · cases h
  · rintro ⟨ms, hpc⟩
    unfold atWait
    rw [hpc]

/-- Effect of a step without signal, broadcast or timeout on the number of
returns from the event wait, while the broadcast event is unsignaled: either the
signal event keeps its state and no thread leaves the event wait, or a thread
returns from its event wait, consuming the signal, and it is the only one. -/
theorem returns_step {ix : EventIndices} {W : List Tid} {s s' : State} {a : Action}
    (hnd : W.Nodup) (hk : EvKinds ix s) (hq : a.quiet = true) (hb : bcSignaled ix s = false)
    (h : step ix s a = some s') :
    (sigSignaled ix s' = sigSignaled ix s ∧
      (W.countP fun u => atWait s u && !atWait s' u) = 0) ∨
    (sigSignaled ix s = true ∧ sigSignaled ix s' = false ∧
      ∃ t ms, s.pcs[t]? = some (PC.L159 ms) ∧
        (W.countP fun u => atWait s u && !atWait s' u) = if t ∈ W then 1 else 0) := by
  obtain ⟨-, hsig⟩ := quiet_events hk h hq hb
  rcases hsig with hsame | ⟨hs, hs', t, ms, rfl, hpc, hp⟩
  · left
    refine ⟨hsame, ?_⟩
    rw [List.countP_eq_zero]
    intro u _ hu
    simp only [Bool.and_eq_true, Bool.not_eq_true'] at hu
    obtain ⟨ms, hpc⟩ := atWait_true.mp hu.1
    have hkeep : s'.pcs[u]? = some (PC.L159 ms) := by
      refine step_keeps_wait h hpc ?_ ?_
      · rintro rfl
        cases hsg : sigSignaled ix s with
        | false =>
          rw [adv_wait_blocked hpc hsg hb] at h
          cases h
        | true =>
          obtain ⟨s3, h3, -, hs3, -⟩ := wait_return_signal hk hsg hb hpc
          rw [h] at h3
          cases h3
          rw [hsame, hsg] at hs3
          cases hs3
      · rintro rfl
        cases hq
    have := atWait_true.mpr ⟨ms, hkeep⟩
    rw [hu.2] at this
    cases this
  · right
    refine ⟨hs, hs', t, ms, hpc, ?_⟩
    have hcongr : (W.countP fun u => atWait s u && !atWait s' u) = W.countP (· == t) := by
      apply List.countP_congr
      intro u _
      by_cases hut : u = t
      · subst hut
        have h1 : atWait s u = true := atWait_true.mpr ⟨ms, hpc⟩
        have h2 : atWait s' u = false := by
          unfold atWait
          rw [hp, getElem?_set_self_of _ hpc]
        simp [h1, h2]
      · have h1 : atWait s' u = atWait s u := by
          unfold atWait
          rw [hp, List.getElem?_set_ne (fun e => hut e.symm)]
        simp [h1, hut]
    rw [hcongr, ← List.count_eq_countP]
    exact List.count_eq_of_nodup hnd

theorem quiet_sig_run {ix : EventIndices} (acts : List Action) :
    ∀ {s s' : State}, EvKinds ix s → bcSignaled ix s = false → sigSignaled ix s = false →
      (∀ a ∈ acts, a.quiet = true) → run ix s acts = some s' → sigSignaled ix s' = false := by
  induction acts with
  | nil =>
    intro s s' _ _ hs _ h
    simp only [run] at h
    cases h
    exact hs
  | cons a as ih =>
    intro s s' hk hb hs hq h
    simp only [run] at h
    obtain ⟨s1, h1, h2⟩ := Option.bind_eq_some.mp h
    obtain ⟨hb1, hsig⟩ := quiet_events hk h1 (hq a (List.mem_cons_self a as)) hb
    have hs1 : sigSignaled ix s1 = false := by
      rcases hsig with hsame | ⟨htrue, -⟩
      · exact hsame.trans hs
      · rw [hs] at htrue
        cases htrue
    exact ih (step_evKinds hk h1) hb1 hs1 (fun b hb' => hq b (List.mem_cons_of_mem a hb')) h2

/-- Along a run without signal, broadcast or timeout, started with the
broadcast event unsignaled, at most one thread of `W` returns from its event
wait, and none does when the signal event has the same state at both ends. -/
theorem returns_run {ix : EventIndices} {W : List Tid} (hnd : W.Nodup) (acts : List Action) :
    ∀ {s s' : State}, EvKinds ix s → bcSignaled ix s = false → (∀ a ∈ acts, a.quiet = true) →
      run ix s acts = some s' →
      returns ix W s acts ≤ 1 ∧ (sigSignaled ix s' = sigSignaled ix s → returns ix W s acts = 0) := by
  induction acts with
  | nil =>
    intro s s' _ _ _ _
    exact ⟨Nat.zero_le _, fun _ => rfl⟩
  | cons a as ih =>
    intro s s' hk hb hq h
    simp only [run] at h
    obtain ⟨s1, h1, h2⟩ := Option.bind_eq_some.mp h
    have hqa := hq a (List.mem_cons_self a as)
    have hqs : ∀ b ∈ as, b.quiet = true := fun b hb' => hq b (List.mem_cons_of_mem a hb')
    have hk1 := step_evKinds hk h1
    have hb1 := (quiet_events hk h1 hqa hb).1
    obtain ⟨ih1, ih2⟩ := ih hk1 hb1 hqs h2
    simp only [returns, h1]
    rcases returns_step hnd hk hqa hb h1 with ⟨hsame, hc⟩ | ⟨hs, hs1, t, ms, -, hc⟩
    · rw [hc, Nat.zero_add]
      exact ⟨ih1, fun e => ih2 (e.trans hsame.symm)⟩
    · have hs' := quiet_sig_run as hk1 hb1 hs1 hqs h2
      have h0 := ih2 (hs'.trans hs1.symm)
      rw [hc, h0, Nat.add_zero]
      constructor
      · split <;> omega
      · intro e
        rw [hs, hs'] at e
        cases e

/-- Along a run without signal, broadcast, timeout or new call of `racond_wait`
in which only the threads of `W` can get to the event wait, exactly one thread
of `W` returns from its event wait when the signal is consumed. -/
theorem returns_sole {ix : EventIndices} {W : List Tid} (hnd : W.Nodup) (acts : List Action) :
    ∀ {s s' : State}, EvKinds ix s → bcSignaled ix s = false → SoleSignal ix W s →
      (∀ a ∈ acts, a.calm = true) → run ix s acts = some s' →
      sigSignaled ix s = true → sigSignaled ix s' = false → returns ix W s acts = 1 := by
  induction acts with
  | nil =>
    intro s s' _ _ _ _ h hs hs'
    simp only [run] at h
    cases h
    rw [hs] at hs'
    cases hs'
  | cons a as ih =>
    intro s s' hk hb hi hq h hs hs'
    simp only [run] at h
    obtain ⟨s1, h1, h2⟩ := Option.bind_eq_some.mp h
    have hqa := hq a (List.mem_cons_self a as)
    have hqs : ∀ b ∈ as, b.calm = true := fun b hb' => hq b (List.mem_cons_of_mem a hb')
    have hk1 := step_evKinds hk h1
    have hb1 := (quiet_events hk h1 (calm_quiet hqa) hb).1
    simp only [returns, h1]
    rcases returns_step hnd hk (calm_quiet hqa) hb h1 with ⟨hsame, hc⟩ | ⟨-, hs1, t, ms, hpc, hc⟩
    · rw [hc, Nat.zero_add]
      exact ih hk1 hb1 (soleSignal_step hk hb hi hqa h1) hqs h2 (hsame.trans hs) hs'
    · have htW : t ∈ W := (hi.1 t _ hpc).2 rfl
      have h0 := (returns_run hnd as hk1 hb1 (fun b hb' => calm_quiet (hqs b hb')) h2).2
        ((quiet_sig_run as hk1 hb1 hs1 (fun b hb' => calm_quiet (hqs b hb')) h2).trans hs1.symm)
      rw [hc, h0, if_pos htW]

end Win32

/-- C3 (counterexample): three threads are registered and blocked at the event
wait with an infinite timeout (waiter count 3, both events unsignaled). Thread 3
calls `racond_signal` once and then, without any further signal, broadcast or
timeout, locks `m`, calls `racond_wait` and reaches the event wait before any of
the three: its wait returns with the signal result. None of the three waiters
has returned from its event wait (the number of their returns is 0), none is
able to, and none returns in any continuation without a further signal,
broadcast or timeout. The last conjunct
runs the same schedule with the two events in the other order. -/
theorem C3_counterexample :
    Win32.runInit sigFirst 4 Win32.schedThreeWaiters = some Win32.stateThreeWaiters ∧
    (Win32.stateThreeWaiters.c.nWaiters = 3 ∧
      Win32.sigSignaled sigFirst Win32.stateThreeWaiters = false ∧
      Win32.bcSignaled sigFirst Win32.stateThreeWaiters = false ∧
      ∀ t ∈ [0, 1, 2], Win32.stateThreeWaiters.pcs[t]? = some (Win32.PC.L159 INFINITE)) ∧
    (∀ a ∈ Win32.schedSteal, a.quiet = true) ∧
    Win32.run sigFirst Win32.stateThreeWaiters
        (Win32.Action.racond_signal 3 :: Win32.schedSteal) = some Win32.stateSignalStolen ∧
    Win32.stateSignalStolen.pcs[3]? = some (Win32.PC.L162 (WAIT_OBJECT_0 + 0)) ∧
    Win32.returns sigFirst [0, 1, 2] Win32.stateThreeWaiters
        (Win32.Action.racond_signal 3 :: Win32.schedSteal) = 0 ∧
    (∀ acts s2, (∀ a ∈ acts, a.quiet = true) →
      Win32.run sigFirst Win32.stateSignalStolen acts = some s2 →
      Win32.returns sigFirst [0, 1, 2] Win32.stateSignalStolen acts = 0 ∧
      ∀ t ∈ [0, 1, 2], s2.pcs[t]? = some (Win32.PC.L159 INFINITE) ∧
        Win32.step sigFirst s2 (Win32.Action.adv t) = none) ∧
    ((Win32.runInit bcFirst 4
        (Win32.schedThreeWaiters ++ Win32.Action.racond_signal 3 :: Win32.schedSteal)).map
      fun s => (s.pcs, Win32.sigSignaled bcFirst s, Win32.bcSignaled bcFirst s,
        [(Win32.step bcFirst s (Win32.Action.adv 0)).isSome,
          (Win32.step bcFirst s (Win32.Action.adv 1)).isSome,
          (Win32.step bcFirst s (Win32.Action.adv 2)).isSome]))
      = some ([Win32.PC.L159 INFINITE, Win32.PC.L159 INFINITE, Win32.PC.L159 INFINITE,
          Win32.PC.L162 (WAIT_OBJECT_0 + 1)], false, false, [false, false, false]) := by
  refine ⟨by decide, by decide, by decide, by decide, by decide, by decide, ?_, by decide⟩
  intro acts s2 hq hrun
  have hk : Win32.EvKinds sigFirst Win32.stateSignalStolen := ⟨by decide, by decide⟩
  obtain ⟨h1, h2, h3⟩ := Win32.blocked_run acts hk (by decide) (by decide)
    (by decide : ∀ t ∈ [0, 1, 2], Win32.stateSignalStolen.pcs[t]? = some (Win32.PC.L159 INFINITE))
    hq hrun
  have hsig0 : Win32.sigSignaled sigFirst Win32.stateSignalStolen = false := by decide
  refine ⟨(Win32.returns_run (by decide) acts hk (by decide) hq hrun).2 (h1.trans hsig0.symm),
    fun t ht => ⟨h3 t ht, Win32.adv_wait_blocked (h3 t ht) h1 h2⟩⟩

/-- C3 (amended): in a reachable state `K` threads (the list `W`) are registered
in `racond_wait` and have not returned from the event wait (about to wait or
waiting on the events, with any timeout; waiter count `K`, for any `K`), the
broadcast event is unsignaled, and one `racond_signal` is issued (the state of
the signal event before it plays no part). Along every continuation without a
further signal, broadcast or timeout the broadcast event stays unsignaled and:
at most one return from the event wait by a thread of the `K` takes place; while
the signal event is signaled none of the `K` has returned, each of them can take
its next step, and the event wait of each returns the signal result and consumes
the signal; once the signal event is unsignaled no thread can return from an
event wait, and at most one of the `K` is no longer registered and waiting. The
thread that takes the signal need not be one of the `K`. When moreover no thread
is between the call of `racond_wait` and the increment of line 145 at the signal
and no thread calls `racond_wait` afterwards, then once the signal event is
unsignaled exactly one return from the event wait by a thread of the `K` has
taken place, and the others are still registered, have not returned, and cannot
return. -/
theorem C3_signal_wakes_at_most_one (ix : EventIndices) (n : Nat) (s : Win32.State)
    (W : List Tid) (u : Tid) (hn : n < 2 ^ 32) (hr : Win32.Reachable ix n s) (hnd : W.Nodup)
    (hnw : s.c.nWaiters = W.length) (hW : ∀ t ∈ W, Win32.Awaits s t)
    (hb : Win32.bcSignaled ix s = false)
    (hu : s.pcs[u]? = some Win32.PC.idle) :
    ∃ s1, Win32.step ix s (Win32.Action.racond_signal u) = some s1 ∧
      Win32.sigSignaled ix s1 = true ∧
      (∀ acts s2, (∀ a ∈ acts, a.quiet = true) → Win32.run ix s1 acts = some s2 →
        Win32.bcSignaled ix s2 = false ∧ Win32.returns ix W s1 acts ≤ 1 ∧
        (Win32.sigSignaled ix s2 = true →
          Win32.returns ix W s1 acts = 0 ∧
          ∀ t ∈ W, ∃ pc, s2.pcs[t]? = some pc ∧ pc.awaiting = true ∧
            ∃ s3, Win32.step ix s2 (Win32.Action.adv t) = some s3 ∧
              ∀ ms, pc = Win32.PC.L159 ms →
                s3.pcs[t]? = some (Win32.PC.L162 (WAIT_OBJECT_0 + ix.EVENT_COND_SIGNAL.val)) ∧
                  Win32.sigSignaled ix s3 = false ∧ Win32.bcSignaled ix s3 = false) ∧
        (Win32.sigSignaled ix s2 = false →
          (∀ (t : Tid) (ms : Nat), s2.pcs[t]? = some (Win32.PC.L159 ms) →
            Win32.step ix s2 (Win32.Action.adv t) = none) ∧
          ∀ t ∈ W, ∀ t' ∈ W, ¬ Win32.Awaits s2 t → ¬ Win32.Awaits s2 t' → t = t')) ∧
      ((∀ (t : Tid) (pc : Win32.PC), s.pcs[t]? = some pc → pc.entering = false) →
        ∀ acts s2, (∀ a ∈ acts, a.calm = true) → Win32.run ix s1 acts = some s2 →
          Win32.sigSignaled ix s2 = false →
          Win32.returns ix W s1 acts = 1 ∧
          ∃ t0 ∈ W, ¬ Win32.Awaits s2 t0 ∧
            ∀ t ∈ W, t ≠ t0 → Win32.Awaits s2 t ∧
              ∀ ms, s2.pcs[t]? = some (Win32.PC.L159 ms) →
                Win32.step ix s2 (Win32.Action.adv t) = none) := by
  have hne := ix.distinct
  have hk := Win32.reachable_evKinds hr
  have hc := Win32.reachable_countInv hn hr
  have hs1 : Win32.step ix s (Win32.Action.racond_signal u)
      = some { s with c := Win32.racond_signal ix s.c } := by
    simp only [Win32.step, hu, if_true]
  have hr1 := Win32.reachable_step hr hs1
  have hk1 := Win32.reachable_evKinds hr1
  have hsig1 : Win32.sigSignaled ix { s with c := Win32.racond_signal ix s.c } = true := by
    unfold Win32.sigSignaled
    simp only [Win32.racond_signal]
    rw [Win32.get_set_self]
    rfl
  have hbc1 : Win32.bcSignaled ix { s with c := Win32.racond_signal ix s.c } = false := by
    unfold Win32.bcSignaled
    simp only [Win32.racond_signal]
    rw [Win32.get_set_ne _ hne]
    exact hb
  have hone : Win32.OneSignal ix W { s with c := Win32.racond_signal ix s.c } :=
    ⟨hbc1, Or.inl ⟨hsig1, hW⟩⟩
  refine ⟨_, hs1, hsig1, ?_, ?_⟩
  · intro acts s2 hq hrun
    have ho := Win32.oneSignal_run acts hk1 hone hq hrun
    have hr2 := Win32.reachable_run acts hr1 hrun
    have hret := Win32.returns_run hnd acts hk1 hbc1 hq hrun
    refine ⟨ho.1, hret.1, ?_, ?_⟩
    · intro hsig
      refine ⟨hret.2 (hsig.trans hsig1.symm), ?_⟩
      rcases ho.2 with ⟨-, hall⟩ | ⟨hf, -⟩
      · intro t ht
        obtain ⟨pc, hpc, haw⟩ := hall t ht
        obtain ⟨s3, h3, h4⟩ := Win32.awaiting_enabled (Win32.reachable_countInv hn hr2)
          (Win32.reachable_holdInv hr2) (Win32.reachable_evKinds hr2) hsig ho.1 hpc haw
        exact ⟨pc, hpc, haw, s3, h3, h4⟩
      · rw [hf] at hsig
        cases hsig
    · intro hsig
      rcases ho.2 with ⟨ht, -⟩ | ⟨-, huniq⟩
      · rw [hsig] at ht
        cases ht
      · exact ⟨fun t ms hpc => Win32.adv_wait_blocked hpc hsig ho.1, huniq⟩
  · intro hent acts s2 hq hrun hsig
    have hWreg : ∀ t ∈ W, ∃ pc, s.pcs[t]? = some pc ∧ pc.registered = true := by
      intro t ht
      obtain ⟨pc, hpc, haw⟩ := hW t ht
      exact ⟨pc, hpc, Win32.awaiting_registered haw⟩
    have hsole1 : Win32.SoleSignal ix W { s with c := Win32.racond_signal ix s.c } := by
      refine ⟨fun t pc hpc => ⟨hent t pc hpc, fun haw => ?_⟩, fun h => ?_⟩
      · exact Win32.registered_mem hc hnd hWreg hnw hpc (Win32.awaiting_registered haw)
      · rw [hsig1] at h
        cases h
    have hsole2 := Win32.soleSignal_run acts hk1 hone hsole1 hq hrun
    have ho2 := Win32.oneSignal_run acts hk1 hone (fun a ha => Win32.calm_quiet (hq a ha)) hrun
    obtain ⟨t0, ht0, hn0⟩ := hsole2.2 hsig
    rcases ho2.2 with ⟨ht, -⟩ | ⟨-, huniq⟩
    · rw [hsig] at ht
      cases ht
    · refine ⟨Win32.returns_sole hnd acts hk1 hbc1 hsole1 hq hrun hsig1 hsig,
        t0, ht0, hn0, fun t ht hne' => ⟨?_, ?_⟩⟩
      · by_contra hna
        exact hne' (huniq t ht t0 ht0 hna hn0)
      · intro ms hpc
        exact Win32.adv_wait_blocked hpc hsig ho2.1

/-- Witness for `C3_signal_wakes_at_most_one`: three threads blocked at the
event wait, the fourth thread, which is outside `racond_wait`, signals; thread 1
then returns from its event wait with the signal result, after which exactly one
of the three has returned and the other two are still waiting and cannot
return. -/
theorem C3_signal_wakes_at_most_one_witness :
    Win32.Reachable sigFirst 4 Win32.stateThreeWaiters ∧
    Win32.step sigFirst Win32.stateThreeWaiters (Win32.Action.racond_signal 3)
      = some Win32.stateThreeSignaled ∧
    ∃ s2, Win32.run sigFirst Win32.stateThreeSignaled [Win32.Action.adv 1] = some s2 ∧
      Win32.sigSignaled sigFirst s2 = false ∧
      s2.pcs[1]? = some (Win32.PC.L162 (WAIT_OBJECT_0 + sigFirst.EVENT_COND_SIGNAL.val)) ∧
      Win32.returns sigFirst [0, 1, 2] Win32.stateThreeSignaled [Win32.Action.adv 1] = 1 ∧
      ∃ t0 ∈ [0, 1, 2], ¬ Win32.Awaits s2 t0 ∧
        ∀ t ∈ [0, 1, 2], t ≠ t0 → Win32.Awaits s2 t ∧
          ∀ ms, s2.pcs[t]? = some (Win32.PC.L159 ms) →
            Win32.step sigFirst s2 (Win32.Action.adv t) = none := by
  have hreach : Win32.Reachable sigFirst 4 Win32.stateThreeWaiters :=
    Win32.reachable_of_runInit Win32.schedThreeWaiters (by decide)
  have hW : ∀ t ∈ [0, 1, 2], Win32.Awaits Win32.stateThreeWaiters t := by
    intro t ht
    simp only [List.mem_cons, List.mem_singleton, List.not_mem_nil, or_false] at ht
    rcases ht with rfl | rfl | rfl <;> exact ⟨_, rfl, rfl⟩
  have hent : ∀ (t : Tid) (pc : Win32.PC), Win32.stateThreeWaiters.pcs[t]? = some pc →
      pc.entering = false := by
    intro t pc h
    obtain ⟨_, hget⟩ := List.getElem?_eq_some.mp h
    have hmem : pc ∈ Win32.stateThreeWaiters.pcs := hget ▸ List.getElem_mem _
    simp only [Win32.stateThreeWaiters, List.mem_cons, List.mem_singleton, List.not_mem_nil,
      or_false] at hmem
    rcases hmem with rfl | rfl | rfl | rfl <;> rfl
  obtain ⟨s1, h1, -, -, h4⟩ :=
    C3_signal_wakes_at_most_one sigFirst 4 Win32.stateThreeWaiters [0, 1, 2] 3 (by norm_num)
      hreach (by decide) (by decide) hW (by decide) (by decide)
  have hlit : Win32.step sigFirst Win32.stateThreeWaiters (Win32.Action.racond_signal 3)
      = some Win32.stateThreeSignaled := by decide
  have hs1 : s1 = Win32.stateThreeSignaled := Option.some.inj (h1.symm.trans hlit)
  subst hs1
  refine ⟨hreach, hlit, ?_⟩
  rcases hrun : Win32.run sigFirst Win32.stateThreeSignaled [Win32.Action.adv 1] with _ | s2
  · have h0 : (Win32.run sigFirst Win32.stateThreeSignaled [Win32.Action.adv 1]).isSome
        = true := by decide
    rw [hrun] at h0
    cases h0
  · have h0 : (Win32.run sigFirst Win32.stateThreeSignaled [Win32.Action.adv 1]).map
        (fun r => (Win32.sigSignaled sigFirst r, r.pcs[1]?))
          = some (false, some (Win32.PC.L162 (WAIT_OBJECT_0 + 0))) := by decide
    rw [hrun] at h0
    have h2 := Prod.mk.inj (Option.some.inj h0)
    have hcalm : ∀ a ∈ [Win32.Action.adv 1], a.calm = true := by decide
    exact ⟨s2, rfl, h2.1, h2.2, h4 hent [Win32.Action.adv 1] s2 hcalm hrun h2.1⟩

/-! ### Reset of the broadcast event -/

namespace Win32

theorem exists_registered {n : Nat} {s : State} (hc : CountInv n s) (h : 0 < s.c.nWaiters) :
    ∃ (t : Tid) (pc : PC), s.pcs[t]? = some pc ∧ pc.registered = true := by
  rw [hc.count, List.countP_pos_iff] at h
  obtain ⟨pc, hmem, hp⟩ := h
  obtain ⟨t, ht⟩ := List.mem_iff_getElem?.mp hmem
  exact ⟨t, pc, ht, hp⟩

/-- A step that changes neither the program counters nor the events preserves
the invariant. -/
theorem drain_same {ix : EventIndices} {n r0 : Nat} {s s' : State} {g : Ghost}
    (hd : Drain ix n r0 s g) (hc : CountInv n s') (hp : s'.pcs = s.pcs)
    (hev : s'.c.events = s.c.events) : Drain ix n r0 s' g := by
  have hk : EvKinds ix s' := by
    unfold EvKinds
    rw [hev]
    exact hd.kinds
  have hsig : sigSignaled ix s' = sigSignaled ix s := by
    unfold sigSignaled
    rw [hev]
  have hbc : bcSignaled ix s' = bcSignaled ix s := by
    unfold bcSignaled
    rw [hev]
  refine ⟨hc, hk, hsig.trans hd.sig, ?_, ?_, hd.base, ?_⟩
  · rw [hp]
    exact hd.res
  · rw [hp, hbc]
    exact hd.due
  · rw [hbc]
    exact hd.done

/-- A step of thread `t` that leaves the events alone, carries no new result
other than the broadcast result and keeps a thread that is due to reset the
event due, preserves the invariant. -/
theorem drain_move {ix : EventIndices} {n r0 : Nat} {s s' : State} {g : Ghost} {t : Tid}
    {pc pc' : PC} (hd : Drain ix n r0 s g) (hc : CountInv n s')
    (hpc : s.pcs[t]? = some pc) (hp : s'.pcs = s.pcs.set t pc')
    (hev : s'.c.events = s.c.events)
    (h2 : ∀ r, pc'.result = some r →
      r = WAIT_OBJECT_0 + ix.EVENT_COND_BROADCAST.val ∨ pc.result = some r)
    (h3 : pc.resetDue = true → pc'.resetDue = true) : Drain ix n r0 s' g := by
  have hk : EvKinds ix s' := by
    unfold EvKinds
    rw [hev]
    exact hd.kinds
  have hsig : sigSignaled ix s' = sigSignaled ix s := by
    unfold sigSignaled
    rw [hev]
  have hbc : bcSignaled ix s' = bcSignaled ix s := by
    unfold bcSignaled
    rw [hev]
  refine ⟨hc, hk, hsig.trans hd.sig, ?_, ?_, hd.base, ?_⟩
  · rw [hp]
    intro u q r hq hr
    rcases getElem?_set_some hq with ⟨-, rfl⟩ | ⟨-, hq'⟩
    · rcases h2 r hr with h | h
      · exact h
      · exact hd.res t pc r hpc h
    · exact hd.res u q r hq' hr
  · rw [hp, hbc]
    intro hb
    exact exists_pcs_set pc' hpc h3 (hd.due hb)
  · rw [hbc]
    exact hd.done

/-- A step other than a signal, a broadcast or a timeout preserves the
invariant. -/
theorem drain_step {ix : EventIndices} {n r0 : Nat} (hn : n < 2 ^ 32) {s s' : State}
    {g : Ghost} {a : Action} (hd : Drain ix n r0 s g) (hq : a.quiet = true)
    (h : step ix s a = some s') : Drain ix n r0 s' (ghostStep s a g) := by
  have hne := ix.distinct
  have hc' := countInv_step hn hd.cnt h
  have hk' := step_evKinds hd.kinds h
  cases a with
  | racond_signal t => cases hq
  | racond_broadcast t => cases hq
  | timeout t => cases hq
  | racond_wait t tk =>
    simp only [Win32.step] at h
    split at h
    · rename_i hcall
      cases h
      simp only [ghostStep]
      exact drain_move hd hc' hcall.1 rfl rfl (fun _ hr => by cases hr) (fun hx => by cases hx)
    · cases h
  | ramutex_lock t =>
    simp only [Win32.step] at h
    split at h
    · obtain ⟨m, -, rfl⟩ := Option.map_eq_some'.mp h
      exact drain_same hd hc' rfl rfl
    · cases h
  | ramutex_trylock t =>
    simp only [Win32.step] at h
    split at h
    · cases h
      exact drain_same hd hc' rfl rfl
    · cases h
  | ramutex_unlock t =>
    simp only [Win32.step] at h
    split at h
    · obtain ⟨m, -, rfl⟩ := Option.map_eq_some'.mp h
      exact drain_same hd hc' rfl rfl
    · cases h
  | adv t =>
    simp only [Win32.step] at h
    split at h
    · rename_i pc hpc
      cases pc <;> simp only [racond_wait_step] at h
      case idle => cases h
      case L144 tk =>
        obtain ⟨wl, -, rfl⟩ := Option.map_eq_some'.mp h
        simp only [ghostStep, hpc]
        exact drain_move hd hc' hpc rfl rfl (fun _ hr => by cases hr) (fun hx => by cases hx)
      case L145 tk =>
        cases h
        simp only [ghostStep, hpc]
        exact drain_move hd hc' hpc rfl rfl (fun _ hr => by cases hr) (fun hx => by cases hx)
      case L146 tk =>
        obtain ⟨wl, -, rfl⟩ := Option.map_eq_some'.mp h
        simp only [ghostStep, hpc]
        exact drain_move hd hc' hpc rfl rfl (fun _ hr => by cases hr) (fun _ => rfl)
      case L148 tk =>
        cases h
        simp only [ghostStep, hpc]
        exact drain_move hd hc' hpc rfl rfl (fun _ hr => by cases hr) (fun _ => rfl)
      case L157 ms =>
        obtain ⟨m, -, rfl⟩ := Option.map_eq_some'.mp h
        simp only [ghostStep, hpc]
        exact drain_move hd hc' hpc rfl rfl (fun _ hr => by cases hr) (fun _ => rfl)
      case L159 ms =>
        cases hbc : bcSignaled ix s with
        | false =>
          have hw : WaitForMultipleObjects s.c.events = none :=
            (wait_none_iff ix _).mpr ⟨hd.sig, hbc⟩
          rw [hw] at h
          cases h
        | true =>
          have hw := wait_broadcast ix s.c.events hd.kinds.2 hd.sig hbc
          rw [hw] at h
          simp only [Option.map_some'] at h
          cases h
          simp only [ghostStep, hpc]
          exact drain_move hd hc' hpc rfl rfl (fun r hr => Or.inl (Option.some.inj hr).symm)
            (fun _ => rfl)
      case L162 r =>
        obtain ⟨wl, -, rfl⟩ := Option.map_eq_some'.mp h
        simp only [ghostStep, hpc]
        exact drain_move hd hc' hpc rfl rfl (fun _ hr => Or.inr hr) (fun _ => rfl)
      case L163 r =>
        cases h
        simp only [ghostStep, hpc]
        exact drain_move hd hc' hpc rfl rfl (fun _ hr => Or.inr hr) (fun _ => rfl)
      case L164 r =>
        cases h
        have hr := hd.res t (PC.L164 r) r hpc rfl
        simp only [ghostStep, hpc]
        by_cases h0 : s.c.nWaiters = 0
        · have hb : (if r = WAIT_OBJECT_0 + ix.EVENT_COND_BROADCAST.val ∧ s.c.nWaiters = 0
              then true else false) = true := by
            rw [if_pos ⟨hr, h0⟩]
          rw [hb] at hc' ⊢
          exact drain_move hd hc' hpc rfl rfl (fun _ hr => by cases hr) (fun _ => rfl)
        · have hb : (if r = WAIT_OBJECT_0 + ix.EVENT_COND_BROADCAST.val ∧ s.c.nWaiters = 0
              then true else false) = false := by
            rw [if_neg (fun hh => h0 hh.2)]
          rw [hb] at hc' hk' ⊢
          obtain ⟨u, q, hq', hreg⟩ := exists_registered hd.cnt (Nat.pos_of_ne_zero h0)
          have hut : u ≠ t := by
            rintro rfl
            rw [hpc] at hq'
            cases hq'
            cases hreg
          refine ⟨hc', hk', hd.sig, ?_, ?_, hd.base, hd.done⟩
          · intro v p r' hp' hr'
            rcases getElem?_set_some hp' with ⟨-, rfl⟩ | ⟨-, hp''⟩
            · cases hr'
            · exact hd.res v p r' hp'' hr'
          · intro _
            refine ⟨u, q, ?_, ?_⟩
            · show (s.pcs.set t (PC.L166 false))[u]? = some q
              rw [List.getElem?_set_ne (fun e => hut e.symm)]
              exact hq'
            · simp [PC.resetDue, hreg]
      case L166 b =>
        obtain ⟨wl, -, rfl⟩ := Option.map_eq_some'.mp h
        simp only [ghostStep, hpc]
        exact drain_move hd hc' hpc rfl rfl (fun _ hr => by cases hr)
          (fun hx => by cases b <;> first | rfl | cases hx)
      case L172 b =>
        cases b
        · cases h
          simp only [ghostStep, hpc]
          exact drain_move hd hc' hpc rfl rfl (fun _ hr => by cases hr) (fun hx => by cases hx)
        · cases h
          simp only [ghostStep, hpc]
          have hsig : ((s.c.events.set ix.EVENT_COND_BROADCAST
              (ResetEvent (s.c.events.get ix.EVENT_COND_BROADCAST))).get
                ix.EVENT_COND_SIGNAL).signaled = false := by
            rw [get_set_ne _ hne.symm]
            exact hd.sig
          have hbc : ((s.c.events.set ix.EVENT_COND_BROADCAST
              (ResetEvent (s.c.events.get ix.EVENT_COND_BROADCAST))).get
                ix.EVENT_COND_BROADCAST).signaled = false := by
            rw [get_set_self]
            rfl
          refine ⟨hc', hk', hsig, ?_, ?_, ?_, ?_⟩
          · intro v p r' hp' hr'
            rcases getElem?_set_some hp' with ⟨-, rfl⟩ | ⟨-, hp''⟩
            · cases hr'
            · exact hd.res v p r' hp'' hr'
          · intro hx
            have hx' : ((s.c.events.set ix.EVENT_COND_BROADCAST
                (ResetEvent (s.c.events.get ix.EVENT_COND_BROADCAST))).get
                  ix.EVENT_COND_BROADCAST).signaled = true := hx
            rw [hbc] at hx'
            cases hx'
          · exact Nat.le_succ_of_le hd.base
          · intro _
            exact Nat.succ_le_succ hd.base
      case L176 =>
        obtain ⟨m, -, rfl⟩ := Option.map_eq_some'.mp h
        simp only [ghostStep, hpc]
        exact drain_move hd hc' hpc rfl rfl (fun _ hr => by cases hr) (fun hx => by cases hx)
    · cases h

theorem drain_run {ix : EventIndices} {n r0 : Nat} (hn : n < 2 ^ 32) (acts : List Action) :
    ∀ {s s' : State} {g g' : Ghost}, Drain ix n r0 s g → (∀ a ∈ acts, a.quiet = true) →
      grun ix s g acts = some (s', g') → Drain ix n r0 s' g' := by
  induction acts with
  | nil =>
    intro s s' g g' hd _ h
    simp only [grun] at h
    cases h
    exact hd
  | cons a as ih =>
    intro s s' g g' hd hq h
    simp only [grun] at h
    split at h
    · rename_i s1 h1
      exact ih (drain_step hn hd (hq a (List.mem_cons_self a as)) h1)
        (fun b hb => hq b (List.mem_cons_of_mem a hb)) h
    · cases h

theorem grun_run {ix : EventIndices} (acts : List Action) :
    ∀ {s s' : State} {g g' : Ghost}, grun ix s g acts = some (s', g') →
      run ix s acts = some s' := by
  induction acts with
  | nil =>
    intro s s' g g' h
    simp only [grun] at h
    cases h
    rfl
  | cons a as ih =>
    intro s s' g g' h
    simp only [grun] at h
    split at h
    · rename_i s1 h1
      simp only [run, h1, Option.some_bind]
      exact ih h
    · cases h

theorem quiet_bc_run {ix : EventIndices} (acts : List Action) :
    ∀ {s s' : State}, EvKinds ix s → (∀ a ∈ acts, a.quiet = true) → run ix s acts = some s' →
      bcSignaled ix s = false → bcSignaled ix s' = false := by
  induction acts with
  | nil =>
    intro s s' _ _ h hb
    simp only [run] at h
    cases h
    exact hb
  | cons a as ih =>
    intro s s' hk hq h hb
    simp only [run] at h
    obtain ⟨s1, h1, h2⟩ := Option.bind_eq_some.mp h
    exact ih (step_evKinds hk h1) (fun b hb' => hq b (List.mem_cons_of_mem a hb')) h2
      (quiet_events hk h1 (hq a (List.mem_cons_self a as)) hb).1

/-- Along a run without broadcast the broadcast event goes from signaled to
unsignaled once if it is signaled at the start and unsignaled at the end, and
never otherwise. -/
theorem clears_quiet {ix : EventIndices} (acts : List Action) :
    ∀ {s s' : State}, EvKinds ix s → (∀ a ∈ acts, a.quiet = true) → run ix s acts = some s' →
      clears ix s acts = if bcSignaled ix s = true ∧ bcSignaled ix s' = false then 1 else 0 := by
  induction acts with
  | nil =>
    intro s s' _ _ h
    simp only [run] at h
    cases h
    cases hb : bcSignaled ix s <;> simp [clears]
  | cons a as ih =>
    intro s s' hk hq h
    simp only [run] at h
    obtain ⟨s1, h1, h2⟩ := Option.bind_eq_some.mp h
    have hqa := hq a (List.mem_cons_self a as)
    have hqs : ∀ b ∈ as, b.quiet = true := fun b hb' => hq b (List.mem_cons_of_mem a hb')
    have hk1 := step_evKinds hk h1
    have e := ih hk1 hqs h2
    simp only [clears, h1, e]
    cases hb : bcSignaled ix s with
    | false =>
      have hb1 := (quiet_events hk h1 hqa hb).1
      simp [hb1]
    | true =>
      cases hb1 : bcSignaled ix s1 with
      | false =>
        have hb2 := quiet_bc_run as hk1 hqs h2 hb1
        simp [hb2]
      | true =>
        cases hb2 : bcSignaled ix s' <;> simp

/-- When the waiter count is back to 0 and no thread has the test of line 164
or a `ResetEvent` pending, the broadcast event is unsignaled and has been reset
since the broadcast. -/
theorem drain_end {ix : EventIndices} {n r0 : Nat} {s : State} {g : Ghost}
    (hd : Drain ix n r0 s g) (h0 : s.c.nWaiters = 0)
    (hq : ∀ (t : Tid) (pc : PC), s.pcs[t]? = some pc →
      pc.deciding = false ∧ pc.resetPending = false) :
    bcSignaled ix s = false ∧ r0 + 1 ≤ g.resets ∧ WaitForMultipleObjects s.c.events = none := by
  have hbc : bcSignaled ix s = false := by
    cases hb : bcSignaled ix s with
    | false => rfl
    | true =>
      obtain ⟨t, pc, hpc, hdue⟩ := hd.due hb
      have h1 := hq t pc hpc
      simp only [PC.resetDue, h1.1, h1.2, Bool.or_false] at hdue
      have := registered_pos hd.cnt hpc hdue
      omega
  exact ⟨hbc, hd.done hbc, (wait_none_iff ix _).mpr ⟨hd.sig, hbc⟩⟩

/-- The state right after a broadcast issued while some thread is still due to
reset the event, the signal event is unsignaled and no result other than the
broadcast result is in flight satisfies the invariant. -/
theorem drain_start {ix : EventIndices} {n : Nat} (hn : n < 2 ^ 32) {s : State} (g : Ghost)
    {u : Tid} (hr : Reachable ix n s)
    (hdue : ∃ (w : Tid) (pc : PC), s.pcs[w]? = some pc ∧ pc.resetDue = true)
    (hres : ∀ (w : Tid) (pc : PC) (r : Nat), s.pcs[w]? = some pc → pc.result = some r →
      r = WAIT_OBJECT_0 + ix.EVENT_COND_BROADCAST.val)
    (hs : sigSignaled ix s = false) (hu : s.pcs[u]? = some PC.idle) :
    step ix s (Action.racond_broadcast u) = some { s with c := racond_broadcast ix s.c } ∧
      bcSignaled ix { s with c := racond_broadcast ix s.c } = true ∧
      Drain ix n g.resets { s with c := racond_broadcast ix s.c } g := by
  have hne := ix.distinct
  have hs1 : step ix s (Action.racond_broadcast u)
      = some { s with c := racond_broadcast ix s.c } := by
    simp only [Win32.step, hu, if_true]
  have hbc : bcSignaled ix { s with c := racond_broadcast ix s.c } = true := by
    unfold bcSignaled
    simp only [racond_broadcast]
    rw [get_set_self]
    rfl
  refine ⟨hs1, hbc, countInv_step hn (reachable_countInv hn hr) hs1,
    step_evKinds (reachable_evKinds hr) hs1, ?_, hres, fun _ => hdue, le_refl _, ?_⟩
  · unfold sigSignaled
    simp only [racond_broadcast]
    rw [get_set_ne _ hne.symm]
    exact hs
  · intro hx
    rw [hbc] at hx
    cases hx

/-- The state right after a broadcast issued while some thread is still due to
reset the event, no thread is between the call of `racond_wait` and the
increment of line 145, no `ResetEvent` is pending, the signal event is
unsignaled and no result other than the broadcast result is in flight starts an
episode. -/
theorem episode_start {ix : EventIndices} {n : Nat} (hn : n < 2 ^ 32) {s : State} (g : Ghost)
    {u : Tid} (hr : Reachable ix n s)
    (hdue : ∃ (w : Tid) (pc : PC), s.pcs[w]? = some pc ∧ pc.resetDue = true)
    (hres : ∀ (w : Tid) (pc : PC) (r : Nat), s.pcs[w]? = some pc → pc.result = some r →
      r = WAIT_OBJECT_0 + ix.EVENT_COND_BROADCAST.val)
    (hclean : ∀ (w : Tid) (pc : PC), s.pcs[w]? = some pc →
      pc.entering = false ∧ pc.resetPending = false)
    (hs : sigSignaled ix s = false) (hu : s.pcs[u]? = some PC.idle) :
    Episode ix n g.resets { s with c := racond_broadcast ix s.c } g := by
  obtain ⟨hs1, hbc, hd⟩ := drain_start hn g hr hdue hres hs hu
  refine ⟨hd.cnt, hd.kinds, fun w pc hpc => (hclean w pc hpc).1, hd.sig, hres, ?_⟩
  refine Or.inl ⟨hbc, rfl, fun w pc hpc => (hclean w pc hpc).2, ?_⟩
  intro h0
  obtain ⟨w, pc, hpc, hw⟩ := hdue
  refine ⟨w, pc, hpc, ?_⟩
  simp only [PC.resetDue, (hclean w pc hpc).2, Bool.or_false, Bool.or_eq_true] at hw
  rcases hw with hw | hw
  · have := registered_pos (reachable_countInv hn hr) hpc hw
    have h0' : s.c.nWaiters = 0 := h0
    omega
  · exact hw

theorem quiet_of_calm_run {acts : List Action} (h : ∀ a ∈ acts, a.calm = true) :
    ∀ a ∈ acts, a.quiet = true :=
  fun a ha => calm_quiet (h a ha)

end Win32
/-- With a thread that calls `racond_wait` between the last decrement and the
pending `ResetEvent`, one broadcast leads to two executions of `ResetEvent`:
after `schedResetTwice`, which contains a single broadcast and no signal or
timeout, the waiter count is 0, nothing is pending, the broadcast event is
unsignaled and line 173 has been executed twice, the first execution taking the
event from signaled to unsignaled and the second finding it unsignaled. -/
theorem reset_executed_twice :
    (Win32.schedResetTwice.countP fun a => decide (a = Win32.Action.racond_broadcast 2)) = 1 ∧
    (∀ a ∈ Win32.schedResetTwice, a = Win32.Action.racond_broadcast 2 ∨ a.quiet = true) ∧
    ((Win32.grunInit sigFirst 3 Win32.schedResetTwice).map fun r =>
        (r.1.pcs, r.1.c.nWaiters, Win32.bcSignaled sigFirst r.1, r.2.resets))
      = some ([Win32.PC.L176, Win32.PC.L176, Win32.PC.idle], 0, false, 2) ∧
    ((Win32.runInit sigFirst 3 []).map fun s0 =>
        Win32.clears sigFirst s0 Win32.schedResetTwice) = some 1 := by
  decide

/-- C5 (amended): (1) the only step that takes the broadcast event from signaled
to unsignaled is the `ResetEvent` of line 173, executed by a thread inside
`racond_wait`, never `racond_signal` or `racond_broadcast`. (2) A
`racond_broadcast` is issued in a reachable state in which some thread is
registered in `racond_wait`, or has decremented the waiter count and not yet
executed the test of line 164 or the `ResetEvent` it decided on; the signal
event is unsignaled and no thread carries a wait result other than the broadcast
result. For every continuation without a further signal or broadcast and without
a timeout: once the waiter count is back to 0 and no thread has the test of line
164 or a `ResetEvent` pending, the broadcast event is unsignaled, it has gone
from signaled to unsignaled exactly once since the broadcast, `ResetEvent` has
been executed at least once since the broadcast, and a wait started afterwards
is not satisfied. When moreover, at the broadcast, no thread is between the call
of `racond_wait` and the increment of line 145 and no `ResetEvent` is pending,
and no thread calls `racond_wait` afterwards, `ResetEvent` has been executed
exactly once since the broadcast. (3) A `racond_broadcast` issued while nobody
is inside `racond_wait` is retained: the broadcast event stays signaled and the
next thread that calls `racond_wait` is woken by it at the event wait. -/
theorem C5_broadcast_reset (ix : EventIndices) (n : Nat) (s z : Win32.State) (g : Win32.Ghost)
    (u t v : Tid) (tk : Int)
    (hn : n < 2 ^ 32) (hr : Win32.Reachable ix n s)
    (hdue : ∃ (w : Tid) (pc : Win32.PC), s.pcs[w]? = some pc ∧ pc.resetDue = true)
    (hres : ∀ (w : Tid) (pc : Win32.PC) (r : Nat), s.pcs[w]? = some pc → pc.result = some r →
      r = WAIT_OBJECT_0 + ix.EVENT_COND_BROADCAST.val)
    (hs : Win32.sigSignaled ix s = false) (hu : s.pcs[u]? = some Win32.PC.idle)
    (hzk : Win32.EvKinds ix z) (hz0 : z.c.nWaiters = 0)
    (hzl : z.c.waiters_lock.OwningThread = none)
    (hzs : Win32.sigSignaled ix z = false)
    (hzv : z.pcs[v]? = some Win32.PC.idle) (hzt : z.pcs[t]? = some Win32.PC.idle)
    (hzm : z.m.hMutex.OwningThread = some t) (htk : tk < 0) :
    (∀ x a x', Win32.EvKinds ix x → Win32.step ix x a = some x' →
      Win32.bcSignaled ix x = true → Win32.bcSignaled ix x' = false →
      ∃ w, a = Win32.Action.adv w ∧ x.pcs[w]? = some (Win32.PC.L172 true)) ∧
    (∃ s1, Win32.step ix s (Win32.Action.racond_broadcast u) = some s1 ∧
      Win32.bcSignaled ix s1 = true ∧
      (∀ acts s2 g2, (∀ a ∈ acts, a.quiet = true) → Win32.grun ix s1 g acts = some (s2, g2) →
        s2.c.nWaiters = 0 →
        (∀ (w : Tid) (pc : Win32.PC), s2.pcs[w]? = some pc →
          pc.deciding = false ∧ pc.resetPending = false) →
        Win32.bcSignaled ix s2 = false ∧ Win32.clears ix s1 acts = 1 ∧
          g.resets + 1 ≤ g2.resets ∧ WaitForMultipleObjects s2.c.events = none) ∧
      ((∀ (w : Tid) (pc : Win32.PC), s.pcs[w]? = some pc →
          pc.entering = false ∧ pc.resetPending = false) →
        ∀ acts s2 g2, (∀ a ∈ acts, a.calm = true) → Win32.grun ix s1 g acts = some (s2, g2) →
          s2.c.nWaiters = 0 →
          (∀ (w : Tid) (pc : Win32.PC), s2.pcs[w]? = some pc →
            pc.deciding = false ∧ pc.resetPending = false) →
          g2.resets = g.resets + 1)) ∧
    (∃ z1 z2 z3, Win32.step ix z (Win32.Action.racond_broadcast v) = some z1 ∧
      Win32.bcSignaled ix z1 = true ∧ z1.c.nWaiters = 0 ∧
      Win32.run ix z1 [.racond_wait t tk, .adv t, .adv t, .adv t, .adv t, .adv t] = some z2 ∧
      z2.pcs[t]? = some (Win32.PC.L159 INFINITE) ∧
      Win32.step ix z2 (Win32.Action.adv t) = some z3 ∧
      z3.pcs[t]? = some (Win32.PC.L162 (WAIT_OBJECT_0 + ix.EVENT_COND_BROADCAST.val)) ∧
      Win32.bcSignaled ix z3 = true) := by
  refine ⟨?_, ?_, ?_⟩
  · intro x a x' hk hstep h1 h2
    exact Win32.bc_reset_only_by_waiter hk hstep h1 h2
  · obtain ⟨hs1, hbc, hd⟩ := Win32.drain_start hn g hr hdue hres hs hu
    refine ⟨_, hs1, hbc, ?_, ?_⟩
    · intro acts s2 g2 hq hrun h0 hfin
      obtain ⟨c1, c2, c3⟩ := Win32.drain_end (Win32.drain_run hn acts hd hq hrun) h0 hfin
      refine ⟨c1, ?_, c2, c3⟩
      rw [Win32.clears_quiet acts hd.kinds hq (Win32.grun_run acts hrun), if_pos ⟨hbc, c1⟩]
    · intro hclean acts s2 g2 hq hrun h0 hfin
      have hep := Win32.episode_start hn g hr hdue hres hclean hs hu
      exact (Win32.episode_end (Win32.episode_run hn acts hep hq hrun) h0 hfin).2.1
  · obtain ⟨z1, z2, z3, h1, h2, h3, h4, h5, h6, h7, h8⟩ :=
      Win32.broadcast_retained ix z t v tk hzk hzl hzs hzv hzt hzm htk
    exact ⟨z1, z2, z3, h1, h2, h3.trans hz0, h4, h5, h6, h7, h8⟩

/-- Witness for `C5_broadcast_reset`: three blocked waiters are woken by the
broadcast of a fourth thread; when all three have left, the broadcast event is
unsignaled and `ResetEvent` has been executed once. The zero-waiter part is
instantiated at `stateMutexHeld`. -/
theorem C5_broadcast_reset_witness :
    Win32.Reachable sigFirst 4 Win32.stateThreeWaiters ∧
    ∃ s2 g2, Win32.step sigFirst Win32.stateThreeWaiters (Win32.Action.racond_broadcast 3)
        = some Win32.stateThreeWoken ∧
      Win32.grun sigFirst Win32.stateThreeWoken Win32.Ghost.zero Win32.schedAllLeave
        = some (s2, g2) ∧
      s2.c.nWaiters = 0 ∧ Win32.bcSignaled sigFirst s2 = false ∧
      Win32.clears sigFirst Win32.stateThreeWoken Win32.schedAllLeave = 1 ∧ g2.resets = 1 := by
  have hreach : Win32.Reachable sigFirst 4 Win32.stateThreeWaiters :=
    Win32.reachable_of_runInit Win32.schedThreeWaiters (by decide)
  have hpcs : ∀ (w : Tid) (pc : Win32.PC), Win32.stateThreeWaiters.pcs[w]? = some pc →
      pc = Win32.PC.idle ∨ pc = Win32.PC.L159 INFINITE := by
    intro w pc h
    obtain ⟨_, hget⟩ := List.getElem?_eq_some.mp h
    have hmem : pc ∈ Win32.stateThreeWaiters.pcs := hget ▸ List.getElem_mem _
    simp only [Win32.stateThreeWaiters, List.mem_cons, List.mem_singleton, List.not_mem_nil,
      or_false] at hmem
    rcases hmem with rfl | rfl | rfl | rfl
    · exact Or.inr rfl
    · exact Or.inr rfl
    · exact Or.inr rfl
    · exact Or.inl rfl
  have hres : ∀ (w : Tid) (pc : Win32.PC) (r : Nat), Win32.stateThreeWaiters.pcs[w]? = some pc →
      pc.result = some r → r = WAIT_OBJECT_0 + sigFirst.EVENT_COND_BROADCAST.val := by
    intro w pc r h hr
    rcases hpcs w pc h with rfl | rfl <;> cases hr
  have hclean : ∀ (w : Tid) (pc : Win32.PC), Win32.stateThreeWaiters.pcs[w]? = some pc →
      pc.entering = false ∧ pc.resetPending = false := by
    intro w pc h
    rcases hpcs w pc h with rfl | rfl <;> exact ⟨rfl, rfl⟩
  obtain ⟨-, ⟨s1, hstep, -, hall, hone⟩, -⟩ :=
    C5_broadcast_reset sigFirst 4 Win32.stateThreeWaiters Win32.stateMutexHeld Win32.Ghost.zero
      3 0 1 (-1) (by norm_num) hreach ⟨0, Win32.PC.L159 INFINITE, rfl, rfl⟩ hres (by decide)
      (by decide) ⟨by decide, by decide⟩ (by decide) (by decide) (by decide) (by decide)
      (by decide) (by decide) (by decide)
  have hlit : Win32.step sigFirst Win32.stateThreeWaiters (Win32.Action.racond_broadcast 3)
      = some Win32.stateThreeWoken := by decide
  have hs1 : s1 = Win32.stateThreeWoken := Option.some.inj (hstep.symm.trans hlit)
  subst hs1
  refine ⟨hreach, ?_⟩
  rcases hgr : Win32.grun sigFirst Win32.stateThreeWoken Win32.Ghost.zero Win32.schedAllLeave
    with _ | ⟨s2, g2⟩
  · have h1 : (Win32.grun sigFirst Win32.stateThreeWoken Win32.Ghost.zero
        Win32.schedAllLeave).isSome = true := by decide
    rw [hgr] at h1
    cases h1
  · have h1 : (Win32.grun sigFirst Win32.stateThreeWoken Win32.Ghost.zero
        Win32.schedAllLeave).map (fun r => (r.1.c.nWaiters, r.1.pcs))
          = some (0, [Win32.PC.L176, Win32.PC.L176, Win32.PC.L176, Win32.PC.idle]) := by
      decide
    rw [hgr] at h1
    have h2 := Prod.mk.inj (Option.some.inj h1)
    have h0 : s2.c.nWaiters = 0 := h2.1
    have hp : s2.pcs = [Win32.PC.L176, Win32.PC.L176, Win32.PC.L176, Win32.PC.idle] := h2.2
    have hfin : ∀ (w : Tid) (pc : Win32.PC), s2.pcs[w]? = some pc →
        pc.deciding = false ∧ pc.resetPending = false := by
      intro w pc h
      obtain ⟨_, hget⟩ := List.getElem?_eq_some.mp h
      have hmem : pc ∈ s2.pcs := hget ▸ List.getElem_mem _
      rw [hp] at hmem
      simp only [List.mem_cons, List.mem_singleton, List.not_mem_nil, or_false] at hmem
      rcases hmem with rfl | rfl | rfl | rfl <;> exact ⟨rfl, rfl⟩
    have hcalm : ∀ a ∈ Win32.schedAllLeave, a.calm = true := by decide
    obtain ⟨c1, c3, -, -⟩ :=
      hall Win32.schedAllLeave s2 g2 (Win32.quiet_of_calm_run hcalm) hgr h0 hfin
    have c2 := hone hclean Win32.schedAllLeave s2 g2 hcalm hgr h0 hfin
    exact ⟨s2, g2, hlit, rfl, h0, c1, c3, c2⟩

end RaMutex
